import Mathlib

/-! # rocketpool-go: the batched multicall query helpers and their consumers

A shallow embedding of the multicall helpers of `rocketpool/rocketpool.go`
(`Query`, `FlexQuery`, `BatchQuery`, `FlexBatchQuery`), of `SubmitTransactions` and the
first query of `LoadContracts`, of `GetLatestMemberCountChangedBlock` and
`ProposeInviteMember` (`dao/oracle/manager.go`), of `GetProposals` (`dao/proposals.go`)
and of the participation calculators of `utils/oracle/participation.go`.

* Go's `int` is taken at its 64-bit width: arithmetic on it is arithmetic on `Int`
  followed by two's-complement wrap-around (`wrapInt`).
* The collaborators that live outside the repository (`batch.NewMultiCaller`,
  `MultiCaller.FlexibleCall`, the caller's callbacks) are parameters (`Env`, `query`,
  `handleResult`).
* Go's `uint64` operations wrap around modulo `2 ^ 64`; a `float64` is a rational with a
  53-bit significand, an infinity or a NaN, and every operation rounds to nearest, ties to
  even (`F64`); a run-time panic is an outcome of its own (`Fault`).
* `errgroup.Group` is represented by what it does with the functions handed to `Go`:
  each one is run, and `Wait` hands back the error of the failing function that returned
  first. The instant at which a function returns is the parameter `finish`.
-/

namespace RocketPool

/-! ## Machine integers -/

/-- Two's-complement wrap-around of a mathematical integer into Go's 64-bit `int`. -/
def wrapInt (x : Int) : Int := (x + 2 ^ 63) % 2 ^ 64 - 2 ^ 63

/-! ## Errors -/

/-- Go `error` values: a base error, or `fmt.Errorf("<context>: %w", cause)`. -/
inductive GoError where
  | base (msg : String)
  | wrapped (context : String) (cause : GoError)
  deriving DecidableEq, Repr

/-! ## The dispatch loop -/

/-- One iteration of the dispatch loop: the bounds `i` and `max` captured by the closure,
read by its inner loop `for j := i; j < max; j++`. -/
structure Shard where
  lo : Int
  hi : Int
  deriving DecidableEq, Repr

/-- Index `j` is visited by the inner loop `for j := i; j < max; j++` of the shard. -/
def Shard.Mem (s : Shard) (j : Int) : Prop := s.lo ≤ j ∧ j < s.hi

instance Shard.decidableMem (s : Shard) (j : Int) : Decidable (s.Mem j) := by
  unfold Shard.Mem; infer_instance

/-- The item indices the inner loop `for j := i; j < max; j++` visits, in order. -/
def Shard.indices (s : Shard) : List Int :=
  (List.range (s.hi - s.lo).toNat).map (fun (k : Nat) => s.lo + (k : Int))

/-- The loop `for i := 0; i < count; i += batchSize` of `BatchQuery` and `FlexBatchQuery`,
started at loop index `i`, with the clamp `max := i + batchSize; if max > count { max = count }`.
It yields the shards in dispatch order, or `none` when `fuel` iterations do not reach the
loop exit. -/
def shardLoop (count batchSize : Int) : Nat → Int → Option (List Shard)
  | 0, _ => none
  | fuel + 1, i =>
    if i < count then
      let max := wrapInt (i + batchSize)
      let max := if max > count then count else max
      (shardLoop count batchSize fuel (wrapInt (i + batchSize))).map (fun rest => ⟨i, max⟩ :: rest)
    else some []

/-- The shards dispatched by `BatchQuery(count, batchSize, ...)`: the loop from `i := 0`. -/
def shardPlan (fuel : Nat) (count batchSize : Int) : Option (List Shard) :=
  shardLoop count batchSize fuel 0

/-- No loop index `i = 0, batchSize, 2 * batchSize, ...` below `count` makes `i + batchSize`
leave the range of the 64-bit `int`. -/
def NoOverflow (count batchSize : Int) : Prop :=
  ∀ i : Int, 0 ≤ i → i < count → batchSize ∣ i → i + batchSize < 2 ^ 63

/-- A plan that partitions `[i, N)` in order into shards of one to `S` indices. -/
structure PartitionsFrom (N S i : Int) (plan : List Shard) : Prop where
  count_eq : ∀ j : Int, plan.countP (fun s => decide (s.Mem j)) = if i ≤ j ∧ j < N then 1 else 0
  bounds : ∀ s ∈ plan, i ≤ s.lo ∧ 1 ≤ s.hi - s.lo ∧ s.hi - s.lo ≤ S ∧ s.hi ≤ N ∧ s.hi < 2 ^ 63
  indices_eq : plan.flatMap Shard.indices = Shard.indices ⟨i, N⟩
  ordered : plan.Pairwise (fun a b => a.hi ≤ b.lo)

/-- A batch size for which the third loop index overflows: `(2 ^ 63 + 1) / 3`. -/
def overflowBatchSize : Int := 3074457345618258603

/-- An item count with three shards of `overflowBatchSize`: `2 * overflowBatchSize + 1`. -/
def overflowCount : Int := 6148914691236517207

/-! ## Multicallers, collaborators and observable events -/

/-- A `batch.MultiCaller`: the calls registered on it so far, in registration order. -/
abbrev MultiCaller (Call : Type) := List Call

/-- The collaborators of the external `batch-query` library. The first argument of each
field names the call site: the loop index `i` of the shard task that issues the call
(`0` for `Query` and `FlexQuery`, which have a single call site each). -/
structure Env (Call : Type) where
  /-- The error of `batch.NewMultiCaller(rp.Client, *rp.MulticallAddress)`, `none` for `nil`. -/
  newMultiCaller : Int → Option GoError
  /-- The pair `([]bool, error)` of `mc.FlexibleCall(requireSuccess, opts)`; a `nil` slice
  and a `nil` error are `none`. -/
  flexibleCall : Int → Bool → MultiCaller Call → Option (List Bool) × Option GoError

/-- What a run does that an observer outside can see, in program order. -/
inductive Event (Call : Type) where
  | newMultiCaller
  | queryCall
  | query (j : Int)
  | flexibleCall (requireSuccess : Bool) (calls : List Call)
  | handleResult (result : Bool) (index : Int)
  deriving DecidableEq, Repr

/-- A function run to its `return`: the events it produced and the error it returned. -/
structure TaskRun (Call : Type) where
  events : List (Event Call)
  err : Option GoError
  deriving DecidableEq, Repr

/-- The callback of `Query` / `FlexQuery`: it registers calls on the multicaller or fails. -/
abbrev QueryFn (Call : Type) := MultiCaller Call → Except GoError (MultiCaller Call)

/-- The callback of `BatchQuery` / `FlexBatchQuery`, given the multicaller and an item index. -/
abbrev ItemQueryFn (Call : Type) := MultiCaller Call → Int → Except GoError (MultiCaller Call)

/-- The callback `handleResult(result, index)`, `none` for a `nil` error. -/
abbrev HandleFn := Bool → Int → Option GoError

/-! ## `Query` and `FlexQuery` -/

/-- `RocketPool.Query`. -/
def Query {Call : Type} (env : Env Call) (query : QueryFn Call) : TaskRun Call :=
  match env.newMultiCaller 0 with
  | some e => ⟨[.newMultiCaller], some (.wrapped "error creating multicaller" e)⟩
  | none =>
    match query [] with
    | .error e => ⟨[.newMultiCaller, .queryCall], some (.wrapped "error running multicall query" e)⟩
    | .ok mc =>
      match (env.flexibleCall 0 true mc).2 with
      | some e =>
        ⟨[.newMultiCaller, .queryCall, .flexibleCall true mc],
          some (.wrapped "error executing multicall" e)⟩
      | none => ⟨[.newMultiCaller, .queryCall, .flexibleCall true mc], none⟩

/-- `RocketPool.Query` for a callback that also assigns to variables it captures from its
caller: `st` holds their values before the call of `Query`, the second component of the
result their values after it. -/
def QueryWith {Call σ : Type} (env : Env Call)
    (query : MultiCaller Call → σ → Except GoError (MultiCaller Call) × σ) (st : σ) :
    TaskRun Call × σ :=
  match env.newMultiCaller 0 with
  | some e => (⟨[.newMultiCaller], some (.wrapped "error creating multicaller" e)⟩, st)
  | none =>
    match query [] st with
    | (.error e, st') =>
      (⟨[.newMultiCaller, .queryCall],
        some (.wrapped "error running multicall query" e)⟩, st')
    | (.ok mc, st') =>
      match (env.flexibleCall 0 true mc).2 with
      | some e =>
        (⟨[.newMultiCaller, .queryCall, .flexibleCall true mc],
          some (.wrapped "error executing multicall" e)⟩, st')
      | none => (⟨[.newMultiCaller, .queryCall, .flexibleCall true mc], none⟩, st')

/-- The outcome of `FlexQuery`: the events and the returned pair `([]bool, error)`. -/
structure FlexRun (Call : Type) where
  events : List (Event Call)
  results : Option (List Bool)
  err : Option GoError
  deriving DecidableEq, Repr

/-- `RocketPool.FlexQuery`. -/
def FlexQuery {Call : Type} (env : Env Call) (query : QueryFn Call) : FlexRun Call :=
  match env.newMultiCaller 0 with
  | some e => ⟨[.newMultiCaller], none, some (.wrapped "error creating multicaller" e)⟩
  | none =>
    match query [] with
    | .error e =>
      ⟨[.newMultiCaller, .queryCall], none, some (.wrapped "error running multicall query" e)⟩
    | .ok mc =>
      ⟨[.newMultiCaller, .queryCall, .flexibleCall false mc],
        (env.flexibleCall 0 false mc).1, (env.flexibleCall 0 false mc).2⟩

/-! ## Shard tasks -/

/-- The registration loop `for j := i; j < max; j++ { err := query(mc, j); ... }` over the
indices still to visit: the events, and the multicaller reached or the wrapped error. -/
def registerLoop {Call : Type} (query : ItemQueryFn Call) :
    List Int → MultiCaller Call → List (Event Call) × Except GoError (MultiCaller Call)
  | [], mc => ([], .ok mc)
  | j :: js, mc =>
    match query mc j with
    | .error e => ([.query j], .error (.wrapped "error running query adder" e))
    | .ok mc' => (.query j :: (registerLoop query js mc').1, (registerLoop query js mc').2)

/-- The function handed to `wg.Go` by `BatchQuery` for one shard. -/
def batchTask {Call : Type} (env : Env Call) (query : ItemQueryFn Call) (s : Shard) :
    TaskRun Call :=
  match env.newMultiCaller s.lo with
  | some e => ⟨[.newMultiCaller], some e⟩
  | none =>
    match registerLoop query s.indices [] with
    | (evs, .error e) => ⟨.newMultiCaller :: evs, some e⟩
    | (evs, .ok mc) =>
      match (env.flexibleCall s.lo true mc).2 with
      | some e =>
        ⟨.newMultiCaller :: (evs ++ [.flexibleCall true mc]),
          some (.wrapped "error executing multicall" e)⟩
      | none => ⟨.newMultiCaller :: (evs ++ [.flexibleCall true mc]), none⟩

/-- The loop `for j, result := range results { err = handleResult(result, j+i); ... }`,
with `j` the position of the next flag. -/
def handleLoop {Call : Type} (handleResult : HandleFn) (i : Int) :
    Int → List Bool → List (Event Call) × Option GoError
  | _, [] => ([], none)
  | j, result :: rest =>
    match handleResult result (wrapInt (j + i)) with
    | some e =>
      ([.handleResult result (wrapInt (j + i))],
        some (.wrapped "error running query result handler" e))
    | none =>
      (.handleResult result (wrapInt (j + i)) :: (@handleLoop Call handleResult i (j + 1) rest).1,
        (@handleLoop Call handleResult i (j + 1) rest).2)

/-- The function handed to `wg.Go` by `FlexBatchQuery` for one shard. -/
def flexTask {Call : Type} (env : Env Call) (query : ItemQueryFn Call)
    (handleResult : HandleFn) (s : Shard) : TaskRun Call :=
  match env.newMultiCaller s.lo with
  | some e => ⟨[.newMultiCaller], some e⟩
  | none =>
    match registerLoop query s.indices [] with
    | (evs, .error e) => ⟨.newMultiCaller :: evs, some e⟩
    | (evs, .ok mc) =>
      match env.flexibleCall s.lo false mc with
      | (_, some e) =>
        ⟨.newMultiCaller :: (evs ++ [.flexibleCall false mc]),
          some (.wrapped "error executing multicall" e)⟩
      | (results, none) =>
        ⟨.newMultiCaller :: (evs ++ .flexibleCall false mc ::
            (@handleLoop Call handleResult s.lo 0 (results.getD [])).1),
          (@handleLoop Call handleResult s.lo 0 (results.getD [])).2⟩

/-! ## The error group and the batched queries -/

/-- An `errgroup.Group`: the runs of the functions handed to `Go`, in dispatch order. -/
structure Group (Call : Type) where
  runs : List (TaskRun Call)

/-- The call `wg.Go(f)`: the function is run, whatever the earlier ones returned. -/
def Group.go {Call : Type} (wg : Group Call) (run : TaskRun Call) : Group Call :=
  ⟨wg.runs ++ [run]⟩

/-- Among the runs numbered from `k`, the failing one that returns first (its instant and
its error); of two failing runs that return at the same instant, the one dispatched first
is kept. -/
def firstFailure {Call : Type} (finish : Nat → Nat) :
    Nat → List (TaskRun Call) → Option (Nat × GoError)
  | _, [] => none
  | k, r :: rs =>
    match r.err, firstFailure finish (k + 1) rs with
    | none, later => later
    | some e, none => some (finish k, e)
    | some e, some (t, e') => if t < finish k then some (t, e') else some (finish k, e)

/-- The call `wg.Wait()`: the error of the first function to fail, `none` if none failed. -/
def Group.wait {Call : Type} (finish : Nat → Nat) (wg : Group Call) : Option GoError :=
  (firstFailure finish 0 wg.runs).map Prod.snd

/-- The dispatch loop of `BatchQuery` / `FlexBatchQuery` with the closure body `task`:
every iteration hands one function to `wg.Go`. `none` when `fuel` iterations do not reach
the loop exit. -/
def dispatchLoop {Call : Type} (task : Shard → TaskRun Call) (count batchSize : Int) :
    Nat → Int → Group Call → Option (Group Call)
  | 0, _, _ => none
  | fuel + 1, i, wg =>
    if i < count then
      let max := wrapInt (i + batchSize)
      let max := if max > count then count else max
      dispatchLoop task count batchSize fuel (wrapInt (i + batchSize)) (wg.go (task ⟨i, max⟩))
    else some wg

/-- The outcome of a batched query: the run of every dispatched shard task, in dispatch
order, and the error returned to the caller. -/
structure BatchRun (Call : Type) where
  runs : List (TaskRun Call)
  err : Option GoError

/-- The part after the loop: `if err := wg.Wait(); err != nil { return fmt.Errorf(...) }`. -/
def joinGroup {Call : Type} (finish : Nat → Nat) (wg : Group Call) : BatchRun Call :=
  ⟨wg.runs, (wg.wait finish).map (GoError.wrapped "error during multicall query")⟩

/-- `RocketPool.BatchQuery`; `none` when the dispatch loop does not exit within `fuel`
iterations. -/
def BatchQuery {Call : Type} (env : Env Call) (finish : Nat → Nat) (fuel : Nat)
    (count batchSize : Int) (query : ItemQueryFn Call) : Option (BatchRun Call) :=
  (dispatchLoop (batchTask env query) count batchSize fuel 0 ⟨[]⟩).map (joinGroup finish)

/-- `RocketPool.FlexBatchQuery`; `none` when the dispatch loop does not exit within `fuel`
iterations. -/
def FlexBatchQuery {Call : Type} (env : Env Call) (finish : Nat → Nat) (fuel : Nat)
    (count batchSize : Int) (query : ItemQueryFn Call) (handleResult : HandleFn) :
    Option (BatchRun Call) :=
  (dispatchLoop (flexTask env query handleResult) count batchSize fuel 0 ⟨[]⟩).map
    (joinGroup finish)

/-- The item indices passed to the query callback by a run, in order. -/
def queriedIndices {Call : Type} : List (Event Call) → List Int
  | [] => []
  | .query j :: evs => j :: queriedIndices evs
  | _ :: evs => queriedIndices evs

/-- The `(result, index)` pairs passed to `handleResult` by a run, in order. -/
def handledPairs {Call : Type} : List (Event Call) → List (Bool × Int)
  | [] => []
  | .handleResult r j :: evs => (r, j) :: handledPairs evs
  | _ :: evs => handledPairs evs

/-- The query callback returns no error at each of the indices `js` in turn: the first
call, made on the multicaller `mc`, and every later one, made on the multicaller that the
call before it returned. `mc'` is the multicaller that the last call returns. -/
def CallbacksOk {Call : Type} (query : ItemQueryFn Call) :
    List Int → MultiCaller Call → MultiCaller Call → Prop
  | [], mc, mc' => mc' = mc
  | j :: js, mc, mc' => ∃ mc1, query mc j = .ok mc1 ∧ CallbacksOk query js mc1 mc'

/-- A shard succeeds in strict mode: its multicaller is constructed, the query callback
returns no error at any index of the shard, and `FlexibleCall(true)` on the calls so
registered returns no error. -/
def ShardOk {Call : Type} (env : Env Call) (query : ItemQueryFn Call) (s : Shard) : Prop :=
  env.newMultiCaller s.lo = none ∧
    ∃ mc, CallbacksOk query s.indices [] mc ∧ (env.flexibleCall s.lo true mc).2 = none

/-! ## Concrete environments used as test inputs -/

/-- A query callback that registers one call per item: the item index itself. -/
def oneCallPerItem : ItemQueryFn Int := fun mc j => .ok (mc ++ [j])

/-- A query callback that fails at item `1` and registers the call `2 * j` for every other
item `j`. -/
def failingAtOne : ItemQueryFn Int :=
  fun mc j => if j = 1 then .error (.base "no such item") else .ok (mc ++ [2 * j])

/-- A query callback that registers two calls per item (as `LoadContracts` does for the
address and the ABI of a contract). -/
def twoCallsPerItem : ItemQueryFn Int := fun mc j => .ok (mc ++ [2 * j, 2 * j + 1])

/-- An environment in which every construction and round trip succeeds and a call
succeeds exactly when it is even; strict execution fails if some call failed. -/
def evenEnv : Env Int where
  newMultiCaller := fun _ => none
  flexibleCall := fun _ requireSuccess mc =>
    if requireSuccess && !(mc.all (fun c => c % 2 == 0)) then
      (none, some (.base "call failed"))
    else (some (mc.map (fun c => c % 2 == 0)), none)

/-- An environment in which no multicaller can be constructed. -/
def brokenEnv : Env Int where
  newMultiCaller := fun _ => some (.base "dial failed")
  flexibleCall := fun _ _ mc => (some (mc.map (fun _ => true)), none)

/-- Every function returns at the instant of its dispatch position. -/
def inOrder : Nat → Nat := fun k => k

/-! ## The Oracle DAO manager: latest member-count change -/

/-- The four events of `RocketDAONodeTrustedActions` that the topic filter of
`GetLatestMemberCountChangedBlock` lets through; the value of `log.Topics[0]`. -/
inductive ActionEvent where
  | ActionJoined
  | ActionLeave
  | ActionKick
  | ActionChallengeDecided
  deriving DecidableEq, Repr

/-- An event log as far as the scan reads it. `success` is what unpacking `log.Data` with
the inputs of `ActionChallengeDecided` yields: `none` when `UnpackIntoMap` returns an
error, otherwise the decoded `success` value. -/
structure Log where
  topic : ActionEvent
  success : Option Bool
  BlockNumber : Nat
  deriving DecidableEq, Repr

/-- The loop `for i := range logs { log := logs[len(logs)-i-1]; ... }` of
`GetLatestMemberCountChangedBlock`, over the logs still to visit, latest first. `err` is
the variable `err` of the function at that point. -/
def scanLogs (fromBlock : Nat) (err : Option GoError) : List Log → Nat × Option GoError
  | [] => (fromBlock, none)
  | log :: rest =>
    if log.topic = .ActionChallengeDecided then
      match log.success with
      | none => (0, err)
      | some true => (log.BlockNumber, none)
      | some false => scanLogs fromBlock err rest
    else (log.BlockNumber, none)

/-- `OracleDaoManager.GetLatestMemberCountChangedBlock`, given the outcome of
`utils.GetLogs` for the filter from `fromBlock`: the pair `(uint64, error)`. -/
def GetLatestMemberCountChangedBlock (getLogs : Except GoError (List Log)) (fromBlock : Nat) :
    Nat × Option GoError :=
  match getLogs with
  | .error e => (0, some e)
  | .ok logs => scanLogs fromBlock none logs.reverse

/-- A log changed the member count: it is a join, leave or kick event, or a decided
challenge whose decoded `success` field is true. -/
def Log.Qualifies (log : Log) : Prop :=
  log.topic ≠ .ActionChallengeDecided ∨ log.success = some true

/-- A log the scan steps over: a decided challenge whose decoded `success` is false. -/
def Log.Skipped (log : Log) : Prop :=
  log.topic = .ActionChallengeDecided ∧ log.success = some false

/-! ## Unsigned 64-bit arithmetic

Go's `uint64` operations wrap around modulo `2 ^ 64`. -/

/-- The sum `a + b` of two `uint64`. -/
def U64.add (a b : Nat) : Nat := (a + b) % 2 ^ 64

/-- The difference `a - b` of two `uint64`. -/
def U64.sub (a b : Nat) : Nat := (a + (2 ^ 64 - b % 2 ^ 64)) % 2 ^ 64

/-- The product `a * b` of two `uint64`. -/
def U64.mul (a b : Nat) : Nat := (a * b) % 2 ^ 64

/-- How a Go function call ends when it does not return a value: with a returned `error`
or with a run-time panic. -/
inductive Fault where
  | error (e : GoError)
  | panic (msg : String)
  deriving DecidableEq, Repr

/-- A `common.Address`. -/
abbrev Address := Nat

/-- A Go `map[common.Address]V`: the value stored under each key, if any. -/
abbrev AddressMap (V : Type) := Address → Option V

/-- The empty map `make(map[common.Address]V)`. -/
def AddressMap.empty {V : Type} : AddressMap V := fun _ => none

/-- The assignment `m[key] = value`. -/
def AddressMap.set {V : Type} (m : AddressMap V) (key : Address) (value : V) : AddressMap V :=
  fun a => if a = key then some value else m a

/-! ## `float64` -/

/-- The integer nearest to a rational, the even one of two that are equally near. -/
def roundHalfEven (x : ℚ) : Int :=
  if x - Int.floor x < 1 / 2 then Int.floor x
  else if 1 / 2 < x - Int.floor x then Int.floor x + 1
  else if Int.floor x % 2 = 0 then Int.floor x
  else Int.floor x + 1

/-- A `float64`: a finite value, an infinity or a NaN. The sign of a zero is not
represented: the only zero that this code divides by is a converted unsigned integer,
which is `+0`. -/
inductive F64 where
  | finite (value : ℚ)
  | posInf
  | negInf
  | nan
  deriving DecidableEq

/-- The rounding applied by every `float64` operation: to the nearest value with a
significand of 53 bits, the one with the even significand of two that are equally near. A
value `x` with `2 ^ e ≤ |x| < 2 ^ (e + 1)` is rounded to a multiple of `2 ^ (e - 52)`. The
exponent is not bounded: the calculators compute from 64-bit integers and stay far inside
the exponent range of `float64`, so neither overflow nor gradual underflow is
represented. -/
def F64.round (x : ℚ) : ℚ :=
  if x = 0 then 0
  else (roundHalfEven (x / (2 : ℚ) ^ (Int.log 2 |x| - 52)) : ℚ) * (2 : ℚ) ^ (Int.log 2 |x| - 52)

/-- The conversion `float64(n)` of an unsigned integer. -/
def F64.ofNat (n : Nat) : F64 := .finite (F64.round (n : ℚ))

/-- The conversion `float64(n)` of a signed integer. -/
def F64.ofInt (n : Int) : F64 := .finite (F64.round (n : ℚ))

/-- The negation `-x`. -/
def F64.neg : F64 → F64
  | .finite a => .finite (-a)
  | .posInf => .negInf
  | .negInf => .posInf
  | .nan => .nan

/-- The sum `x + y`. -/
def F64.add : F64 → F64 → F64
  | .finite a, .finite b => .finite (F64.round (a + b))
  | .finite _, .posInf => .posInf
  | .finite _, .negInf => .negInf
  | .posInf, .finite _ => .posInf
  | .posInf, .posInf => .posInf
  | .negInf, .finite _ => .negInf
  | .negInf, .negInf => .negInf
  | _, _ => .nan

/-- The difference `x - y`. -/
def F64.sub (x y : F64) : F64 := F64.add x (F64.neg y)

/-- The product `x * y`. -/
def F64.mul : F64 → F64 → F64
  | .finite a, .finite b => .finite (F64.round (a * b))
  | .finite a, .posInf => if a = 0 then .nan else if 0 < a then .posInf else .negInf
  | .finite a, .negInf => if a = 0 then .nan else if 0 < a then .negInf else .posInf
  | .posInf, .finite b => if b = 0 then .nan else if 0 < b then .posInf else .negInf
  | .negInf, .finite b => if b = 0 then .nan else if 0 < b then .negInf else .posInf
  | .posInf, .posInf => .posInf
  | .negInf, .negInf => .posInf
  | .posInf, .negInf => .negInf
  | .negInf, .posInf => .negInf
  | _, _ => .nan

/-- The quotient `x / y`; a finite value divided by zero is an infinity, or a NaN if it is
zero as well. -/
def F64.div : F64 → F64 → F64
  | .finite a, .finite b =>
    if b = 0 then (if a = 0 then .nan else if 0 < a then .posInf else .negInf)
    else .finite (F64.round (a / b))
  | .finite _, .posInf => .finite 0
  | .finite _, .negInf => .finite 0
  | .posInf, .finite b => if 0 ≤ b then .posInf else .negInf
  | .negInf, .finite b => if 0 ≤ b then .negInf else .posInf
  | _, _ => .nan

/-- The function `math.Floor`. -/
def F64.floor : F64 → F64
  | .finite a => .finite (Int.floor a : Int)
  | x => x

/-! ## The participation calculators -/

/-- `TrustedNodeParticipation`, the result of the participation calculation. -/
structure TrustedNodeParticipation where
  StartBlock : Nat
  UpdateFrequency : Nat
  UpdateCount : Nat
  Probability : F64
  ExpectedSubmissions : F64
  ActualSubmissions : AddressMap F64
  Participation : AddressMap (List Bool)

/-- What the calculators obtain from their collaborators (the execution client, the
settings and manager bindings, the log scanner and gonum's `mathext`). -/
structure CalcEnv where
  /-- `c.rp.Client.BlockNumber(context.Background())`. -/
  BlockNumber : Except GoError Nat
  /-- The error of `c.rp.Query(nil, opts, SubmitPricesFrequency, MemberCount)`. -/
  pricesQuery : Option GoError
  /-- The error of `c.rp.Query(nil, opts, SubmitBalancesFrequency, MemberCount)`. -/
  balancesQuery : Option GoError
  /-- `c.pds.Network.SubmitPricesFrequency.Formatted()` after the query. -/
  SubmitPricesFrequency : Nat
  /-- `c.pds.Network.SubmitBalancesFrequency.Formatted()` after the query. -/
  SubmitBalancesFrequency : Nat
  /-- `c.odaoMgr.MemberCount.Formatted()` after the query. -/
  MemberCount : Nat
  /-- The outcome of `utils.GetLogs` for the member-count events from a block on. -/
  GetLogs : Nat → Except GoError (List Log)
  /-- `c.odaoMgr.GetMemberAddresses(memberCount, opts)`. -/
  GetMemberAddresses : Nat → Except GoError (List Address)
  /-- `c.nm.GetPricesSubmissions(member, startBlock, intervalSize, opts)`. -/
  GetPricesSubmissions : Address → Nat → Except GoError (List Nat)
  /-- `c.nm.GetBalancesSubmissions(member, startBlock, intervalSize, opts)`. -/
  GetBalancesSubmissions : Address → Nat → Except GoError (List Nat)
  /-- `c.nm.GetLatestPricesSubmissions(fromBlock, intervalSize, opts)`. -/
  GetLatestPricesSubmissions : Nat → Except GoError (List Address)
  /-- `c.nm.GetLatestBalancesSubmissions(fromBlock, intervalSize, opts)`. -/
  GetLatestBalancesSubmissions : Nat → Except GoError (List Address)
  /-- `mathext.GammaIncReg(a, x)`. -/
  GammaIncReg : F64 → F64 → F64

/-- The block number the calculation runs at: `opts.BlockNumber.Uint64()`, where a `nil`
`opts` is replaced by one holding the current block number of the client. -/
def optsBlockNumber (env : CalcEnv) (opts : Option Nat) : Except GoError Nat :=
  match opts with
  | some blockNumber => .ok blockNumber
  | none =>
    match env.BlockNumber with
    | .error e => .error (.wrapped "error getting current block number" e)
    | .ok currentBlockNumber => .ok currentBlockNumber

/-- The expression `(blockNumber/frequency - 50) * frequency` assigned to `minBlock`. -/
def minBlock (blockNumber frequency : Nat) : Nat :=
  U64.mul (U64.sub (blockNumber / frequency) 50) frequency

/-- The expression `(latestMemberCountChangedBlock/frequency + 1) * frequency` assigned to
`startBlock`. -/
def startBlock (latestMemberCountChangedBlock frequency : Nat) : Nat :=
  U64.mul (U64.add (latestMemberCountChangedBlock / frequency) 1) frequency

/-- The expression `math.Floor(float64(memberCount)/2 + 1)` assigned to `consensus`. -/
def consensus (memberCount : Nat) : F64 :=
  F64.floor (F64.add (F64.div (F64.ofNat memberCount) (.finite 2)) (.finite 1))

/-- The value of `intervalsPassed`: `0`, replaced by
`(blockNumber-startBlock)/frequency + 1` if `blockNumber > startBlock`. -/
def intervalsPassed (blockNumber start frequency : Nat) : Nat :=
  if blockNumber > start then U64.add (U64.sub blockNumber start / frequency) 1 else 0

/-- The expression `float64(intervalsPassed) * consensus / float64(memberCount)` assigned
to `expected`. -/
def expected (intervals : Nat) (memberCount : Nat) : F64 :=
  F64.div (F64.mul (F64.ofNat intervals) (consensus memberCount)) (F64.ofNat memberCount)

/-- The loop `for _, block := range *blocks` that fills the participation row of one
member: an in-step block sets the flag at `block/frequency - startBlock/frequency`, and
indexing the row out of range panics. -/
def markBlocks (frequency start : Nat) : List Nat → List Bool → Except Fault (List Bool)
  | [], row => .ok row
  | block :: blocks, row =>
    if block % frequency = 0 then
      if U64.sub (block / frequency) (start / frequency) < row.length then
        markBlocks frequency start blocks
          (row.set (U64.sub (block / frequency) (start / frequency)) true)
      else .error (.panic "index out of range")
    else markBlocks frequency start blocks row

/-- The variables `participationTable`, `submissions` and `chi` of the member loop. -/
structure LoopState where
  participationTable : AddressMap (List Bool)
  submissions : AddressMap F64
  chi : F64

/-- The loop `for _, member := range members` of
`CalculateTrustedNodePricesParticipation`, over the members still to visit. -/
def pricesMemberLoop (env : CalcEnv) (frequency start intervals : Nat) (expect : F64) :
    List Address → LoopState → Except Fault LoopState
  | [], st => .ok st
  | member :: members, st =>
    if intervals > 0 then
      match env.GetPricesSubmissions member start with
      | .error e => .error (.error e)
      | .ok blocks =>
        match markBlocks frequency start blocks (List.replicate intervals false) with
        | .error fault => .error fault
        | .ok row =>
          pricesMemberLoop env frequency start intervals expect members
            ⟨st.participationTable.set member row,
              st.submissions.set member (F64.ofNat blocks.length),
              F64.add st.chi
                (F64.div
                  (F64.mul (F64.sub (F64.ofNat blocks.length) expect)
                    (F64.sub (F64.ofNat blocks.length) expect))
                  expect)⟩
    else
      pricesMemberLoop env frequency start intervals expect members
        ⟨st.participationTable.set member (List.replicate intervals false),
          st.submissions.set member (F64.ofNat 0), st.chi⟩

/-- `TrustedNodeParticipationCalculator.CalculateTrustedNodePricesParticipation`. -/
def CalculateTrustedNodePricesParticipation (env : CalcEnv) (opts : Option Nat) :
    Except Fault TrustedNodeParticipation :=
  match optsBlockNumber env opts with
  | .error e => .error (.error e)
  | .ok blockNumber =>
    match env.pricesQuery with
    | some e => .error (.error (.wrapped "error during initial parameter update" e))
    | none =>
      if env.SubmitPricesFrequency = 0 then .error (.panic "integer divide by zero")
      else
        match GetLatestMemberCountChangedBlock
            (env.GetLogs (minBlock blockNumber env.SubmitPricesFrequency))
            (minBlock blockNumber env.SubmitPricesFrequency) with
        | (_, some e) => .error (.error e)
        | (latestMemberCountChangedBlock, none) =>
          match env.GetMemberAddresses env.MemberCount with
          | .error e =>
            .error (.error (.wrapped "error getting Oracle DAO member addresses" e))
          | .ok members =>
            match pricesMemberLoop env env.SubmitPricesFrequency
                (startBlock latestMemberCountChangedBlock env.SubmitPricesFrequency)
                (intervalsPassed blockNumber
                  (startBlock latestMemberCountChangedBlock env.SubmitPricesFrequency)
                  env.SubmitPricesFrequency)
                (expected (intervalsPassed blockNumber
                  (startBlock latestMemberCountChangedBlock env.SubmitPricesFrequency)
                  env.SubmitPricesFrequency) env.MemberCount)
                members ⟨AddressMap.empty, AddressMap.empty, .finite 0⟩ with
            | .error fault => .error fault
            | .ok st =>
              .ok {
                Probability :=
                  if intervalsPassed blockNumber
                      (startBlock latestMemberCountChangedBlock env.SubmitPricesFrequency)
                      env.SubmitPricesFrequency > 0 then
                    F64.sub (.finite 1)
                      (env.GammaIncReg
                        (F64.div (F64.ofInt ((members.length : Int) - 1)) (.finite 2))
                        (F64.div st.chi (.finite 2)))
                  else .finite 1
                ExpectedSubmissions :=
                  expected (intervalsPassed blockNumber
                    (startBlock latestMemberCountChangedBlock env.SubmitPricesFrequency)
                    env.SubmitPricesFrequency) env.MemberCount
                ActualSubmissions := st.submissions
                StartBlock := startBlock latestMemberCountChangedBlock env.SubmitPricesFrequency
                UpdateFrequency := env.SubmitPricesFrequency
                UpdateCount :=
                  intervalsPassed blockNumber
                    (startBlock latestMemberCountChangedBlock env.SubmitPricesFrequency)
                    env.SubmitPricesFrequency
                Participation := st.participationTable }

/-- The loop `for _, member := range members` of
`CalculateTrustedNodeBalancesParticipation`, over the members still to visit. -/
def balancesMemberLoop (env : CalcEnv) (frequency start intervals : Nat) (expect : F64) :
    List Address → LoopState → Except Fault LoopState
  | [], st => .ok st
  | member :: members, st =>
    if intervals > 0 then
      match env.GetBalancesSubmissions member start with
      | .error e => .error (.error e)
      | .ok blocks =>
        match markBlocks frequency start blocks (List.replicate intervals false) with
        | .error fault => .error fault
        | .ok row =>
          balancesMemberLoop env frequency start intervals expect members
            ⟨st.participationTable.set member row,
              st.submissions.set member (F64.ofNat blocks.length),
              F64.add st.chi
                (F64.div
                  (F64.mul (F64.sub (F64.ofNat blocks.length) expect)
                    (F64.sub (F64.ofNat blocks.length) expect))
                  expect)⟩
    else
      balancesMemberLoop env frequency start intervals expect members
        ⟨st.participationTable.set member (List.replicate intervals false),
          st.submissions.set member (F64.ofNat 0), st.chi⟩

/-- `TrustedNodeParticipationCalculator.CalculateTrustedNodeBalancesParticipation`. -/
def CalculateTrustedNodeBalancesParticipation (env : CalcEnv) (opts : Option Nat) :
    Except Fault TrustedNodeParticipation :=
  match optsBlockNumber env opts with
  | .error e => .error (.error e)
  | .ok blockNumber =>
    match env.balancesQuery with
    | some e => .error (.error (.wrapped "error during initial parameter update" e))
    | none =>
      if env.SubmitBalancesFrequency = 0 then .error (.panic "integer divide by zero")
      else
        match GetLatestMemberCountChangedBlock
            (env.GetLogs (minBlock blockNumber env.SubmitBalancesFrequency))
            (minBlock blockNumber env.SubmitBalancesFrequency) with
        | (_, some e) => .error (.error e)
        | (latestMemberCountChangedBlock, none) =>
          match env.GetMemberAddresses env.MemberCount with
          | .error e =>
            .error (.error (.wrapped "error getting Oracle DAO member addresses" e))
          | .ok members =>
            match balancesMemberLoop env env.SubmitBalancesFrequency
                (startBlock latestMemberCountChangedBlock env.SubmitBalancesFrequency)
                (intervalsPassed blockNumber
                  (startBlock latestMemberCountChangedBlock env.SubmitBalancesFrequency)
                  env.SubmitBalancesFrequency)
                (expected (intervalsPassed blockNumber
                  (startBlock latestMemberCountChangedBlock env.SubmitBalancesFrequency)
                  env.SubmitBalancesFrequency) env.MemberCount)
                members ⟨AddressMap.empty, AddressMap.empty, .finite 0⟩ with
            | .error fault => .error fault
            | .ok st =>
              .ok {
                Probability :=
                  if intervalsPassed blockNumber
                      (startBlock latestMemberCountChangedBlock env.SubmitBalancesFrequency)
                      env.SubmitBalancesFrequency > 0 then
                    F64.sub (.finite 1)
                      (env.GammaIncReg
                        (F64.div (F64.ofInt ((members.length : Int) - 1)) (.finite 2))
                        (F64.div st.chi (.finite 2)))
                  else .finite 1
                ExpectedSubmissions :=
                  expected (intervalsPassed blockNumber
                    (startBlock latestMemberCountChangedBlock env.SubmitBalancesFrequency)
                    env.SubmitBalancesFrequency) env.MemberCount
                ActualSubmissions := st.submissions
                StartBlock := startBlock latestMemberCountChangedBlock env.SubmitBalancesFrequency
                UpdateFrequency := env.SubmitBalancesFrequency
                UpdateCount :=
                  intervalsPassed blockNumber
                    (startBlock latestMemberCountChangedBlock env.SubmitBalancesFrequency)
                    env.SubmitBalancesFrequency
                Participation := st.participationTable }

/-- The two loops that build the result table of the latest-participation functions:
every member is entered with `false`, then every submitter with `true`. -/
def latestTable (members submissions : List Address) : AddressMap Bool :=
  submissions.foldl (fun table submission => table.set submission true)
    (members.foldl (fun table member => table.set member false) AddressMap.empty)

/-- `TrustedNodeParticipationCalculator.GetTrustedNodeLatestBalancesParticipation`. -/
def GetTrustedNodeLatestBalancesParticipation (env : CalcEnv) (opts : Option Nat) :
    Except Fault (AddressMap Bool) :=
  match optsBlockNumber env opts with
  | .error e => .error (.error e)
  | .ok blockNumber =>
    match env.balancesQuery with
    | some e => .error (.error (.wrapped "error during initial parameter update" e))
    | none =>
      match env.GetMemberAddresses env.MemberCount with
      | .error e => .error (.error (.wrapped "error getting Oracle DAO member addresses" e))
      | .ok members =>
        if env.SubmitBalancesFrequency = 0 then .error (.panic "integer divide by zero")
        else
          match env.GetLatestBalancesSubmissions
              (U64.mul (blockNumber / env.SubmitBalancesFrequency)
                env.SubmitBalancesFrequency) with
          | .error e => .error (.error e)
          | .ok submissions => .ok (latestTable members submissions)

/-- `TrustedNodeParticipationCalculator.GetTrustedNodeLatestPricesParticipation`. -/
def GetTrustedNodeLatestPricesParticipation (env : CalcEnv) (opts : Option Nat) :
    Except Fault (AddressMap Bool) :=
  match optsBlockNumber env opts with
  | .error e => .error (.error e)
  | .ok blockNumber =>
    match env.pricesQuery with
    | some e => .error (.error (.wrapped "error during initial parameter update" e))
    | none =>
      match env.GetMemberAddresses env.MemberCount with
      | .error e => .error (.error (.wrapped "error getting Oracle DAO member addresses" e))
      | .ok members =>
        if env.SubmitPricesFrequency = 0 then .error (.panic "integer divide by zero")
        else
          match env.GetLatestPricesSubmissions
              (U64.mul (blockNumber / env.SubmitPricesFrequency)
                env.SubmitPricesFrequency) with
          | .error e => .error (.error e)
          | .ok submissions => .ok (latestTable members submissions)

/-! ## Submitting transaction bundles -/

/-- The outcome of `SubmitTransactions`: the calls made to `core.ExecuteTransaction`, in
order, each with the position of the transaction in the bundle and the value of
`opts.Nonce` at the call; the returned pair `([]*types.Transaction, error)`; and the value
of `opts.Nonce` left behind. -/
structure SubmitRun (Tx : Type) where
  calls : List (Nat × Option Int)
  txs : Option (List Tx)
  err : Option GoError
  nonce : Option Int

/-- The loop `for i, txInfo := range txInfos` of `SubmitTransactions` from position `i`
on, with `txs` the transactions stored so far and `nonce` the current `opts.Nonce`. -/
def submitLoop {TxInfo Tx : Type} (execute : Nat → TxInfo → Option Int → Except GoError Tx) :
    Nat → List TxInfo → Option Int → List Tx → SubmitRun Tx
  | _, [], nonce, txs => ⟨[], some txs, none, nonce⟩
  | i, txInfo :: rest, nonce, txs =>
    match execute i txInfo nonce with
    | .error e =>
      ⟨[(i, nonce)], none,
        some (.wrapped ("error creating transaction " ++ toString i ++ " in bundle") e), nonce⟩
    | .ok tx =>
      let run := submitLoop execute (i + 1) rest (nonce.map (fun n => n + 1)) (txs ++ [tx])
      ⟨(i, nonce) :: run.calls, run.txs, run.err, run.nonce⟩

/-- `RocketPool.SubmitTransactions`, with `execute i txInfo nonce` the outcome of
`core.ExecuteTransaction(rp.Client, txInfo.Data, txInfo.To, opts)` for the transaction at
position `i` when `opts.Nonce` is `nonce`. -/
def SubmitTransactions {TxInfo Tx : Type}
    (execute : Nat → TxInfo → Option Int → Except GoError Tx) (txInfos : List TxInfo)
    (nonce : Option Int) : SubmitRun Tx :=
  submitLoop execute 0 txInfos nonce []

/-! ## Vocabulary for the statements about the calculators -/

/-- The same collaborators with the roles of prices and balances exchanged. -/
def CalcEnv.swap (env : CalcEnv) : CalcEnv where
  BlockNumber := env.BlockNumber
  pricesQuery := env.balancesQuery
  balancesQuery := env.pricesQuery
  SubmitPricesFrequency := env.SubmitBalancesFrequency
  SubmitBalancesFrequency := env.SubmitPricesFrequency
  MemberCount := env.MemberCount
  GetLogs := env.GetLogs
  GetMemberAddresses := env.GetMemberAddresses
  GetPricesSubmissions := env.GetBalancesSubmissions
  GetBalancesSubmissions := env.GetPricesSubmissions
  GetLatestPricesSubmissions := env.GetLatestBalancesSubmissions
  GetLatestBalancesSubmissions := env.GetLatestPricesSubmissions
  GammaIncReg := env.GammaIncReg

/-- The same collaborators with another outcome for the two per-member submission
queries. -/
def CalcEnv.withSubmissions (env : CalcEnv)
    (submissions : Address → Nat → Except GoError (List Nat)) : CalcEnv where
  BlockNumber := env.BlockNumber
  pricesQuery := env.pricesQuery
  balancesQuery := env.balancesQuery
  SubmitPricesFrequency := env.SubmitPricesFrequency
  SubmitBalancesFrequency := env.SubmitBalancesFrequency
  MemberCount := env.MemberCount
  GetLogs := env.GetLogs
  GetMemberAddresses := env.GetMemberAddresses
  GetPricesSubmissions := submissions
  GetBalancesSubmissions := submissions
  GetLatestPricesSubmissions := env.GetLatestPricesSubmissions
  GetLatestBalancesSubmissions := env.GetLatestBalancesSubmissions
  GammaIncReg := env.GammaIncReg

/-- The calls of `CalculateTrustedNodePricesParticipation` that precede the member loop
succeed: the block number is `blockNumber`, the parameter query returns no error, the
frequency is not zero, the baseline scan returns `latest` and the member list is
`members`. -/
def PricesInputs (env : CalcEnv) (opts : Option Nat) (blockNumber latest : Nat)
    (members : List Address) : Prop :=
  optsBlockNumber env opts = .ok blockNumber ∧ env.pricesQuery = none ∧
    env.SubmitPricesFrequency ≠ 0 ∧
    GetLatestMemberCountChangedBlock
        (env.GetLogs (minBlock blockNumber env.SubmitPricesFrequency))
        (minBlock blockNumber env.SubmitPricesFrequency) = (latest, none) ∧
    env.GetMemberAddresses env.MemberCount = .ok members

/-- The calls of `CalculateTrustedNodeBalancesParticipation` that precede the member loop
succeed, as in `PricesInputs`. -/
def BalancesInputs (env : CalcEnv) (opts : Option Nat) (blockNumber latest : Nat)
    (members : List Address) : Prop :=
  optsBlockNumber env opts = .ok blockNumber ∧ env.balancesQuery = none ∧
    env.SubmitBalancesFrequency ≠ 0 ∧
    GetLatestMemberCountChangedBlock
        (env.GetLogs (minBlock blockNumber env.SubmitBalancesFrequency))
        (minBlock blockNumber env.SubmitBalancesFrequency) = (latest, none) ∧
    env.GetMemberAddresses env.MemberCount = .ok members

/-- The number of blocks a submission query returned, as the `float64` the calculators
use for `actual`; `0` if the query failed. -/
def actualCount (submissions : Except GoError (List Nat)) : F64 :=
  match submissions with
  | .ok blocks => F64.ofNat blocks.length
  | .error _ => F64.ofNat 0

/-- One summand `(delta * delta) / expected` of the chi-square statistic. -/
def chiTerm (actual expect : F64) : F64 :=
  F64.div (F64.mul (F64.sub actual expect) (F64.sub actual expect)) expect

/-- What the member loop leaves for one member: its participation row and its entry of
`submissions`, given the outcome of the submission query for it. -/
def MemberEntry (frequency start intervals : Nat) (submissions : Except GoError (List Nat))
    (row : List Bool) (entry : Option F64) : Prop :=
  if 0 < intervals then
    ∃ blocks, submissions = .ok blocks ∧
      markBlocks frequency start blocks (List.replicate intervals false) = .ok row ∧
      entry = some (F64.ofNat blocks.length)
  else row = List.replicate intervals false ∧ entry = some (F64.ofNat 0)

/-- The value the calculators construct and return once the member loop has ended in
state `st`. -/
def participationOf (gammaIncReg : F64 → F64 → F64) (frequency blockNumber latest memberCount : Nat)
    (members : List Address) (st : LoopState) : TrustedNodeParticipation where
  StartBlock := startBlock latest frequency
  UpdateFrequency := frequency
  UpdateCount := intervalsPassed blockNumber (startBlock latest frequency) frequency
  Probability :=
    if intervalsPassed blockNumber (startBlock latest frequency) frequency > 0 then
      F64.sub (.finite 1)
        (gammaIncReg (F64.div (F64.ofInt ((members.length : Int) - 1)) (.finite 2))
          (F64.div st.chi (.finite 2)))
    else .finite 1
  ExpectedSubmissions :=
    expected (intervalsPassed blockNumber (startBlock latest frequency) frequency) memberCount
  ActualSubmissions := st.submissions
  Participation := st.participationTable

/-! ## Concrete inputs for the calculators -/

/-- Collaborators for a network with update frequency 100 on which a member joined at
block 4950: the current block, the member list and the submission blocks of each member
are given; `GammaIncReg a 0 = 0`. -/
def sampleEnv (blockNumber : Nat) (members : List Address)
    (blocks : Address → Except GoError (List Nat)) : CalcEnv where
  BlockNumber := .ok blockNumber
  pricesQuery := none
  balancesQuery := none
  SubmitPricesFrequency := 100
  SubmitBalancesFrequency := 100
  MemberCount := members.length
  GetLogs := fun _ => .ok [⟨.ActionJoined, none, 4950⟩]
  GetMemberAddresses := fun _ => .ok members
  GetPricesSubmissions := fun member _ => blocks member
  GetBalancesSubmissions := fun member _ => blocks member
  GetLatestPricesSubmissions := fun _ => .ok [8, 9]
  GetLatestBalancesSubmissions := fun _ => .ok [8, 9]
  GammaIncReg := fun _ x => if x = .finite 0 then .finite 0 else .finite (1 / 2)

/-- Member 7 submitted at blocks 5100 and 5150, every other member at 5000 and 5200. -/
def sampleBlocks : Address → Except GoError (List Nat) :=
  fun member => if member = 7 then .ok [5100, 5150] else .ok [5000, 5200]

/-- The chi-square statistic of the calculators: the sum over the members, accumulated in
their order from `0`, of `(actual - expected)^2 / expected`, with `actual` the number of
submission blocks returned for the member. -/
def chiSquare (submissions : Address → Except GoError (List Nat)) (members : List Address)
    (expect : F64) : F64 :=
  members.foldl (fun chi a => F64.add chi (chiTerm (actualCount (submissions a)) expect))
    (.finite 0)

/-- Member 7 submitted only at block 5150, off the interval boundary; every other member
at 5000 and 5200. -/
def misalignedBlocks : Address → Except GoError (List Nat) :=
  fun member => if member = 7 then .ok [5150] else .ok [5000, 5200]

/-- A sample `core.ExecuteTransaction`: it creates the transaction `(txInfo, nonce)` and
fails on the transaction info `0`. -/
def sampleExecute : Nat → Nat → Option Int → Except GoError (Nat × Option Int) :=
  fun _ txInfo nonce => if txInfo = 0 then .error (.base "reverted") else .ok (txInfo, nonce)

/-! ## Counting interval boundaries -/

/-- The number of multiples of `f` in the closed range `[s, B]`. -/
def multiplesIn (f s B : Nat) : Nat :=
  ((List.range (B + 1)).filter (fun x => decide (s ≤ x ∧ x % f = 0))).length

/-! ## `LoadContracts`: the first flexible query -/

/-- The calls that the callback of the first query of `LoadContracts` registers on
`RocketStorage`, one pair per contract name. -/
inductive StorageCall where
  | GetAddress (contractName : String)
  | GetAbi (contractName : String)
  deriving DecidableEq, Repr

/-- The callback of the first `FlexQuery` of `LoadContracts`: for each contract name, in
order, `rp.Storage.GetAddress` and then `rp.Storage.GetAbi` add one call each to the
multicaller; the callback never fails. -/
def loadContractsQuery (contractNames : List String) : QueryFn StorageCall :=
  fun mc => .ok (mc ++ contractNames.flatMap (fun contractName =>
    [StorageCall.GetAddress contractName, StorageCall.GetAbi contractName]))

/-- The scan `for i, result := range results { if !result { contractName :=
contractNames[i]; return fmt.Errorf(...) } }`, with `i` the position of the next flag:
`none` when the loop ends without returning, and a panic when `contractNames[i]` is out of
range. -/
def scanLoadResults (contractNames : List String) : Nat → List Bool → Option Fault
  | _, [] => none
  | i, result :: rest =>
    if !result then
      match contractNames[i]? with
      | none => some (.panic "index out of range")
      | some contractName =>
        some (.error (.base ("failed getting address and ABI for contract " ++ contractName)))
    else scanLoadResults contractNames (i + 1) rest

/-- `RocketPool.LoadContracts` from its start to the end of the scan over the results of
its first `FlexQuery`: the way the function ends there, or `none` when it goes on to create
the contract objects. -/
def loadContractsFirstQuery (env : Env StorageCall) (contractNames : List String) :
    Option Fault :=
  match (FlexQuery env (loadContractsQuery contractNames)).err with
  | some e => some (.error (.wrapped "error getting addresses and ABIs" e))
  | none =>
    scanLoadResults contractNames 0
      ((FlexQuery env (loadContractsQuery contractNames)).results.getD [])

/-- An environment in which every round trip succeeds and exactly the call `failing`
fails. -/
def storageEnv (failing : StorageCall) : Env StorageCall where
  newMultiCaller := fun _ => none
  flexibleCall := fun _ _ mc => (some (mc.map (fun call => decide (call ≠ failing))), none)

/-! ## `GetProposals` -/

/-- A `Proposal` as far as `GetProposals` reads it: `Details.ID` and, once the query has
run, `Details.DAO`. -/
structure Proposal where
  ID : Nat
  DAO : String
  deriving DecidableEq, Repr

/-- The proposal IDs `1, 2, ..., proposalCount` visited by the loop
`for i := uint64(1); i <= proposalCount; i++`. -/
def proposalIds (proposalCount : Nat) : List Nat :=
  (List.range proposalCount).map (fun (k : Nat) => k + 1)

/-- The callback that `GetProposals` passes to `rp.Query`, over the IDs still to visit,
with the slice `props` that it captures: `NewProposal(rp, i)` (whose error is
`newProposal i`), the store `props[i-1] = prop`, and `prop.GetAllDetails(mc)` (which
registers the calls `detailCalls i`). A slot of the slice is `none` for a nil pointer and
`some i` for the proposal created with ID `i`; the loop runs over `1..proposalCount` on a
slice of length `proposalCount`, so every store is inside the slice. -/
def proposalsCallback {Call : Type} (newProposal : Nat → Option GoError)
    (detailCalls : Nat → List Call) :
    List Nat → MultiCaller Call → List (Option Nat) →
      Except GoError (MultiCaller Call) × List (Option Nat)
  | [], mc, props => (.ok mc, props)
  | i :: ids, mc, props =>
    match newProposal i with
    | some _ => (.error (.base ("error creating DAO proposal " ++ toString i)), props)
    | none =>
      proposalsCallback newProposal detailCalls ids (mc ++ detailCalls i)
        (props.set (i - 1) (some i))

/-- The error of `GetProposals` for a proposal whose DAO is not recognized. -/
def unrecognizedDao (prop : Proposal) : GoError :=
  .base ("proposal " ++ toString prop.ID ++ " has DAO [" ++ prop.DAO ++
    "] which is not recognized")

/-- The loop `for _, prop := range props` of `GetProposals`, over the slots still to
visit, with the two lists built so far; `dao i` is the `Details.DAO` of the proposal with
ID `i`. Reading the details of a nil pointer panics. -/
def splitProposals (dao : Nat → String) (protocolName oracleName : String) :
    List (Option Nat) → List Proposal → List Proposal →
      Except Fault (List Proposal × List Proposal)
  | [], pDaoProps, oDaoProps => .ok (pDaoProps, oDaoProps)
  | none :: _, _, _ => .error (.panic "invalid memory address or nil pointer dereference")
  | some i :: props, pDaoProps, oDaoProps =>
    if dao i = protocolName then
      splitProposals dao protocolName oracleName props (pDaoProps ++ [⟨i, dao i⟩]) oDaoProps
    else if dao i = oracleName then
      splitProposals dao protocolName oracleName props pDaoProps (oDaoProps ++ [⟨i, dao i⟩])
    else .error (.error (unrecognizedDao ⟨i, dao i⟩))

/-- `DaoProposal.GetProposals`. `protocolName` and `oracleName` are the contract names
`ContractName_RocketDAOProtocolProposals` and `ContractName_RocketDAONodeTrustedProposals`,
and `dao i` is the `Details.DAO` that the query loads for proposal `i`. The allocation
`make([]*Proposal, proposalCount)` panics for a length that does not fit an `int`, so the
loop index `i <= proposalCount` never wraps around; the memory limit of the platform is
not modelled. -/
def GetProposals {Call : Type} (env : Env Call) (newProposal : Nat → Option GoError)
    (detailCalls : Nat → List Call) (dao : Nat → String) (protocolName oracleName : String)
    (proposalCount : Nat) : Except Fault (List Proposal × List Proposal) :=
  if 2 ^ 63 ≤ proposalCount then .error (.panic "makeslice: len out of range")
  else
    match QueryWith env
        (proposalsCallback newProposal detailCalls (proposalIds proposalCount))
        (List.replicate proposalCount none) with
    | (run, props) =>
      match run.err with
      | some e => .error (.error e)
      | none => splitProposals dao protocolName oracleName props [] []

/-- The proposals `1, 2, ..., proposalCount` in the order of their IDs, each with the
`Details.DAO` that the query loads for it. -/
def loadedProposals (dao : Nat → String) (proposalCount : Nat) : List Proposal :=
  (proposalIds proposalCount).map (fun i => (⟨i, dao i⟩ : Proposal))

/-! ## `ProposeInviteMember` -/

/-- An argument handed to `ABI.Pack`. -/
inductive AbiArg where
  | str (value : String)
  | addr (value : Address)
  deriving DecidableEq, Repr

/-- The collaborators of `ProposeInviteMember` outside the files at hand:
`strings.Sanitize`, `common.Address.Hex`, `c.dntp.ABI.Pack` and
`core.NewTransactionInfo(c.dntp, method, opts, message, payload)`. -/
structure ProposalEnv (Payload TxInfo : Type) where
  Sanitize : String → String
  Hex : Address → String
  Pack : String → List AbiArg → Except GoError Payload
  NewTransactionInfo : String → String → Payload → Except GoError TxInfo

/-- `OracleDaoManager.submitProposal`. -/
def submitProposal {Payload TxInfo : Type} (env : ProposalEnv Payload TxInfo)
    (message method : String) (args : List AbiArg) : Except GoError TxInfo :=
  match env.Pack method args with
  | .error e => .error (.wrapped "error encoding payload" e)
  | .ok payload => env.NewTransactionInfo "propose" message payload

/-- `OracleDaoManager.ProposeInviteMember`. -/
def ProposeInviteMember {Payload TxInfo : Type} (env : ProposalEnv Payload TxInfo)
    (message : String) (newMemberAddress : Address) (newMemberId newMemberUrl : String) :
    Except GoError TxInfo :=
  submitProposal env
    (if message = "" then
      "invite " ++ newMemberId ++ " (" ++ env.Hex newMemberAddress ++ ")"
    else message)
    "proposalInvite"
    [.str newMemberId, .str (env.Sanitize newMemberUrl), .addr newMemberAddress]

/-- Sample collaborators: the sanitizer drops the line feed of `"bad\nurl"`, the payload is
the method with its arguments, and the transaction info records the method, the message
and the payload passed to `core.NewTransactionInfo`. -/
def sampleProposalEnv :
    ProposalEnv (String × List AbiArg) (String × String × (String × List AbiArg)) where
  Sanitize := fun url => if url = "bad\nurl" then "badurl" else url
  Hex := fun _ => "0x07"
  Pack := fun method args => .ok (method, args)
  NewTransactionInfo := fun method message payload => .ok (method, message, payload)

/-- A sample `Details.DAO`: odd proposals belong to the Protocol DAO, even ones to the
Oracle DAO. -/
def sampleDao (i : Nat) : String :=
  if i % 2 = 1 then "rocketDAOProtocolProposals" else "rocketDAONodeTrustedProposals"

/-- Sample detail calls: proposal `i` registers the one call `2 * i`, which `evenEnv`
answers with success. -/
def sampleDetailCalls (i : Nat) : List Int := [2 * (i : Int)]

/-! ## Properties of the dispatch loop -/


theorem wrapInt_of_range (x : Int) (h1 : -(2 ^ 63) ≤ x) (h2 : x < 2 ^ 63) : wrapInt x = x := by
  unfold wrapInt
  omega

theorem indices_append (a m b : Int) (h1 : a ≤ m) (h2 : m ≤ b) :
    Shard.indices ⟨a, m⟩ ++ Shard.indices ⟨m, b⟩ = Shard.indices ⟨a, b⟩ := by
  unfold Shard.indices
  simp only
  have hsplit : (b - a).toNat = (m - a).toNat + (b - m).toNat := by omega
  rw [hsplit, List.range_add, List.map_append, List.map_map]
  congr 1
  apply List.map_congr_left
  intro k _
  simp only [Function.comp_apply, Nat.cast_add]
  omega

theorem shardLoop_partitions (N S : Int) (hS : 1 ≤ S)
    (hov : NoOverflow N S) :
    ∀ (fuel : Nat) (i : Int), 0 ≤ i → S ∣ i → (N - i).toNat < fuel →
      ∃ plan, shardLoop N S fuel i = some plan ∧ PartitionsFrom N S i plan := by
  intro fuel
  induction fuel with
  | zero => intro i _ _ h; omega
  | succ fuel ih =>
    intro i hi hdvd hfuel
    unfold shardLoop
    by_cases hlt : i < N
    · have hno := hov i hi hlt hdvd
      have hw : wrapInt (i + S) = i + S := wrapInt_of_range _ (by omega) hno
      obtain ⟨rest, hrest, hp⟩ := ih (i + S) (by omega) (Dvd.dvd.add hdvd (dvd_refl S)) (by omega)
      refine ⟨⟨i, if i + S > N then N else i + S⟩ :: rest, ?_, ?_⟩
      · simp only [hlt, if_true, hw, hrest, Option.map_some']
      · constructor
        · intro j
          rw [List.countP_cons, hp.count_eq j]
          simp only [Shard.Mem]
          split_ifs <;> simp at * <;> omega
        · intro s hs
          rcases List.mem_cons.mp hs with rfl | hs
          · simp only
            split_ifs <;> omega
          · have := hp.bounds s hs
            omega
        · rw [List.flatMap_cons, hp.indices_eq]
          split_ifs
          · have hnil : Shard.indices ⟨i + S, N⟩ = [] := by
              simp only [Shard.indices, List.map_eq_nil_iff, List.range_eq_nil]
              omega
            rw [hnil, List.append_nil]
          · rw [indices_append] <;> omega
        · refine List.pairwise_cons.mpr ⟨?_, hp.ordered⟩
          intro s hs
          have := hp.bounds s hs
          simp only
          split_ifs <;> omega
    · refine ⟨[], by simp [hlt], ?_⟩
      constructor
      · intro j
        rw [List.countP_nil, if_neg]
        omega
      · intro s hs; cases hs
      · simp only [List.flatMap_nil, Shard.indices]
        have : (N - i).toNat = 0 := by omega
        rw [this]; rfl
      · exact List.Pairwise.nil

theorem dispatchLoop_eq {Call : Type} (task : Shard → TaskRun Call) (N S : Int) :
    ∀ (fuel : Nat) (i : Int) (wg : Group Call),
      dispatchLoop task N S fuel i wg =
        (shardLoop N S fuel i).map (fun plan => (⟨wg.runs ++ plan.map task⟩ : Group Call)) := by
  intro fuel
  induction fuel with
  | zero => intro i wg; rfl
  | succ fuel ih =>
    intro i wg
    unfold dispatchLoop shardLoop
    by_cases hlt : i < N
    · simp only [hlt, if_true, ih, Group.go, Option.map_map]
      congr 1
      funext plan
      simp
    · simp [hlt]

theorem firstFailure_eq_none {Call : Type} (finish : Nat → Nat) :
    ∀ (runs : List (TaskRun Call)) (k : Nat),
      firstFailure finish k runs = none ↔ ∀ r ∈ runs, r.err = none := by
  intro runs
  induction runs with
  | nil => intro k; simp [firstFailure]
  | cons r rs ih =>
    intro k
    unfold firstFailure
    cases hr : r.err with
    | none => simp [ih (k + 1), hr]
    | some e =>
      cases hf : firstFailure finish (k + 1) rs with
      | none => simp [hr]
      | some p =>
        obtain ⟨t, e'⟩ := p
        simp only [List.mem_cons, forall_eq_or_imp, hr]
        split_ifs <;> simp

theorem joinGroup_err_eq_none {Call : Type} (finish : Nat → Nat) (wg : Group Call) :
    (joinGroup finish wg).err = none ↔ ∀ r ∈ wg.runs, r.err = none := by
  simp [joinGroup, Group.wait, firstFailure_eq_none]

theorem batchQuery_eq {Call : Type} (env : Env Call) (finish : Nat → Nat) (fuel : Nat)
    (N S : Int) (query : ItemQueryFn Call) :
    BatchQuery env finish fuel N S query =
      (shardPlan fuel N S).map (fun plan => joinGroup finish ⟨plan.map (batchTask env query)⟩) := by
  simp [BatchQuery, shardPlan, dispatchLoop_eq, Option.map_map, Function.comp_def]

theorem flexBatchQuery_eq {Call : Type} (env : Env Call) (finish : Nat → Nat) (fuel : Nat)
    (N S : Int) (query : ItemQueryFn Call) (handleResult : HandleFn) :
    FlexBatchQuery env finish fuel N S query handleResult =
      (shardPlan fuel N S).map
        (fun plan => joinGroup finish ⟨plan.map (flexTask env query handleResult)⟩) := by
  simp [FlexBatchQuery, shardPlan, dispatchLoop_eq, Option.map_map, Function.comp_def]

theorem mem_indices (s : Shard) (j : Int) : j ∈ s.indices ↔ s.Mem j := by
  unfold Shard.indices Shard.Mem
  simp only [List.mem_map, List.mem_range]
  constructor
  · rintro ⟨k, hk, rfl⟩
    omega
  · intro h
    exact ⟨(j - s.lo).toNat, by omega, by omega⟩

theorem indices_length (s : Shard) : s.indices.length = (s.hi - s.lo).toNat := by
  simp [Shard.indices]

theorem queriedIndices_append {Call : Type} (a b : List (Event Call)) :
    queriedIndices (a ++ b) = queriedIndices a ++ queriedIndices b := by
  induction a with
  | nil => rfl
  | cons e a ih => cases e <;> simp [queriedIndices, ih]

theorem queriedIndices_map_query {Call : Type} (js : List Int) :
    queriedIndices (js.map (Event.query : Int → Event Call)) = js := by
  induction js with
  | nil => rfl
  | cons j js ih => simp [queriedIndices, ih]

theorem registerLoop_queried_initial {Call : Type} (query : ItemQueryFn Call) :
    ∀ (js : List Int) (mc : MultiCaller Call),
      queriedIndices (registerLoop query js mc).1 <+: js := by
  intro js
  induction js with
  | nil => intro mc; simp [registerLoop, queriedIndices]
  | cons j js ih =>
    intro mc
    unfold registerLoop
    cases hq : query mc j with
    | error e => simp [queriedIndices]
    | ok mc' =>
      simp only [queriedIndices]
      exact (List.prefix_cons_inj j).mpr (ih mc')

theorem registerLoop_events_of_ok {Call : Type} (query : ItemQueryFn Call) :
    ∀ (js : List Int) (mc mc' : MultiCaller Call),
      (registerLoop query js mc).2 = .ok mc' →
        (registerLoop query js mc).1 = js.map Event.query := by
  intro js
  induction js with
  | nil => intro mc mc' _; rfl
  | cons j js ih =>
    intro mc mc'
    unfold registerLoop
    cases hq : query mc j with
    | error e => simp
    | ok mc1 =>
      simp only [List.map_cons, List.cons.injEq, true_and]
      exact ih mc1 mc'

theorem registerLoop_ok_of_total {Call : Type} (query : ItemQueryFn Call)
    (hq : ∀ mc j, ∃ mc', query mc j = .ok mc') :
    ∀ (js : List Int) (mc : MultiCaller Call), ∃ mc', (registerLoop query js mc).2 = .ok mc' := by
  intro js
  induction js with
  | nil => intro mc; exact ⟨mc, rfl⟩
  | cons j js ih =>
    intro mc
    obtain ⟨mc1, h1⟩ := hq mc j
    unfold registerLoop
    simp only [h1]
    exact ih mc1

theorem batchTask_queried_initial {Call : Type} (env : Env Call) (query : ItemQueryFn Call)
    (s : Shard) : queriedIndices (batchTask env query s).events <+: s.indices := by
  unfold batchTask
  cases env.newMultiCaller s.lo with
  | some e => simp [queriedIndices]
  | none =>
    have hpre := registerLoop_queried_initial query s.indices []
    rcases hr : registerLoop query s.indices [] with ⟨evs, res⟩
    rw [hr] at hpre
    cases res with
    | error e => simpa [queriedIndices] using hpre
    | ok mc =>
      simp only
      cases (env.flexibleCall s.lo true mc).2 <;>
        simpa [queriedIndices, queriedIndices_append] using hpre

theorem queriedIndices_handleLoop {Call : Type} (handleResult : HandleFn) (i : Int) :
    ∀ (flags : List Bool) (j : Int),
      queriedIndices (@handleLoop Call handleResult i j flags).1 = [] := by
  intro flags
  induction flags with
  | nil => intro j; rfl
  | cons b flags ih =>
    intro j
    unfold handleLoop
    cases handleResult b (wrapInt (j + i)) with
    | some e => rfl
    | none => simp [queriedIndices, ih]

theorem flexTask_queried_initial {Call : Type} (env : Env Call) (query : ItemQueryFn Call)
    (handleResult : HandleFn) (s : Shard) :
    queriedIndices (flexTask env query handleResult s).events <+: s.indices := by
  unfold flexTask
  cases env.newMultiCaller s.lo with
  | some e => simp [queriedIndices]
  | none =>
    have hpre := registerLoop_queried_initial query s.indices []
    rcases hr : registerLoop query s.indices [] with ⟨evs, res⟩
    rw [hr] at hpre
    cases res with
    | error e => simpa [queriedIndices] using hpre
    | ok mc =>
      simp only
      rcases env.flexibleCall s.lo false mc with ⟨results, err⟩
      cases err <;>
        simpa [queriedIndices, queriedIndices_append, queriedIndices_handleLoop] using hpre

/-- C1 (amended). For every item count `N` and batch size `S ≥ 1` for which the loop
index never overflows, the dispatch loop of `BatchQuery` and `FlexBatchQuery` exits, and
its shards partition `[0, N)`: every index of `[0, N)` lies in exactly one shard, no shard
holds an index outside `[0, N)`, and the shards are pairwise disjoint. The shard tasks run
by both functions are the tasks of exactly these shards. -/
theorem shardPlan_partitions {Call : Type} (env : Env Call) (finish : Nat → Nat)
    (query : ItemQueryFn Call) (handleResult : HandleFn) (N S : Int) (fuel : Nat)
    (hS : 1 ≤ S) (hov : NoOverflow N S) (hfuel : N.toNat < fuel) :
    ∃ plan, shardPlan fuel N S = some plan ∧
      (∀ j : Int, 0 ≤ j → j < N → plan.countP (fun s => decide (s.Mem j)) = 1) ∧
      (∀ s ∈ plan, ∀ j : Int, s.Mem j → 0 ≤ j ∧ j < N) ∧
      plan.Pairwise (fun a b => ∀ j : Int, ¬ (a.Mem j ∧ b.Mem j)) ∧
      (BatchQuery env finish fuel N S query).map (fun r => r.runs) =
        some (plan.map (batchTask env query)) ∧
      (FlexBatchQuery env finish fuel N S query handleResult).map (fun r => r.runs) =
        some (plan.map (flexTask env query handleResult)) := by
  obtain ⟨plan, hplan, hp⟩ :=
    shardLoop_partitions N S hS hov fuel 0 (le_refl 0) (dvd_zero S) (by simpa using hfuel)
  have hplan' : shardPlan fuel N S = some plan := hplan
  refine ⟨plan, hplan', ?_, ?_, ?_, ?_, ?_⟩
  · intro j h0 h1
    rw [hp.count_eq j, if_pos ⟨h0, h1⟩]
  · intro s hs j hj
    have := hp.bounds s hs
    unfold Shard.Mem at hj
    omega
  · refine hp.ordered.imp ?_
    intro a b hab j hj
    unfold Shard.Mem at hj
    omega
  · rw [batchQuery_eq, hplan']; rfl
  · rw [flexBatchQuery_eq, hplan']; rfl

/-- Witness of C1: ten items in batches of three. -/
theorem shardPlan_partitions_witness :
    ∃ plan, shardPlan 11 10 3 = some plan ∧
      (∀ j : Int, 0 ≤ j → j < 10 → plan.countP (fun s => decide (s.Mem j)) = 1) ∧
      (∀ s ∈ plan, ∀ j : Int, s.Mem j → 0 ≤ j ∧ j < 10) ∧
      plan.Pairwise (fun a b => ∀ j : Int, ¬ (a.Mem j ∧ b.Mem j)) ∧
      (BatchQuery evenEnv inOrder 11 10 3 oneCallPerItem).map (fun r => r.runs) =
        some (plan.map (batchTask evenEnv oneCallPerItem)) ∧
      (FlexBatchQuery evenEnv inOrder 11 10 3 oneCallPerItem (fun _ _ => none)).map
          (fun r => r.runs) =
        some (plan.map (flexTask evenEnv oneCallPerItem (fun _ _ => none))) :=
  shardPlan_partitions evenEnv inOrder oneCallPerItem (fun _ _ => none) 10 3 11
    (by decide) (by intro i _ h _; omega) (by decide)

/-- C1 as stated fails: with `N = 6148914691236517207` and `S = 3074457345618258603`
(both at least 1) the third loop index overflows, the loop exits after eight shards, index
`0` lies in two of them and the index `-1`, outside `[0, N)`, lies in one. -/
theorem shardPlan_overflow_not_partition :
    (0 ≤ overflowCount ∧ 1 ≤ overflowBatchSize) ∧
      (shardPlan 9 overflowCount overflowBatchSize).map
        (fun plan => (plan.length, plan.countP (fun s => decide (s.Mem 0)),
          plan.countP (fun s => decide (s.Mem (-1))))) = some (8, 2, 1) := by
  decide

/-- C2 (amended). For every item count `N` and batch size `S ≥ 1` for which the loop index
never overflows, every shard dispatched by `BatchQuery` / `FlexBatchQuery` covers the
consecutive indices `lo, lo + 1, ...`, at least one and at most `S` of them, and the task
of the shard passes at most `S` items to the query callback on its multicaller. -/
theorem shard_size_le_batchSize {Call : Type} (env : Env Call) (query : ItemQueryFn Call)
    (handleResult : HandleFn) (N S : Int) (fuel : Nat)
    (hS : 1 ≤ S) (hov : NoOverflow N S) (hfuel : N.toNat < fuel) :
    ∃ plan, shardPlan fuel N S = some plan ∧ ∀ s ∈ plan,
      s.indices = (List.range s.indices.length).map (fun (k : Nat) => s.lo + (k : Int)) ∧
      1 ≤ s.indices.length ∧ (s.indices.length : Int) ≤ S ∧
      ((queriedIndices (batchTask env query s).events).length : Int) ≤ S ∧
      ((queriedIndices (flexTask env query handleResult s).events).length : Int) ≤ S := by
  obtain ⟨plan, hplan, hp⟩ :=
    shardLoop_partitions N S hS hov fuel 0 (le_refl 0) (dvd_zero S) (by simpa using hfuel)
  refine ⟨plan, hplan, ?_⟩
  intro s hs
  have hb := hp.bounds s hs
  have hlen := indices_length s
  have h1 := (batchTask_queried_initial env query s).length_le
  have h2 := (flexTask_queried_initial env query handleResult s).length_le
  refine ⟨?_, by omega, by omega, by omega, by omega⟩
  rw [hlen]
  rfl

/-- Witness of C2: ten items in batches of three. -/
theorem shard_size_le_batchSize_witness :
    ∃ plan, shardPlan 11 10 3 = some plan ∧ ∀ s ∈ plan,
      s.indices = (List.range s.indices.length).map (fun (k : Nat) => s.lo + (k : Int)) ∧
      1 ≤ s.indices.length ∧ (s.indices.length : Int) ≤ 3 ∧
      ((queriedIndices (batchTask evenEnv oneCallPerItem s).events).length : Int) ≤ 3 ∧
      ((queriedIndices (flexTask evenEnv oneCallPerItem (fun _ _ => none) s).events).length
        : Int) ≤ 3 :=
  shard_size_le_batchSize evenEnv oneCallPerItem (fun _ _ => none) 10 3 11
    (by decide) (by intro i _ h _; omega) (by decide)

/-- C2 as stated fails: with `N = 6148914691236517207` and `S = 3074457345618258603` the
third shard dispatched has `max` wrapped below `i`, so it covers no index at all. -/
theorem shardPlan_overflow_empty_shard :
    (0 ≤ overflowCount ∧ 1 ≤ overflowBatchSize) ∧
      ((shardPlan 9 overflowCount overflowBatchSize).bind (fun plan => plan.get? 2)).map
        (fun s => (s, s.indices)) =
        some (⟨6148914691236517206, -9223372036854775807⟩, []) := by
  decide

theorem batchTask_events_of_ok {Call : Type} (env : Env Call) (query : ItemQueryFn Call)
    (s : Shard) (mc : MultiCaller Call) (hnew : env.newMultiCaller s.lo = none)
    (hreg : (registerLoop query s.indices []).2 = .ok mc) :
    (batchTask env query s).events =
      .newMultiCaller :: (s.indices.map Event.query ++ [.flexibleCall true mc]) := by
  have hev := registerLoop_events_of_ok query s.indices [] mc hreg
  unfold batchTask
  rw [hnew]
  rcases hr : registerLoop query s.indices [] with ⟨evs, res⟩
  rw [hr] at hev hreg
  simp only at hev hreg
  subst hev hreg
  simp only
  cases (env.flexibleCall s.lo true mc).2 <;> rfl

theorem queriedIndices_batchTask_of_ok {Call : Type} (env : Env Call)
    (query : ItemQueryFn Call) (s : Shard) (hnew : env.newMultiCaller s.lo = none)
    (hq : ∀ mc j, ∃ mc', query mc j = .ok mc') :
    queriedIndices (batchTask env query s).events = s.indices := by
  obtain ⟨mc, hreg⟩ := registerLoop_ok_of_total query hq s.indices []
  rw [batchTask_events_of_ok env query s mc hnew hreg]
  simp [queriedIndices, queriedIndices_append, queriedIndices_map_query]

theorem flatMap_queried_eq {Call : Type} (task : Shard → TaskRun Call) (plan : List Shard)
    (h : ∀ s ∈ plan, queriedIndices (task s).events = s.indices) :
    (plan.map task).flatMap (fun t => queriedIndices t.events) = plan.flatMap Shard.indices := by
  induction plan with
  | nil => rfl
  | cons s plan ih =>
    simp only [List.map_cons, List.flatMap_cons]
    rw [h s (List.mem_cons_self _ _), ih (fun t ht => h t (List.mem_cons_of_mem _ ht))]

theorem indices_zero (N : Int) :
    Shard.indices ⟨0, N⟩ = (List.range N.toNat).map (fun (k : Nat) => (k : Int)) := by
  simp [Shard.indices]

theorem indices_ascending (s : Shard) : s.indices.Pairwise (fun a b => a < b) := by
  unfold Shard.indices
  rw [List.pairwise_map]
  refine (List.pairwise_lt_range _).imp ?_
  intro a b hab
  omega

/-- C3 (amended). For every item count `N` and batch size `S ≥ 1` for which the loop index
never overflows, when no multicaller construction and no query call returns an error,
`BatchQuery` returns, and the indices it passed to the query callback, shard after shard,
are exactly `0, 1, ..., N - 1`, each once. Within one shard the callback is invoked on the
indices of the shard in ascending order, starting from the fresh multicaller of that shard,
and the calls so registered are the ones executed by the shard's `FlexibleCall(true)`. -/
theorem batchQuery_queries_each_index_once {Call : Type} (env : Env Call)
    (finish : Nat → Nat) (query : ItemQueryFn Call) (N S : Int) (fuel : Nat)
    (hS : 1 ≤ S) (hov : NoOverflow N S) (hfuel : N.toNat < fuel)
    (hnew : ∀ i, env.newMultiCaller i = none)
    (hq : ∀ mc j, ∃ mc', query mc j = .ok mc') :
    ∃ plan r, shardPlan fuel N S = some plan ∧ BatchQuery env finish fuel N S query = some r ∧
      r.runs = plan.map (batchTask env query) ∧
      r.runs.flatMap (fun t => queriedIndices t.events) =
        (List.range N.toNat).map (fun (k : Nat) => (k : Int)) ∧
      ∀ s ∈ plan, s.indices.Pairwise (fun a b => a < b) ∧
        ∃ mc, (registerLoop query s.indices []).2 = .ok mc ∧
          (batchTask env query s).events =
            .newMultiCaller :: (s.indices.map Event.query ++ [.flexibleCall true mc]) := by
  obtain ⟨plan, hplan, hp⟩ :=
    shardLoop_partitions N S hS hov fuel 0 (le_refl 0) (dvd_zero S) (by simpa using hfuel)
  have hplan' : shardPlan fuel N S = some plan := hplan
  refine ⟨plan, joinGroup finish ⟨plan.map (batchTask env query)⟩, hplan', ?_, rfl, ?_, ?_⟩
  · rw [batchQuery_eq, hplan']; rfl
  · show (plan.map (batchTask env query)).flatMap (fun t => queriedIndices t.events) = _
    rw [flatMap_queried_eq (batchTask env query) plan
      (fun s _ => queriedIndices_batchTask_of_ok env query s (hnew s.lo) hq),
      hp.indices_eq, indices_zero]
  · intro s _
    obtain ⟨mc, hreg⟩ := registerLoop_ok_of_total query hq s.indices []
    exact ⟨indices_ascending s, mc, hreg, batchTask_events_of_ok env query s mc (hnew s.lo) hreg⟩

/-- Witness of C3: ten items in batches of three, one call registered per item. -/
theorem batchQuery_queries_each_index_once_witness :
    ∃ plan r, shardPlan 11 10 3 = some plan ∧
      BatchQuery evenEnv inOrder 11 10 3 oneCallPerItem = some r ∧
      r.runs = plan.map (batchTask evenEnv oneCallPerItem) ∧
      r.runs.flatMap (fun t => queriedIndices t.events) =
        (List.range (10 : Int).toNat).map (fun (k : Nat) => (k : Int)) ∧
      ∀ s ∈ plan, s.indices.Pairwise (fun a b => a < b) ∧
        ∃ mc, (registerLoop oneCallPerItem s.indices []).2 = .ok mc ∧
          (batchTask evenEnv oneCallPerItem s).events =
            .newMultiCaller :: (s.indices.map Event.query ++ [.flexibleCall true mc]) :=
  batchQuery_queries_each_index_once evenEnv inOrder oneCallPerItem 10 3 11
    (by decide) (by intro i _ h _; omega) (by decide) (fun _ => rfl)
    (fun mc j => ⟨mc ++ [j], rfl⟩)

/-- C3 as stated fails: with `N = 6148914691236517207` and `S = 3074457345618258603`, no
construction and no query call failing, `BatchQuery` returns after passing the index
`-9223372036854775807`, which is outside `[0, N)`, to the query callback. -/
theorem batchQuery_overflow_queries_negative_index :
    (0 ≤ overflowCount ∧ 1 ≤ overflowBatchSize) ∧
      ∃ r, BatchQuery evenEnv inOrder 9 overflowCount overflowBatchSize oneCallPerItem = some r ∧
        ∃ t ∈ r.runs, (-9223372036854775807 : Int) ∈ queriedIndices t.events := by
  refine ⟨by decide, ?_⟩
  have hplan : shardPlan 9 overflowCount overflowBatchSize = some
      [⟨0, 3074457345618258603⟩, ⟨3074457345618258603, 6148914691236517206⟩,
        ⟨6148914691236517206, -9223372036854775807⟩,
        ⟨-9223372036854775807, -6148914691236517204⟩,
        ⟨-6148914691236517204, -3074457345618258601⟩, ⟨-3074457345618258601, 2⟩,
        ⟨2, 3074457345618258605⟩, ⟨3074457345618258605, 6148914691236517207⟩] := by
    decide
  refine ⟨_, by rw [batchQuery_eq, hplan]; rfl, ?_⟩
  refine ⟨batchTask evenEnv oneCallPerItem ⟨-9223372036854775807, -6148914691236517204⟩, ?_, ?_⟩
  · simp [joinGroup]
  · rw [queriedIndices_batchTask_of_ok evenEnv oneCallPerItem _ rfl
      (fun mc j => ⟨mc ++ [j], rfl⟩), mem_indices]
    unfold Shard.Mem
    decide

theorem registerLoop_ok_iff {Call : Type} (query : ItemQueryFn Call) :
    ∀ (js : List Int) (mc mc' : MultiCaller Call),
      (registerLoop query js mc).2 = .ok mc' ↔ CallbacksOk query js mc mc' := by
  intro js
  induction js with
  | nil =>
    intro mc mc'
    simp only [registerLoop, CallbacksOk, Except.ok.injEq]
    exact eq_comm
  | cons j js ih =>
    intro mc mc'
    unfold registerLoop CallbacksOk
    cases hq : query mc j with
    | error e => simp
    | ok mc1 =>
      simp only [Except.ok.injEq, exists_eq_left']
      exact ih mc1 mc'

theorem callbacksOk_mem {Call : Type} (query : ItemQueryFn Call) :
    ∀ (js : List Int) (mc mc' : MultiCaller Call), CallbacksOk query js mc mc' →
      ∀ j ∈ js, ∃ mc0 mc1, query mc0 j = .ok mc1 := by
  intro js
  induction js with
  | nil => intro mc mc' _ j hj; cases hj
  | cons j0 js ih =>
    intro mc mc' h j hj
    obtain ⟨mc1, hq, hrest⟩ := h
    rcases List.mem_cons.mp hj with rfl | hj'
    · exact ⟨mc, mc1, hq⟩
    · exact ih mc1 mc' hrest j hj'

theorem batchTask_err_eq_none_iff {Call : Type} (env : Env Call) (query : ItemQueryFn Call)
    (s : Shard) : (batchTask env query s).err = none ↔ ShardOk env query s := by
  unfold batchTask ShardOk
  simp only [← registerLoop_ok_iff]
  cases hnew : env.newMultiCaller s.lo with
  | some e => simp
  | none =>
    rcases hr : registerLoop query s.indices [] with ⟨evs, res⟩
    cases res with
    | error e => simp
    | ok mc =>
      simp only [true_and, Except.ok.injEq, exists_eq_left']
      cases hc : (env.flexibleCall s.lo true mc).2 <;> simp

theorem firstFailure_mem {Call : Type} (finish : Nat → Nat) :
    ∀ (runs : List (TaskRun Call)) (k t : Nat) (e : GoError),
      firstFailure finish k runs = some (t, e) → ∃ r ∈ runs, r.err = some e := by
  intro runs
  induction runs with
  | nil => intro k t e h; simp [firstFailure] at h
  | cons r rs ih =>
    intro k t e h
    unfold firstFailure at h
    cases hr : r.err with
    | none =>
      rw [hr] at h
      obtain ⟨r', hr', he⟩ := ih (k + 1) t e h
      exact ⟨r', List.mem_cons_of_mem _ hr', he⟩
    | some e0 =>
      rw [hr] at h
      cases hf : firstFailure finish (k + 1) rs with
      | none =>
        rw [hf] at h
        simp only [Option.some.injEq, Prod.mk.injEq] at h
        exact ⟨r, List.mem_cons_self _ _, by rw [hr, h.2]⟩
      | some p =>
        obtain ⟨t', e'⟩ := p
        rw [hf] at h
        simp only at h
        split_ifs at h
        · simp only [Option.some.injEq, Prod.mk.injEq] at h
          obtain ⟨r', hr', he⟩ := ih (k + 1) t' e' hf
          exact ⟨r', List.mem_cons_of_mem _ hr', by rw [he, h.2]⟩
        · simp only [Option.some.injEq, Prod.mk.injEq] at h
          exact ⟨r, List.mem_cons_self _ _, by rw [hr, h.2]⟩

theorem joinGroup_err_cause {Call : Type} (finish : Nat → Nat) (wg : Group Call)
    (e : GoError) (h : (joinGroup finish wg).err = some e) :
    ∃ r ∈ wg.runs, ∃ cause, r.err = some cause ∧
      e = .wrapped "error during multicall query" cause := by
  unfold joinGroup Group.wait at h
  simp only [Option.map_map, Option.map_eq_some', Function.comp_apply] at h
  obtain ⟨⟨t, cause⟩, hf, he⟩ := h
  obtain ⟨r, hr, hc⟩ := firstFailure_mem finish wg.runs 0 t cause hf
  exact ⟨r, hr, cause, hc, he.symm⟩

/-- C4. Whenever the dispatch loop of `BatchQuery` exits, `BatchQuery` returns, and it
returns a `nil` error exactly if every shard succeeded: its multicaller was constructed,
the query callback returned no error at any index of the shard (each call made on the
multicaller the call before it returned) and its `FlexibleCall(true)` returned no error.
If some shard fails in any of these three ways the returned error is not `nil`; it wraps
the error of one of the failing shard tasks. In particular, a `nil` error means that the
callback returned no error at any index of any shard, so if the callback fails at some
index of some shard whatever multicaller it is given, the returned error is not `nil`. -/
theorem batchQuery_nil_iff_every_shard_ok {Call : Type} (env : Env Call)
    (finish : Nat → Nat) (query : ItemQueryFn Call) (N S : Int) (fuel : Nat)
    (plan : List Shard) (hplan : shardPlan fuel N S = some plan) :
    ∃ r, BatchQuery env finish fuel N S query = some r ∧
      (r.err = none ↔ ∀ s ∈ plan, ShardOk env query s) ∧
      ((∃ s ∈ plan, ¬ ShardOk env query s) → r.err ≠ none) ∧
      (∀ e, r.err = some e → ∃ s ∈ plan, ∃ cause, ¬ ShardOk env query s ∧
        (batchTask env query s).err = some cause ∧
        e = .wrapped "error during multicall query" cause) ∧
      (r.err = none → ∀ s ∈ plan, env.newMultiCaller s.lo = none ∧
        ∀ j, s.Mem j → ∃ mc mc', query mc j = .ok mc') ∧
      ((∃ s ∈ plan, ∃ j, s.Mem j ∧ ∀ mc, ∃ e, query mc j = .error e) → r.err ≠ none) := by
  have hmem : (joinGroup finish ⟨plan.map (batchTask env query)⟩).err = none →
      ∀ s ∈ plan, env.newMultiCaller s.lo = none ∧
        ∀ j, s.Mem j → ∃ mc mc', query mc j = .ok mc' := by
    intro hnone s hs
    have hok : ShardOk env query s := by
      rw [joinGroup_err_eq_none] at hnone
      exact (batchTask_err_eq_none_iff env query s).mp
        (hnone _ (List.mem_map.mpr ⟨s, hs, rfl⟩))
    obtain ⟨hnew, mc, hcb, _⟩ := hok
    exact ⟨hnew, fun j hj =>
      callbacksOk_mem query s.indices [] mc hcb j ((mem_indices s j).mpr hj)⟩
  have hiff : (joinGroup finish ⟨plan.map (batchTask env query)⟩).err = none ↔
      ∀ s ∈ plan, ShardOk env query s := by
    rw [joinGroup_err_eq_none]
    simp only [List.mem_map, forall_exists_index, and_imp, forall_apply_eq_imp_iff₂,
      batchTask_err_eq_none_iff]
  refine ⟨joinGroup finish ⟨plan.map (batchTask env query)⟩, ?_, hiff, ?_, ?_, hmem, ?_⟩
  · rw [batchQuery_eq, hplan]; rfl
  · rintro ⟨s, hs, hbad⟩ hnone
    exact hbad (hiff.mp hnone s hs)
  · intro e he
    obtain ⟨r, hr, cause, hc, hwrap⟩ := joinGroup_err_cause finish _ e he
    obtain ⟨s, hs, rfl⟩ := List.mem_map.mp hr
    refine ⟨s, hs, cause, ?_, hc, hwrap⟩
    intro hok
    rw [(batchTask_err_eq_none_iff env query s).mpr hok] at hc
    cases hc
  · rintro ⟨s, hs, j, hj, hfail⟩ hnone
    obtain ⟨mc, mc', hq⟩ := (hmem hnone s hs).2 j hj
    obtain ⟨e, he⟩ := hfail mc
    rw [he] at hq
    cases hq

/-- Witness of C4: three items in batches of two. With one call per item the strict call
of the first shard fails on the odd call `1`; with a callback that fails at item `1` the
registration of the first shard fails; with the even calls `2 * j` every shard succeeds. -/
theorem batchQuery_nil_iff_every_shard_ok_witness :
    (shardPlan 3 3 2 = some [⟨0, 2⟩, ⟨2, 3⟩] ∧
      (BatchQuery evenEnv inOrder 3 3 2 oneCallPerItem).map (fun r => r.err) =
        some (some (.wrapped "error during multicall query"
          (.wrapped "error executing multicall" (.base "call failed")))) ∧
      (BatchQuery evenEnv inOrder 3 3 2 failingAtOne).map (fun r => r.err) =
        some (some (.wrapped "error during multicall query"
          (.wrapped "error running query adder" (.base "no such item")))) ∧
      (BatchQuery evenEnv inOrder 3 3 2 (fun mc j => .ok (mc ++ [2 * j]))).map
        (fun r => r.err) = some none) ∧
    ∃ r, BatchQuery evenEnv inOrder 3 3 2 failingAtOne = some r ∧
      (r.err = none ↔ ∀ s ∈ [(⟨0, 2⟩ : Shard), ⟨2, 3⟩], ShardOk evenEnv failingAtOne s) ∧
      ((∃ s ∈ [(⟨0, 2⟩ : Shard), ⟨2, 3⟩], ¬ ShardOk evenEnv failingAtOne s) → r.err ≠ none) ∧
      (∀ e, r.err = some e → ∃ s ∈ [(⟨0, 2⟩ : Shard), ⟨2, 3⟩], ∃ cause,
        ¬ ShardOk evenEnv failingAtOne s ∧
        (batchTask evenEnv failingAtOne s).err = some cause ∧
        e = .wrapped "error during multicall query" cause) ∧
      (r.err = none → ∀ s ∈ [(⟨0, 2⟩ : Shard), ⟨2, 3⟩], evenEnv.newMultiCaller s.lo = none ∧
        ∀ j, s.Mem j → ∃ mc mc', failingAtOne mc j = .ok mc') ∧
      ((∃ s ∈ [(⟨0, 2⟩ : Shard), ⟨2, 3⟩], ∃ j, s.Mem j ∧
        ∀ mc, ∃ e, failingAtOne mc j = .error e) → r.err ≠ none) :=
  ⟨⟨by decide, by decide, by decide, by decide⟩,
    batchQuery_nil_iff_every_shard_ok evenEnv inOrder failingAtOne 3 2 3
      [⟨0, 2⟩, ⟨2, 3⟩] (by decide)⟩

theorem batchTask_of_shardOk {Call : Type} (env : Env Call) (query : ItemQueryFn Call)
    (s : Shard) (mc : MultiCaller Call) (hnew : env.newMultiCaller s.lo = none)
    (hreg : (registerLoop query s.indices []).2 = .ok mc)
    (hcall : (env.flexibleCall s.lo true mc).2 = none) :
    batchTask env query s =
      ⟨.newMultiCaller :: (s.indices.map Event.query ++ [.flexibleCall true mc]), none⟩ := by
  have hev := batchTask_events_of_ok env query s mc hnew hreg
  have herr := (batchTask_err_eq_none_iff env query s).mpr
    ⟨hnew, mc, (registerLoop_ok_iff query s.indices [] mc).mp hreg, hcall⟩
  cases ht : batchTask env query s with
  | mk events err =>
    rw [ht] at hev herr
    simp only at hev herr
    rw [hev, herr]

/-- C5. Whenever the dispatch loop of `BatchQuery` exits, every shard of the plan has been
handed to `wg.Go` and run to its own end, whatever the other shards returned: the runs
recorded are, in dispatch order, the runs of the tasks of all the shards. In particular a
shard that succeeds by itself has registered all its items and executed its
`FlexibleCall(true)` without error (which is what writes its destination slots), also when
`BatchQuery` returns the error of another shard. -/
theorem batchQuery_runs_every_shard {Call : Type} (env : Env Call) (finish : Nat → Nat)
    (query : ItemQueryFn Call) (N S : Int) (fuel : Nat) (plan : List Shard)
    (hplan : shardPlan fuel N S = some plan) :
    ∃ r, BatchQuery env finish fuel N S query = some r ∧
      r.runs = plan.map (batchTask env query) ∧
      ∀ s ∈ plan, ∀ mc, env.newMultiCaller s.lo = none →
        (registerLoop query s.indices []).2 = .ok mc →
        (env.flexibleCall s.lo true mc).2 = none →
        (⟨.newMultiCaller :: (s.indices.map Event.query ++ [.flexibleCall true mc]), none⟩ :
          TaskRun Call) ∈ r.runs := by
  refine ⟨joinGroup finish ⟨plan.map (batchTask env query)⟩, ?_, rfl, ?_⟩
  · rw [batchQuery_eq, hplan]; rfl
  · intro s hs mc hnew hreg hcall
    rw [← batchTask_of_shardOk env query s mc hnew hreg hcall]
    exact List.mem_map.mpr ⟨s, hs, rfl⟩

/-- Witness of C5: three items in batches of one; the strict call of the middle shard
fails on the odd call `1`, `BatchQuery` returns that error, and the runs of the first and
the last shard are complete. -/
theorem batchQuery_runs_every_shard_witness :
    (∃ r, BatchQuery evenEnv inOrder 4 3 1 oneCallPerItem = some r ∧
      r.runs = [(⟨0, 1⟩ : Shard), ⟨1, 2⟩, ⟨2, 3⟩].map (batchTask evenEnv oneCallPerItem) ∧
      ∀ s ∈ [(⟨0, 1⟩ : Shard), ⟨1, 2⟩, ⟨2, 3⟩], ∀ mc, evenEnv.newMultiCaller s.lo = none →
        (registerLoop oneCallPerItem s.indices []).2 = .ok mc →
        (evenEnv.flexibleCall s.lo true mc).2 = none →
        (⟨.newMultiCaller :: (s.indices.map Event.query ++ [.flexibleCall true mc]), none⟩ :
          TaskRun Int) ∈ r.runs) ∧
    (BatchQuery evenEnv inOrder 4 3 1 oneCallPerItem).map (fun r => (r.runs, r.err)) =
      some ([⟨[.newMultiCaller, .query 0, .flexibleCall true [0]], none⟩,
          ⟨[.newMultiCaller, .query 1, .flexibleCall true [1]],
            some (.wrapped "error executing multicall" (.base "call failed"))⟩,
          ⟨[.newMultiCaller, .query 2, .flexibleCall true [2]], none⟩],
        some (.wrapped "error during multicall query"
          (.wrapped "error executing multicall" (.base "call failed")))) :=
  ⟨batchQuery_runs_every_shard evenEnv inOrder oneCallPerItem 3 1 4
    [⟨0, 1⟩, ⟨1, 2⟩, ⟨2, 3⟩] (by decide), by decide⟩

theorem registerLoop_snd_ok_events {Call : Type} (query : ItemQueryFn Call)
    (js : List Int) (mc0 mc : MultiCaller Call)
    (h : (registerLoop query js mc0).2 = .ok mc) :
    registerLoop query js mc0 = (js.map Event.query, .ok mc) := by
  have hev := registerLoop_events_of_ok query js mc0 mc h
  rcases hr : registerLoop query js mc0 with ⟨evs, res⟩
  rw [hr] at hev h
  simp only at hev h
  rw [hev, h]

theorem handleLoop_err_of_total {Call : Type} (handleResult : HandleFn) (i : Int)
    (hh : ∀ b j, handleResult b j = none) :
    ∀ (flags : List Bool) (j : Int), (@handleLoop Call handleResult i j flags).2 = none := by
  intro flags
  induction flags with
  | nil => intro j; rfl
  | cons b flags ih =>
    intro j
    unfold handleLoop
    rw [hh]
    exact ih (j + 1)

theorem flexTask_err_of_ok {Call : Type} (env : Env Call) (query : ItemQueryFn Call)
    (handleResult : HandleFn) (s : Shard) (hnew : env.newMultiCaller s.lo = none)
    (hq : ∀ mc j, ∃ mc', query mc j = .ok mc')
    (hh : ∀ b j, handleResult b j = none)
    (hcall : ∀ mc, (env.flexibleCall s.lo false mc).2 = none) :
    (flexTask env query handleResult s).err = none := by
  obtain ⟨mc, hreg⟩ := registerLoop_ok_of_total query hq s.indices []
  unfold flexTask
  rw [hnew, registerLoop_snd_ok_events query s.indices [] mc hreg]
  simp only
  have hc := hcall mc
  rcases hfc : env.flexibleCall s.lo false mc with ⟨results, err⟩
  rw [hfc] at hc
  simp only at hc
  subst hc
  exact handleLoop_err_of_total handleResult s.lo hh _ _

/-- C7. In flexible mode failed sub-calls are not turned into an error. Whenever the
dispatch loop exits, every shard's multicaller is constructed, every query call and every
`handleResult` call returns `nil` and every `FlexibleCall(false)` returns a `nil` error,
`FlexBatchQuery` returns `nil`, whatever the success flags are. Likewise `FlexQuery`, when
its multicaller is constructed and its callback returns `nil`, returns exactly the pair
of `FlexibleCall(false)`: the flag array as it is, with the `nil` error of the call. -/
theorem flexBatchQuery_nil_whatever_flags {Call : Type} (env : Env Call)
    (finish : Nat → Nat) (query : ItemQueryFn Call) (handleResult : HandleFn)
    (N S : Int) (fuel : Nat) (plan : List Shard) (single : QueryFn Call)
    (mc1 : MultiCaller Call) (flags : Option (List Bool))
    (hplan : shardPlan fuel N S = some plan)
    (hnew : ∀ s ∈ plan, env.newMultiCaller s.lo = none)
    (hq : ∀ mc j, ∃ mc', query mc j = .ok mc')
    (hh : ∀ b j, handleResult b j = none)
    (hcall : ∀ s ∈ plan, ∀ mc, (env.flexibleCall s.lo false mc).2 = none)
    (hnew1 : env.newMultiCaller 0 = none) (hsingle : single [] = .ok mc1)
    (hcall1 : env.flexibleCall 0 false mc1 = (flags, none)) :
    (∃ r, FlexBatchQuery env finish fuel N S query handleResult = some r ∧ r.err = none) ∧
      (FlexQuery env single).results = flags ∧ (FlexQuery env single).err = none := by
  refine ⟨⟨joinGroup finish ⟨plan.map (flexTask env query handleResult)⟩, ?_, ?_⟩, ?_, ?_⟩
  · rw [flexBatchQuery_eq, hplan]; rfl
  · rw [joinGroup_err_eq_none]
    intro r hr
    obtain ⟨s, hs, rfl⟩ := List.mem_map.mp hr
    exact flexTask_err_of_ok env query handleResult s (hnew s hs) hq hh (hcall s hs)
  · simp [FlexQuery, hnew1, hsingle, hcall1]
  · simp [FlexQuery, hnew1, hsingle, hcall1]

/-- Witness of C7: three items in batches of one, the odd call `1` failing. -/
theorem flexBatchQuery_nil_whatever_flags_witness :
    ((∃ r, FlexBatchQuery evenEnv inOrder 4 3 1 oneCallPerItem (fun _ _ => none) = some r ∧
        r.err = none) ∧
      (FlexQuery evenEnv (fun mc => .ok (mc ++ [0, 1, 2]))).results = some [true, false, true] ∧
      (FlexQuery evenEnv (fun mc => .ok (mc ++ [0, 1, 2]))).err = none) ∧
    (FlexBatchQuery evenEnv inOrder 4 3 1 oneCallPerItem (fun _ _ => none)).map
      (fun r => r.runs.map (fun t => handledPairs t.events)) =
      some [[(true, 0)], [(false, 1)], [(true, 2)]] :=
  ⟨flexBatchQuery_nil_whatever_flags evenEnv inOrder oneCallPerItem (fun _ _ => none) 3 1 4
    [⟨0, 1⟩, ⟨1, 2⟩, ⟨2, 3⟩] (fun mc => .ok (mc ++ [0, 1, 2])) [0, 1, 2]
    (some [true, false, true]) (by decide) (fun _ _ => rfl)
    (fun mc j => ⟨mc ++ [j], rfl⟩) (fun _ _ => rfl) (fun _ _ _ => rfl) rfl rfl (by decide),
   by decide⟩

/-- C10. If the callback passed to `Query` or `FlexQuery` returns an error, no
`FlexibleCall` is executed and the operation returns a non-`nil` error, `FlexQuery` with a
`nil` flag array. If the construction of the multicaller fails, the callback is not
invoked (and the operation returns a non-`nil` error, `FlexQuery` with a `nil` array). -/
theorem query_error_paths {Call : Type} (env : Env Call) (query : QueryFn Call) :
    (∀ e, env.newMultiCaller 0 = none → query [] = .error e →
      (Query env query).err ≠ none ∧
      (∀ b calls, Event.flexibleCall b calls ∉ (Query env query).events) ∧
      (FlexQuery env query).err ≠ none ∧ (FlexQuery env query).results = none ∧
      (∀ b calls, Event.flexibleCall b calls ∉ (FlexQuery env query).events)) ∧
    (∀ e, env.newMultiCaller 0 = some e →
      Event.queryCall ∉ (Query env query).events ∧ (Query env query).err ≠ none ∧
      Event.queryCall ∉ (FlexQuery env query).events ∧ (FlexQuery env query).err ≠ none ∧
      (FlexQuery env query).results = none) := by
  constructor
  · intro e hnew hq
    simp [Query, FlexQuery, hnew, hq]
  · intro e hnew
    simp [Query, FlexQuery, hnew]

/-- Witness of C10: a callback that fails on a constructed multicaller, and a callback
that would succeed where no multicaller can be constructed. -/
theorem query_error_paths_witness :
    ((Query evenEnv (fun _ => .error (.base "bad argument"))).err ≠ none ∧
      (∀ b calls, Event.flexibleCall b calls ∉
        (Query evenEnv (fun _ => .error (.base "bad argument"))).events) ∧
      (FlexQuery evenEnv (fun _ => .error (.base "bad argument"))).err ≠ none ∧
      (FlexQuery evenEnv (fun _ => .error (.base "bad argument"))).results = none ∧
      (∀ b calls, Event.flexibleCall b calls ∉
        (FlexQuery evenEnv (fun _ => .error (.base "bad argument"))).events)) ∧
    (Event.queryCall ∉ (Query brokenEnv (fun mc => .ok (mc ++ [0]))).events ∧
      (Query brokenEnv (fun mc => .ok (mc ++ [0]))).err ≠ none ∧
      Event.queryCall ∉ (FlexQuery brokenEnv (fun mc => .ok (mc ++ [0]))).events ∧
      (FlexQuery brokenEnv (fun mc => .ok (mc ++ [0]))).err ≠ none ∧
      (FlexQuery brokenEnv (fun mc => .ok (mc ++ [0]))).results = none) :=
  ⟨(query_error_paths evenEnv (fun _ => .error (.base "bad argument"))).1
      (.base "bad argument") rfl rfl,
    (query_error_paths brokenEnv (fun mc => .ok (mc ++ [0]))).2 (.base "dial failed") rfl⟩

theorem indices_cons (a b : Int) (h : a < b) :
    Shard.indices ⟨a, b⟩ = a :: Shard.indices ⟨a + 1, b⟩ := by
  rw [← indices_append a (a + 1) b (by omega) (by omega)]
  have h1 : Shard.indices ⟨a, a + 1⟩ = [a] := by
    have : (a + 1 - a).toNat = 1 := by omega
    simp [Shard.indices, this, List.range_succ]
  rw [h1]; rfl

theorem handledPairs_append {Call : Type} (a b : List (Event Call)) :
    handledPairs (a ++ b) = handledPairs a ++ handledPairs b := by
  induction a with
  | nil => rfl
  | cons e a ih => cases e <;> simp [handledPairs, ih]

theorem handledPairs_map_query {Call : Type} (js : List Int) :
    handledPairs (js.map (Event.query : Int → Event Call)) = [] := by
  induction js with
  | nil => rfl
  | cons j js ih => simp [handledPairs, ih]

theorem handleLoop_pairs {Call : Type} (handleResult : HandleFn) (i : Int)
    (hh : ∀ b j, handleResult b j = none) :
    ∀ (flags : List Bool) (j : Int), -(2 ^ 63) ≤ j + i → j + i + flags.length ≤ 2 ^ 63 →
      handledPairs (@handleLoop Call handleResult i j flags).1 =
        flags.zip (Shard.indices ⟨j + i, j + i + flags.length⟩) := by
  intro flags
  induction flags with
  | nil => intro j _ _; rfl
  | cons b flags ih =>
    intro j h1 h2
    simp only [List.length_cons, Nat.cast_add, Nat.cast_one] at h2
    have hlt : j + i < 2 ^ 63 := by omega
    have hw : wrapInt (j + i) = j + i := wrapInt_of_range (j + i) h1 hlt
    have hrec := ih (j + 1) (by omega) (by omega)
    have hcons := indices_cons (j + i) (j + i + ((flags.length : Int) + 1)) (by omega)
    have hsame : Shard.indices ⟨j + 1 + i, j + 1 + i + (flags.length : Int)⟩ =
        Shard.indices ⟨j + i + 1, j + i + ((flags.length : Int) + 1)⟩ := by
      congr 2 <;> omega
    unfold handleLoop
    rw [hh]
    simp only [handledPairs, List.length_cons, Nat.cast_add, Nat.cast_one]
    rw [hw, hrec, hcons, hsame, List.zip_cons_cons]

theorem registerLoop_length_of_one_call {Call : Type} (query : ItemQueryFn Call)
    (hq : ∀ mc j, ∃ c, query mc j = .ok (mc ++ [c])) :
    ∀ (js : List Int) (mc0 : MultiCaller Call),
      ∃ mc, (registerLoop query js mc0).2 = .ok mc ∧ mc.length = mc0.length + js.length := by
  intro js
  induction js with
  | nil => intro mc0; exact ⟨mc0, rfl, by simp⟩
  | cons j js ih =>
    intro mc0
    obtain ⟨c, hc⟩ := hq mc0 j
    obtain ⟨mc, hmc, hlen⟩ := ih (mc0 ++ [c])
    refine ⟨mc, ?_, ?_⟩
    · unfold registerLoop
      simp only [hc]
      exact hmc
    · rw [hlen]
      simp only [List.length_append, List.length_cons, List.length_nil]
      omega

theorem flexTask_events_of_ok {Call : Type} (env : Env Call) (query : ItemQueryFn Call)
    (handleResult : HandleFn) (s : Shard) (mc : MultiCaller Call) (flags : List Bool)
    (hnew : env.newMultiCaller s.lo = none)
    (hreg : (registerLoop query s.indices []).2 = .ok mc)
    (hcall : env.flexibleCall s.lo false mc = (some flags, none)) :
    (flexTask env query handleResult s).events =
      .newMultiCaller :: (s.indices.map Event.query ++ .flexibleCall false mc ::
        (@handleLoop Call handleResult s.lo 0 flags).1) := by
  unfold flexTask
  rw [hnew, registerLoop_snd_ok_events query s.indices [] mc hreg]
  simp only
  rw [hcall]
  rfl

/-- C6 (amended). For every item count `N` and batch size `S ≥ 1` for which the loop index
never overflows, when every multicaller is constructed, every query call registers exactly
one call without error, every `FlexibleCall(false)` succeeds with one flag per registered
call and `handleResult` never fails, `FlexBatchQuery` returns `nil` after invoking
`handleResult` exactly once for each index `0, 1, ..., N - 1`: the task of a shard passes
the flag at position `k` of its result array together with the global index `lo + k`. -/
theorem flexBatchQuery_handles_each_index_once {Call : Type} (env : Env Call)
    (finish : Nat → Nat) (query : ItemQueryFn Call) (handleResult : HandleFn)
    (N S : Int) (fuel : Nat)
    (hS : 1 ≤ S) (hov : NoOverflow N S) (hfuel : N.toNat < fuel)
    (hnew : ∀ i, env.newMultiCaller i = none)
    (hq : ∀ mc j, ∃ c, query mc j = .ok (mc ++ [c]))
    (hcall : ∀ i mc, ∃ flags, env.flexibleCall i false mc = (some flags, none) ∧
      flags.length = mc.length)
    (hh : ∀ b j, handleResult b j = none) :
    ∃ plan r, shardPlan fuel N S = some plan ∧
      FlexBatchQuery env finish fuel N S query handleResult = some r ∧ r.err = none ∧
      r.runs = plan.map (flexTask env query handleResult) ∧
      r.runs.flatMap (fun t => (handledPairs t.events).map Prod.snd) =
        (List.range N.toNat).map (fun (k : Nat) => (k : Int)) ∧
      ∀ s ∈ plan, ∃ mc flags, (registerLoop query s.indices []).2 = .ok mc ∧
        env.flexibleCall s.lo false mc = (some flags, none) ∧
        flags.length = s.indices.length ∧
        handledPairs (flexTask env query handleResult s).events = flags.zip s.indices := by
  obtain ⟨plan, hplan, hp⟩ :=
    shardLoop_partitions N S hS hov fuel 0 (le_refl 0) (dvd_zero S) (by simpa using hfuel)
  have hplan' : shardPlan fuel N S = some plan := hplan
  have hq' : ∀ mc j, ∃ mc', query mc j = .ok mc' := by
    intro mc j
    obtain ⟨c, hc⟩ := hq mc j
    exact ⟨mc ++ [c], hc⟩
  have hshard : ∀ s ∈ plan, ∃ mc flags, (registerLoop query s.indices []).2 = .ok mc ∧
      env.flexibleCall s.lo false mc = (some flags, none) ∧
      flags.length = s.indices.length ∧
      handledPairs (flexTask env query handleResult s).events = flags.zip s.indices := by
    intro s hs
    obtain ⟨mc, hreg, hlen⟩ := registerLoop_length_of_one_call query hq s.indices []
    obtain ⟨flags, hfc, hfl⟩ := hcall s.lo mc
    have hb := hp.bounds s hs
    have hlen' : flags.length = s.indices.length := by
      rw [hfl, hlen]; simp
    refine ⟨mc, flags, hreg, hfc, hlen', ?_⟩
    rw [flexTask_events_of_ok env query handleResult s mc flags (hnew s.lo) hreg hfc]
    have hil := indices_length s
    have hpairs := @handleLoop_pairs Call handleResult s.lo hh flags 0 (by omega) (by omega)
    have hhi : (0 : Int) + s.lo + (flags.length : Int) = s.hi := by omega
    rw [hhi, zero_add] at hpairs
    simp only [handledPairs, handledPairs_append, handledPairs_map_query, List.nil_append]
    exact hpairs
  refine ⟨plan, joinGroup finish ⟨plan.map (flexTask env query handleResult)⟩, hplan', ?_,
    ?_, rfl, ?_, hshard⟩
  · rw [flexBatchQuery_eq, hplan']; rfl
  · rw [joinGroup_err_eq_none]
    intro r hr
    obtain ⟨s, _, rfl⟩ := List.mem_map.mp hr
    refine flexTask_err_of_ok env query handleResult s (hnew s.lo) hq' hh ?_
    intro mc
    obtain ⟨flags, hfc, _⟩ := hcall s.lo mc
    rw [hfc]
  · show (plan.map (flexTask env query handleResult)).flatMap
      (fun t => (handledPairs t.events).map Prod.snd) = _
    rw [← indices_zero, ← hp.indices_eq]
    have hall : ∀ s ∈ plan,
        (handledPairs (flexTask env query handleResult s).events).map Prod.snd = s.indices := by
      intro s hs
      obtain ⟨mc, flags, _, _, hlen, hz⟩ := hshard s hs
      rw [hz]
      exact List.map_snd_zip _ _ (by omega)
    clear hshard hp hplan hplan'
    induction plan with
    | nil => rfl
    | cons s plan ih =>
      simp only [List.map_cons, List.flatMap_cons]
      rw [hall s (List.mem_cons_self _ _), ih (fun t ht => hall t (List.mem_cons_of_mem _ ht))]

/-- Witness of C6: ten items in batches of three, one call registered per item. -/
theorem flexBatchQuery_handles_each_index_once_witness :
    ∃ plan r, shardPlan 11 10 3 = some plan ∧
      FlexBatchQuery evenEnv inOrder 11 10 3 oneCallPerItem (fun _ _ => none) = some r ∧
      r.err = none ∧
      r.runs = plan.map (flexTask evenEnv oneCallPerItem (fun _ _ => none)) ∧
      r.runs.flatMap (fun t => (handledPairs t.events).map Prod.snd) =
        (List.range (10 : Int).toNat).map (fun (k : Nat) => (k : Int)) ∧
      ∀ s ∈ plan, ∃ mc flags, (registerLoop oneCallPerItem s.indices []).2 = .ok mc ∧
        evenEnv.flexibleCall s.lo false mc = (some flags, none) ∧
        flags.length = s.indices.length ∧
        handledPairs (flexTask evenEnv oneCallPerItem (fun _ _ => none) s).events =
          flags.zip s.indices :=
  flexBatchQuery_handles_each_index_once evenEnv inOrder oneCallPerItem (fun _ _ => none)
    10 3 11 (by decide) (by intro i _ h _; omega) (by decide) (fun _ => rfl)
    (fun mc j => ⟨j, rfl⟩)
    (fun _ mc => ⟨mc.map (fun c => c % 2 == 0), rfl, List.length_map _ _⟩)
    (fun _ _ => rfl)

/-- C6 as stated fails: with two items in batches of one and a query callback that registers
two calls per item, every round trip succeeds and no callback fails, yet `handleResult` is
invoked four times, twice with index `1` and once with index `2`, which is outside
`[0, 2)`: the index passed is the shard start plus the position of the call. -/
theorem flexBatchQuery_two_calls_per_item :
    (FlexBatchQuery evenEnv inOrder 3 2 1 twoCallsPerItem (fun _ _ => none)).map
      (fun r => (r.err, r.runs.map (fun t => handledPairs t.events))) =
      some (none, [[(true, 0), (false, 1)], [(true, 1), (false, 2)]]) := by
  decide

/-! ## Properties of the log scan -/

theorem scanLogs_skipped (fromBlock : Nat) (err : Option GoError) :
    ∀ (post rest : List Log), (∀ x ∈ post, x.Skipped) →
      scanLogs fromBlock err (post ++ rest) = scanLogs fromBlock err rest := by
  intro post
  induction post with
  | nil => intro rest _; rfl
  | cons x post ih =>
    intro rest h
    have hx := h x (List.mem_cons_self _ _)
    rw [List.cons_append, scanLogs, if_pos hx.1, hx.2]
    exact ih rest (fun y hy => h y (List.mem_cons_of_mem _ hy))

theorem scanLogs_qualifies (fromBlock : Nat) (err : Option GoError) (log : Log)
    (rest : List Log) (h : log.Qualifies) :
    scanLogs fromBlock err (log :: rest) = (log.BlockNumber, none) := by
  rw [scanLogs]
  rcases h with h | h
  · rw [if_neg h]
  · rw [h]
    split_ifs <;> rfl

/-- C11 (amended). Let `log` be the last log of the retrieved list that changed the member
count (a join, leave or kick event, or a decided challenge whose decoded `success` is
true), every later log being a decided challenge that decodes with `success = false`.
Then `GetLatestMemberCountChangedBlock` returns the block number of `log` with a `nil`
error, and when the list is in ascending block order no log that changed the member count
has a higher block number. -/
theorem latestMemberCountChangedBlock_last_qualifying (fromBlock : Nat)
    (pre post : List Log) (log : Log)
    (hq : log.Qualifies) (hpost : ∀ x ∈ post, x.Skipped)
    (hsorted : (pre ++ log :: post).Pairwise (fun a b => a.BlockNumber ≤ b.BlockNumber)) :
    GetLatestMemberCountChangedBlock (.ok (pre ++ log :: post)) fromBlock =
        (log.BlockNumber, none) ∧
      ∀ x ∈ pre ++ log :: post, x.Qualifies → x.BlockNumber ≤ log.BlockNumber := by
  constructor
  · unfold GetLatestMemberCountChangedBlock
    simp only [List.reverse_append, List.reverse_cons, List.append_assoc, List.singleton_append]
    rw [scanLogs_skipped fromBlock none post.reverse _
      (fun x hx => hpost x (List.mem_reverse.mp hx))]
    exact scanLogs_qualifies fromBlock none log _ hq
  · intro x hx hxq
    rcases List.mem_append.mp hx with hpre | hrest
    · exact (List.pairwise_append.mp hsorted).2.2 x hpre log (List.mem_cons_self _ _)
    · rcases List.mem_cons.mp hrest with rfl | hpost'
      · exact le_refl _
      · have hs := hpost x hpost'
        rcases hxq with h | h
        · exact absurd hs.1 h
        · rw [hs.2] at h
          cases h

/-- Witness of C11: a join at block 5, a kick at block 8, then a failed challenge at
block 9. -/
theorem latestMemberCountChangedBlock_last_qualifying_witness :
    GetLatestMemberCountChangedBlock
        (.ok ([⟨.ActionJoined, none, 5⟩] ++ ⟨.ActionKick, none, 8⟩ ::
          [⟨.ActionChallengeDecided, some false, 9⟩])) 3 =
        ((⟨.ActionKick, none, 8⟩ : Log).BlockNumber, none) ∧
      ∀ x ∈ [⟨.ActionJoined, none, 5⟩] ++ (⟨.ActionKick, none, 8⟩ : Log) ::
          [⟨.ActionChallengeDecided, some false, 9⟩],
        x.Qualifies → x.BlockNumber ≤ (⟨.ActionKick, none, 8⟩ : Log).BlockNumber :=
  latestMemberCountChangedBlock_last_qualifying 3 [⟨.ActionJoined, none, 5⟩]
    [⟨.ActionChallengeDecided, some false, 9⟩] ⟨.ActionKick, none, 8⟩
    (Or.inl (by decide)) (by simp [Log.Skipped]) (by simp)

/-- C11 as stated fails: for the logs (in ascending block order) of a join at block 5
followed by a decided challenge at block 7 whose data does not decode, the last log that
changed the member count is the join, yet the function returns block 0 with a `nil`
error. -/
theorem latestMemberCountChangedBlock_undecodable :
    GetLatestMemberCountChangedBlock
      (.ok [⟨.ActionJoined, none, 5⟩, ⟨.ActionChallengeDecided, none, 7⟩]) 3 = (0, none) := by
  decide

/-- C12. If the retrieved log list is empty or consists only of decided challenges with
`success = false`, `GetLatestMemberCountChangedBlock` returns exactly `fromBlock` with a
`nil` error. -/
theorem latestMemberCountChangedBlock_none_qualifying (fromBlock : Nat) (logs : List Log)
    (h : ∀ x ∈ logs, x.Skipped) :
    GetLatestMemberCountChangedBlock (.ok logs) fromBlock = (fromBlock, none) := by
  unfold GetLatestMemberCountChangedBlock
  have := scanLogs_skipped fromBlock none logs.reverse [] (fun x hx => h x (List.mem_reverse.mp hx))
  rw [List.append_nil] at this
  show scanLogs fromBlock none logs.reverse = (fromBlock, none)
  rw [this]
  rfl

/-- Witness of C12: two failed challenges, and the empty list. -/
theorem latestMemberCountChangedBlock_none_qualifying_witness :
    GetLatestMemberCountChangedBlock
        (.ok [⟨.ActionChallengeDecided, some false, 4⟩,
          ⟨.ActionChallengeDecided, some false, 6⟩]) 3 = (3, none) ∧
      GetLatestMemberCountChangedBlock (.ok []) 3 = (3, none) :=
  ⟨latestMemberCountChangedBlock_none_qualifying 3 _ (by simp [Log.Skipped]),
    latestMemberCountChangedBlock_none_qualifying 3 [] (by simp)⟩

/-! ## Properties of `float64` rounding -/

theorem roundHalfEven_cases (x : ℚ) :
    roundHalfEven x = Int.floor x ∨ roundHalfEven x = Int.floor x + 1 := by
  unfold roundHalfEven
  split_ifs <;> simp

theorem roundHalfEven_intCast (z : Int) : roundHalfEven (z : ℚ) = z := by
  unfold roundHalfEven
  simp

theorem abs_roundHalfEven_sub_le (x : ℚ) : |(roundHalfEven x : ℚ) - x| ≤ 1 / 2 := by
  have h1 : (Int.floor x : ℚ) ≤ x := Int.floor_le x
  have h2 : x < (Int.floor x : ℚ) + 1 := Int.lt_floor_add_one x
  unfold roundHalfEven
  rw [abs_le]
  split_ifs with ha hb hc
  · constructor <;> linarith
  · push_cast; constructor <;> linarith
  · constructor <;> linarith
  · push_cast; constructor <;> linarith

theorem F64.round_zero : F64.round 0 = 0 := by
  unfold F64.round
  simp

theorem F64.round_of_binade (x : ℚ) (E : Int) (h1 : (2 : ℚ) ^ E ≤ |x|)
    (h2 : |x| < (2 : ℚ) ^ (E + 1)) :
    F64.round x = (roundHalfEven (x / (2 : ℚ) ^ (E - 52)) : ℚ) * (2 : ℚ) ^ (E - 52) := by
  have hpos : 0 < |x| := lt_of_lt_of_le (by positivity) h1
  have hx : x ≠ 0 := abs_pos.mp hpos
  have hlog : Int.log 2 |x| = E := by
    apply le_antisymm
    · have := (Int.lt_zpow_iff_log_lt (by norm_num : 1 < 2) hpos).mp (by exact_mod_cast h2)
      omega
    · exact (Int.zpow_le_iff_le_log (by norm_num : 1 < 2) hpos).mp (by exact_mod_cast h1)
  unfold F64.round
  rw [if_neg hx, hlog]

theorem F64.binade (x : ℚ) (hx : x ≠ 0) :
    (2 : ℚ) ^ (Int.log 2 |x|) ≤ |x| ∧ |x| < (2 : ℚ) ^ (Int.log 2 |x| + 1) := by
  have hpos : 0 < |x| := abs_pos.mpr hx
  constructor
  · exact_mod_cast Int.zpow_log_le_self (by norm_num : 1 < 2) hpos
  · exact_mod_cast Int.lt_zpow_succ_log_self (by norm_num : 1 < 2) |x|

theorem F64.round_pos (x : ℚ) (hx : 0 < x) : 0 < F64.round x := by
  obtain ⟨h1, _⟩ := F64.binade x hx.ne'
  unfold F64.round
  rw [if_neg hx.ne']
  rw [abs_of_pos hx] at h1 ⊢
  have hq : (0 : ℚ) < (2 : ℚ) ^ (Int.log 2 x - 52) := by positivity
  apply mul_pos _ hq
  have hy : (2 : ℚ) ^ (52 : Int) ≤ x / (2 : ℚ) ^ (Int.log 2 x - 52) := by
    rw [le_div_iff₀ hq, ← zpow_add₀ (by norm_num : (2 : ℚ) ≠ 0)]
    simpa using h1
  have hfl : (1 : Int) ≤ Int.floor (x / (2 : ℚ) ^ (Int.log 2 x - 52)) := by
    rw [Int.le_floor]
    refine le_trans ?_ hy
    norm_num
  have : (1 : Int) ≤ roundHalfEven (x / (2 : ℚ) ^ (Int.log 2 x - 52)) := by
    rcases roundHalfEven_cases (x / (2 : ℚ) ^ (Int.log 2 x - 52)) with h | h <;> omega
  exact_mod_cast this

theorem roundHalfEven_neg (x : ℚ) : roundHalfEven (-x) = -roundHalfEven x := by
  by_cases hz : (Int.floor x : ℚ) = x
  · rw [← hz, ← Int.cast_neg, roundHalfEven_intCast, roundHalfEven_intCast]
  · have h1 : (Int.floor x : ℚ) < x := lt_of_le_of_ne (Int.floor_le x) hz
    have h2 : x < (Int.floor x : ℚ) + 1 := Int.lt_floor_add_one x
    have hfl : Int.floor (-x) = -(Int.floor x) - 1 := by
      rw [Int.floor_eq_iff]
      push_cast
      constructor <;> linarith
    unfold roundHalfEven
    rw [hfl]
    push_cast
    by_cases ha : x - (Int.floor x : ℚ) < 1 / 2
    · have hb : ¬(-x - (-(Int.floor x : ℚ) - 1) < 1 / 2) := by linarith
      have hc : 1 / 2 < -x - (-(Int.floor x : ℚ) - 1) := by linarith
      rw [if_pos ha, if_neg hb, if_pos hc]
      ring
    · by_cases hb : 1 / 2 < x - (Int.floor x : ℚ)
      · have hc : -x - (-(Int.floor x : ℚ) - 1) < 1 / 2 := by linarith
        rw [if_neg ha, if_pos hb, if_pos hc]
        ring
      · have hc : ¬(-x - (-(Int.floor x : ℚ) - 1) < 1 / 2) := by linarith
        have hd : ¬(1 / 2 < -x - (-(Int.floor x : ℚ) - 1)) := by linarith
        rw [if_neg ha, if_neg hb, if_neg hc, if_neg hd]
        by_cases he : Int.floor x % 2 = 0
        · have hf : ¬((-(Int.floor x) - 1) % 2 = 0) := by omega
          rw [if_pos he, if_neg hf]
          ring
        · have hf : (-(Int.floor x) - 1) % 2 = 0 := by omega
          rw [if_neg he, if_pos hf]
          ring

theorem F64.round_neg (x : ℚ) : F64.round (-x) = -F64.round x := by
  unfold F64.round
  by_cases hx : x = 0
  · simp [hx]
  · rw [if_neg hx, if_neg (neg_ne_zero.mpr hx), abs_neg, neg_div, roundHalfEven_neg]
    push_cast
    ring

theorem F64.round_eq_zero_iff (x : ℚ) : F64.round x = 0 ↔ x = 0 := by
  constructor
  · intro h
    by_contra hx
    rcases lt_or_gt_of_ne hx with hneg | hpos
    · have := F64.round_pos (-x) (by linarith)
      rw [F64.round_neg, h] at this
      simp at this
    · have := F64.round_pos x hpos
      rw [h] at this
      exact lt_irrefl _ this
  · intro h
    rw [h, F64.round_zero]

theorem F64.round_nonneg (x : ℚ) (hx : 0 ≤ x) : 0 ≤ F64.round x := by
  rcases eq_or_lt_of_le hx with h | h
  · rw [← h, F64.round_zero]
  · exact (F64.round_pos x h).le

theorem F64.round_exact (n j : Int) (hn : |n| < 2 ^ 53) :
    F64.round ((n : ℚ) * (2 : ℚ) ^ j) = (n : ℚ) * (2 : ℚ) ^ j := by
  by_cases hn0 : n = 0
  · simp [hn0, F64.round_zero]
  have h2j : (0 : ℚ) < (2 : ℚ) ^ j := by positivity
  have hx : (n : ℚ) * (2 : ℚ) ^ j ≠ 0 :=
    mul_ne_zero (by exact_mod_cast hn0) h2j.ne'
  obtain ⟨h1, _⟩ := F64.binade _ hx
  have habs : |(n : ℚ) * (2 : ℚ) ^ j| < (2 : ℚ) ^ (53 + j) := by
    rw [abs_mul, abs_of_pos h2j, zpow_add₀ (by norm_num : (2 : ℚ) ≠ 0)]
    apply mul_lt_mul_of_pos_right _ h2j
    exact_mod_cast hn
  have hE : Int.log 2 |(n : ℚ) * (2 : ℚ) ^ j| < 53 + j := by
    have hlt := lt_of_le_of_lt h1 habs
    exact (zpow_lt_zpow_iff_right₀ (by norm_num : (1 : ℚ) < 2)).mp hlt
  unfold F64.round
  rw [if_neg hx]
  generalize Int.log 2 |(n : ℚ) * (2 : ℚ) ^ j| = E at hE
  obtain ⟨d, hd⟩ : ∃ d : Nat, j = (E - 52) + d := ⟨(j - (E - 52)).toNat, by omega⟩
  have hy : (n : ℚ) * (2 : ℚ) ^ j / (2 : ℚ) ^ (E - 52) = ((n * 2 ^ d : Int) : ℚ) := by
    rw [hd, zpow_add₀ (by norm_num : (2 : ℚ) ≠ 0)]
    have : (0 : ℚ) < (2 : ℚ) ^ (E - 52) := by positivity
    field_simp
    ring
  rw [hy, roundHalfEven_intCast, hd, zpow_add₀ (by norm_num : (2 : ℚ) ≠ 0), zpow_natCast]
  push_cast
  ring

theorem F64.round_natCast (n : Nat) (hn : n ≤ 2 ^ 53) : F64.round (n : ℚ) = (n : ℚ) := by
  rcases Nat.lt_or_ge n (2 ^ 53) with h | h
  · have := F64.round_exact (n : Int) 0 (by rw [abs_of_nonneg (by positivity)]; exact_mod_cast h)
    simpa using this
  · have hn53 : n = 2 ^ 53 := le_antisymm hn h
    have := F64.round_exact (2 ^ 52) 1 (by norm_num)
    rw [hn53]
    norm_num at this ⊢
    exact this

theorem F64.round_sub_le (x : ℚ) : |F64.round x - x| ≤ |x| / 2 ^ 53 := by
  by_cases hx : x = 0
  · simp [hx, F64.round_zero]
  obtain ⟨h1, _⟩ := F64.binade x hx
  unfold F64.round
  rw [if_neg hx]
  generalize Int.log 2 |x| = E at h1
  have hq : (0 : ℚ) < (2 : ℚ) ^ (E - 52) := by positivity
  have hfac : (roundHalfEven (x / (2 : ℚ) ^ (E - 52)) : ℚ) * (2 : ℚ) ^ (E - 52) - x =
      ((roundHalfEven (x / (2 : ℚ) ^ (E - 52)) : ℚ) - x / (2 : ℚ) ^ (E - 52)) *
        (2 : ℚ) ^ (E - 52) := by
    field_simp
  rw [hfac, abs_mul, abs_of_pos hq]
  have hhalf := abs_roundHalfEven_sub_le (x / (2 : ℚ) ^ (E - 52))
  have hE : (2 : ℚ) ^ (E - 52) = (2 : ℚ) ^ E / 2 ^ 52 := by
    rw [zpow_sub₀ (by norm_num : (2 : ℚ) ≠ 0)]
    norm_num
  calc |(roundHalfEven (x / (2 : ℚ) ^ (E - 52)) : ℚ) - x / (2 : ℚ) ^ (E - 52)| *
        (2 : ℚ) ^ (E - 52)
      ≤ 1 / 2 * (2 : ℚ) ^ (E - 52) := mul_le_mul_of_nonneg_right hhalf hq.le
    _ = (2 : ℚ) ^ E / 2 ^ 53 := by rw [hE]; ring
    _ ≤ |x| / 2 ^ 53 := by
      apply div_le_div_of_nonneg_right h1
      positivity

/-! ## Properties of the participation arithmetic -/

theorem minBlock_of_fifty_le (blockNumber frequency : Nat) (hB : blockNumber < 2 ^ 64)
    (hf : 0 < frequency) (h50 : 50 ≤ blockNumber / frequency) :
    minBlock blockNumber frequency = (blockNumber / frequency - 50) * frequency ∧
      minBlock blockNumber frequency ≤ blockNumber ∧
      blockNumber - minBlock blockNumber frequency < 51 * frequency := by
  have hdiv : blockNumber / frequency * frequency ≤ blockNumber := Nat.div_mul_le_self _ _
  have hq : blockNumber / frequency < 2 ^ 64 :=
    lt_of_le_of_lt (Nat.div_le_self _ _) hB
  have hmod : blockNumber < blockNumber / frequency * frequency + frequency := by
    have := Nat.lt_div_mul_add hf (a := blockNumber)
    simpa using this
  have hsub : U64.sub (blockNumber / frequency) 50 = blockNumber / frequency - 50 := by
    unfold U64.sub
    omega
  have hprod : (blockNumber / frequency - 50) * frequency + 50 * frequency =
      blockNumber / frequency * frequency := by
    rw [← Nat.add_mul, Nat.sub_add_cancel h50]
  have hmul : minBlock blockNumber frequency = (blockNumber / frequency - 50) * frequency := by
    unfold minBlock U64.mul
    rw [hsub]
    apply Nat.mod_eq_of_lt
    omega
  refine ⟨hmul, ?_, ?_⟩
  · rw [hmul]; omega
  · rw [hmul]
    have : 51 * frequency = 50 * frequency + frequency := by ring
    omega

/-- C13. Evaluation of the code at block number 100 with frequency 10: fewer than 50
intervals have passed, `blockNumber/frequency - 50` wraps around, and `minBlock` is
`18446744073709551216`, above the current block instead of at most 50 intervals below
it. -/
theorem minBlock_underflow :
    minBlock 100 10 = 18446744073709551216 ∧ ¬ minBlock 100 10 ≤ 100 := by
  decide

theorem floor_half_add_one (memberCount : Nat) :
    Int.floor ((memberCount : ℚ) / 2 + 1) = ((memberCount / 2 + 1 : Nat) : Int) := by
  obtain ⟨q, r, hr, hm⟩ : ∃ q r : Nat, r < 2 ∧ memberCount = 2 * q + r :=
    ⟨memberCount / 2, memberCount % 2, Nat.mod_lt _ (by decide),
      (Nat.div_add_mod memberCount 2).symm⟩
  have hq : memberCount / 2 = q := by omega
  rw [hq]
  have hc : (memberCount : ℚ) = 2 * (q : ℚ) + (r : ℚ) := by exact_mod_cast hm
  have hr0 : (0 : ℚ) ≤ (r : ℚ) := by positivity
  have hr1 : (r : ℚ) ≤ 1 := by exact_mod_cast Nat.lt_succ_iff.mp hr
  rw [Int.floor_eq_iff, hc]
  simp only [Nat.cast_add, Nat.cast_one, Int.cast_add, Int.cast_natCast, Int.cast_one]
  constructor <;> linarith

theorem F64.ofNat_of_le (n : Nat) (hn : n ≤ 2 ^ 53) : F64.ofNat n = .finite (n : ℚ) := by
  unfold F64.ofNat
  rw [F64.round_natCast n hn]

theorem F64.ofNat_zero : F64.ofNat 0 = .finite 0 := by
  simpa using F64.ofNat_of_le 0 (by norm_num)

theorem F64.le_round (x : ℚ) (E : Int) (h : (2 : ℚ) ^ E ≤ x) : (2 : ℚ) ^ E ≤ F64.round x := by
  have hx : 0 < x := lt_of_lt_of_le (by positivity) h
  obtain ⟨h1, _⟩ := F64.binade x hx.ne'
  rw [abs_of_pos hx] at h1
  have hE : E ≤ Int.log 2 x :=
    (Int.zpow_le_iff_le_log (by norm_num : 1 < 2) hx).mp (by exact_mod_cast h)
  unfold F64.round
  rw [if_neg hx.ne', abs_of_pos hx]
  generalize Int.log 2 x = L at h1 hE
  have hq : (0 : ℚ) < (2 : ℚ) ^ (L - 52) := by positivity
  have hy : (2 : ℚ) ^ (52 : Int) ≤ x / (2 : ℚ) ^ (L - 52) := by
    rw [le_div_iff₀ hq, ← zpow_add₀ (by norm_num : (2 : ℚ) ≠ 0)]
    simpa using h1
  have hfl : ((2 ^ 52 : Nat) : Int) ≤ Int.floor (x / (2 : ℚ) ^ (L - 52)) := by
    rw [Int.le_floor]
    refine le_trans ?_ hy
    norm_num
  have hr : ((2 ^ 52 : Nat) : Int) ≤ roundHalfEven (x / (2 : ℚ) ^ (L - 52)) := by
    rcases roundHalfEven_cases (x / (2 : ℚ) ^ (L - 52)) with h | h <;> omega
  have hr' : (2 : ℚ) ^ (52 : Int) ≤ (roundHalfEven (x / (2 : ℚ) ^ (L - 52)) : ℚ) := by
    have : (((2 ^ 52 : Nat) : Int) : ℚ) ≤ (roundHalfEven (x / (2 : ℚ) ^ (L - 52)) : ℚ) := by
      exact_mod_cast hr
    refine le_trans ?_ this
    norm_num
  calc (2 : ℚ) ^ E ≤ (2 : ℚ) ^ L := zpow_le_zpow_right₀ (by norm_num) hE
    _ = (2 : ℚ) ^ (52 : Int) * (2 : ℚ) ^ (L - 52) := by
      rw [← zpow_add₀ (by norm_num : (2 : ℚ) ≠ 0)]
      congr 1
      ring
    _ ≤ (roundHalfEven (x / (2 : ℚ) ^ (L - 52)) : ℚ) * (2 : ℚ) ^ (L - 52) :=
      mul_le_mul_of_nonneg_right hr' hq.le

theorem consensus_unfold (memberCount : Nat) :
    consensus memberCount =
      .finite ((Int.floor (F64.round (F64.round (F64.round (memberCount : ℚ) / 2) + 1)) : Int) :
        ℚ) := by
  simp [consensus, F64.ofNat, F64.div, F64.add, F64.floor]

theorem consensus_finite (memberCount : Nat) :
    ∃ c : ℚ, consensus memberCount = .finite c ∧ 1 ≤ c := by
  refine ⟨_, consensus_unfold memberCount, ?_⟩
  have h0 : 0 ≤ F64.round (F64.round (memberCount : ℚ) / 2) :=
    F64.round_nonneg _ (div_nonneg (F64.round_nonneg _ (by positivity)) (by norm_num))
  have h1 : (2 : ℚ) ^ (0 : Int) ≤
      F64.round (F64.round (F64.round (memberCount : ℚ) / 2) + 1) :=
    F64.le_round _ 0 (by simpa using h0)
  have h2 : (1 : Int) ≤ Int.floor (F64.round (F64.round (F64.round (memberCount : ℚ) / 2) + 1)) := by
    rw [Int.le_floor]
    simpa using h1
  exact_mod_cast h2

theorem F64.round_half (n : Nat) (hn : n < 2 ^ 53) :
    F64.round ((n : ℚ) / 2) = (n : ℚ) / 2 := by
  have := F64.round_exact (n : Int) (-1)
    (by rw [abs_of_nonneg (by positivity)]; exact_mod_cast hn)
  have h2 : (2 : ℚ) ^ (-1 : Int) = 1 / 2 := by norm_num
  rw [h2] at this
  have h3 : ((n : Int) : ℚ) * (1 / 2) = (n : ℚ) / 2 := by push_cast; ring
  rw [h3] at this
  exact this

theorem consensus_of_lt (memberCount : Nat) (hm : memberCount < 2 ^ 53) :
    consensus memberCount = .finite ((memberCount / 2 + 1 : Nat) : ℚ) := by
  rw [consensus_unfold, F64.round_natCast memberCount hm.le, F64.round_half memberCount hm]
  congr 1
  by_cases hlast : memberCount = 2 ^ 53 - 1
  · subst hlast
    have hx : F64.round (((2 ^ 53 - 1 : Nat) : ℚ) / 2 + 1) = 4503599627370496 := by
      rw [F64.round_of_binade _ 52 (by norm_num [abs_of_pos]) (by norm_num [abs_of_pos])]
      have hfl : Int.floor ((((2 ^ 53 - 1 : Nat) : ℚ) / 2 + 1) / (2 : ℚ) ^ ((52 : Int) - 52)) =
          4503599627370496 := by
        rw [Int.floor_eq_iff]
        norm_num
      unfold roundHalfEven
      rw [hfl]
      norm_num
    rw [hx]
    norm_num
  · have hexact : F64.round ((memberCount : ℚ) / 2 + 1) = (memberCount : ℚ) / 2 + 1 := by
      have hlt : memberCount + 2 < 2 ^ 53 ∨ memberCount + 2 = 2 ^ 53 := by omega
      rcases hlt with hlt | heq
      · have := F64.round_half (memberCount + 2) hlt
        have h3 : ((memberCount + 2 : Nat) : ℚ) / 2 = (memberCount : ℚ) / 2 + 1 := by
          push_cast; ring
        rw [h3] at this
        exact this
      · have h3 : (memberCount : ℚ) / 2 + 1 = ((2 ^ 52 : Nat) : ℚ) := by
          have : ((memberCount + 2 : Nat) : ℚ) = ((2 ^ 53 : Nat) : ℚ) := by rw [heq]
          push_cast at this ⊢
          linarith
        rw [h3]
        exact F64.round_natCast _ (by norm_num)
    rw [hexact, floor_half_add_one]
    exact Int.cast_natCast _

/-! ## Properties of the member loop -/

theorem markBlocks_spec (frequency start : Nat) :
    ∀ (blocks : List Nat) (row0 row : List Bool),
      markBlocks frequency start blocks row0 = .ok row →
        row.length = row0.length ∧
        ∀ k, row[k]? = some true ↔
          (row0[k]? = some true ∨ (k < row0.length ∧ ∃ b ∈ blocks, b % frequency = 0 ∧
            U64.sub (b / frequency) (start / frequency) = k)) := by
  intro blocks
  induction blocks with
  | nil =>
    intro row0 row h
    simp only [markBlocks, Except.ok.injEq] at h
    subst h
    simp
  | cons b blocks ih =>
    intro row0 row h
    rw [markBlocks] at h
    split_ifs at h with hstep hidx
    · obtain ⟨hlen, hiff⟩ := ih _ row h
      rw [List.length_set] at hlen
      refine ⟨hlen, ?_⟩
      intro k
      rw [hiff k, List.length_set, List.getElem?_set]
      constructor
      · rintro (h1 | ⟨hk, b', hb', hb1, hb2⟩)
        · by_cases heq : U64.sub (b / frequency) (start / frequency) = k
          · exact Or.inr ⟨by omega, b, List.mem_cons_self _ _, hstep, heq⟩
          · rw [if_neg heq] at h1
            exact Or.inl h1
        · exact Or.inr ⟨hk, b', List.mem_cons_of_mem _ hb', hb1, hb2⟩
      · rintro (h1 | ⟨hk, b', hb', hb1, hb2⟩)
        · by_cases heq : U64.sub (b / frequency) (start / frequency) = k
          · left; rw [if_pos heq, if_pos hidx]
          · left; rw [if_neg heq]; exact h1
        · rcases List.mem_cons.mp hb' with rfl | hb'
          · left; rw [if_pos hb2, if_pos hidx]
          · exact Or.inr ⟨hk, b', hb', hb1, hb2⟩
    · obtain ⟨hlen, hiff⟩ := ih row0 row h
      refine ⟨hlen, ?_⟩
      intro k
      rw [hiff k]
      constructor
      · rintro (h1 | ⟨hk, b', hb', hb1, hb2⟩)
        · exact Or.inl h1
        · exact Or.inr ⟨hk, b', List.mem_cons_of_mem _ hb', hb1, hb2⟩
      · rintro (h1 | ⟨hk, b', hb', hb1, hb2⟩)
        · exact Or.inl h1
        · rcases List.mem_cons.mp hb' with rfl | hb'
          · exact absurd hb1 hstep
          · exact Or.inr ⟨hk, b', hb', hb1, hb2⟩

theorem pricesMemberLoop_spec (env : CalcEnv) (frequency start intervals : Nat) (expect : F64) :
    ∀ (members : List Address) (st st' : LoopState),
      pricesMemberLoop env frequency start intervals expect members st = .ok st' →
        (∀ a, a ∉ members → st'.participationTable a = st.participationTable a ∧
          st'.submissions a = st.submissions a) ∧
        (∀ a ∈ members, ∃ row, st'.participationTable a = some row ∧
          MemberEntry frequency start intervals (env.GetPricesSubmissions a start) row
            (st'.submissions a)) ∧
        st'.chi = (if 0 < intervals then
          members.foldl (fun chi a =>
            F64.add chi (chiTerm (actualCount (env.GetPricesSubmissions a start)) expect))
            st.chi else st.chi) := by
  intro members
  induction members with
  | nil =>
    intro st st' h
    simp only [pricesMemberLoop, Except.ok.injEq] at h
    subst h
    simp
  | cons member members ih =>
    intro st st' h
    rw [pricesMemberLoop] at h
    by_cases hn : 0 < intervals
    · rw [if_pos hn] at h
      cases hsub : env.GetPricesSubmissions member start with
      | error e => rw [hsub] at h; cases h
      | ok blocks =>
        rw [hsub] at h
        simp only at h
        cases hmark : markBlocks frequency start blocks (List.replicate intervals false) with
        | error fault => rw [hmark] at h; cases h
        | ok row =>
          rw [hmark] at h
          simp only at h
          obtain ⟨hout, hin, hchi⟩ := ih _ st' h
          refine ⟨?_, ?_, ?_⟩
          · intro a ha
            rw [List.mem_cons, not_or] at ha
            obtain ⟨h1, h2⟩ := hout a ha.2
            simp only [AddressMap.set, if_neg ha.1] at h1 h2
            exact ⟨h1, h2⟩
          · intro a ha
            by_cases hmem : a ∈ members
            · exact hin a hmem
            · have ham : a = member := by
                rcases List.mem_cons.mp ha with h0 | h0
                · exact h0
                · exact absurd h0 hmem
              subst ham
              obtain ⟨h1, h2⟩ := hout a hmem
              simp only [AddressMap.set, if_true] at h1 h2
              refine ⟨row, h1, ?_⟩
              unfold MemberEntry
              rw [if_pos hn]
              exact ⟨blocks, hsub, hmark, h2⟩
          · rw [hchi, if_pos hn, if_pos hn, List.foldl_cons, hsub]
            rfl
    · rw [if_neg hn] at h
      obtain ⟨hout, hin, hchi⟩ := ih _ st' h
      refine ⟨?_, ?_, ?_⟩
      · intro a ha
        rw [List.mem_cons, not_or] at ha
        obtain ⟨h1, h2⟩ := hout a ha.2
        simp only [AddressMap.set, if_neg ha.1] at h1 h2
        exact ⟨h1, h2⟩
      · intro a ha
        by_cases hmem : a ∈ members
        · exact hin a hmem
        · have ham : a = member := by
            rcases List.mem_cons.mp ha with h0 | h0
            · exact h0
            · exact absurd h0 hmem
          subst ham
          obtain ⟨h1, h2⟩ := hout a hmem
          simp only [AddressMap.set, if_true] at h1 h2
          refine ⟨_, h1, ?_⟩
          unfold MemberEntry
          rw [if_neg hn]
          exact ⟨rfl, h2⟩
      · rw [hchi, if_neg hn, if_neg hn]

/-! ## The calculators in terms of their member loop -/

theorem prices_of_inputs (env : CalcEnv) (opts : Option Nat) (blockNumber latest : Nat)
    (members : List Address) (h : PricesInputs env opts blockNumber latest members) :
    CalculateTrustedNodePricesParticipation env opts =
      match pricesMemberLoop env env.SubmitPricesFrequency
          (startBlock latest env.SubmitPricesFrequency)
          (intervalsPassed blockNumber (startBlock latest env.SubmitPricesFrequency)
            env.SubmitPricesFrequency)
          (expected (intervalsPassed blockNumber (startBlock latest env.SubmitPricesFrequency)
            env.SubmitPricesFrequency) env.MemberCount)
          members ⟨AddressMap.empty, AddressMap.empty, .finite 0⟩ with
      | .error fault => .error fault
      | .ok st =>
        .ok (participationOf env.GammaIncReg env.SubmitPricesFrequency blockNumber latest
          env.MemberCount members st) := by
  obtain ⟨h1, h2, h3, h4, h5⟩ := h
  unfold CalculateTrustedNodePricesParticipation
  rw [h1]
  simp only [h2, if_neg h3, h4, h5]
  rfl

theorem prices_inputs_of_ok (env : CalcEnv) (opts : Option Nat)
    (r : TrustedNodeParticipation)
    (h : CalculateTrustedNodePricesParticipation env opts = .ok r) :
    ∃ blockNumber latest members, PricesInputs env opts blockNumber latest members := by
  unfold CalculateTrustedNodePricesParticipation at h
  cases h1 : optsBlockNumber env opts with
  | error e => rw [h1] at h; cases h
  | ok blockNumber =>
    rw [h1] at h
    simp only at h
    cases h2 : env.pricesQuery with
    | some e => rw [h2] at h; cases h
    | none =>
      rw [h2] at h
      simp only at h
      by_cases h3 : env.SubmitPricesFrequency = 0
      · rw [if_pos h3] at h; cases h
      · rw [if_neg h3] at h
        rcases h4 : GetLatestMemberCountChangedBlock
            (env.GetLogs (minBlock blockNumber env.SubmitPricesFrequency))
            (minBlock blockNumber env.SubmitPricesFrequency) with ⟨latest, err⟩
        rw [h4] at h
        cases err with
        | some e => cases h
        | none =>
          simp only at h
          cases h5 : env.GetMemberAddresses env.MemberCount with
          | error e => rw [h5] at h; cases h
          | ok members => exact ⟨blockNumber, latest, members, h1, h2, h3, h4, h5⟩

theorem prices_ok_inv (env : CalcEnv) (opts : Option Nat) (r : TrustedNodeParticipation)
    (h : CalculateTrustedNodePricesParticipation env opts = .ok r) :
    ∃ blockNumber latest members st, PricesInputs env opts blockNumber latest members ∧
      pricesMemberLoop env env.SubmitPricesFrequency
          (startBlock latest env.SubmitPricesFrequency)
          (intervalsPassed blockNumber (startBlock latest env.SubmitPricesFrequency)
            env.SubmitPricesFrequency)
          (expected (intervalsPassed blockNumber (startBlock latest env.SubmitPricesFrequency)
            env.SubmitPricesFrequency) env.MemberCount)
          members ⟨AddressMap.empty, AddressMap.empty, .finite 0⟩ = .ok st ∧
      r = participationOf env.GammaIncReg env.SubmitPricesFrequency blockNumber latest
          env.MemberCount members st := by
  obtain ⟨blockNumber, latest, members, hin⟩ := prices_inputs_of_ok env opts r h
  rw [prices_of_inputs env opts blockNumber latest members hin] at h
  refine ⟨blockNumber, latest, members, ?_⟩
  split at h
  · cases h
  · next st hst =>
    simp only [Except.ok.injEq] at h
    exact ⟨st, hin, hst, h.symm⟩

theorem balancesMemberLoop_swap (env : CalcEnv) (frequency start intervals : Nat)
    (expect : F64) :
    ∀ (members : List Address) (st : LoopState),
      balancesMemberLoop env frequency start intervals expect members st =
        pricesMemberLoop env.swap frequency start intervals expect members st := by
  intro members
  induction members with
  | nil => intro st; rfl
  | cons member members ih =>
    intro st
    rw [balancesMemberLoop, pricesMemberLoop]
    simp only [ih]
    rfl

theorem balances_swap (env : CalcEnv) (opts : Option Nat) :
    CalculateTrustedNodeBalancesParticipation env opts =
      CalculateTrustedNodePricesParticipation env.swap opts := by
  unfold CalculateTrustedNodeBalancesParticipation CalculateTrustedNodePricesParticipation
  simp only [balancesMemberLoop_swap]
  rfl

theorem balancesInputs_swap (env : CalcEnv) (opts : Option Nat) (blockNumber latest : Nat)
    (members : List Address) :
    BalancesInputs env opts blockNumber latest members ↔
      PricesInputs env.swap opts blockNumber latest members := by
  cases opts <;> rfl

/-! ## Expected submissions and the case of no elapsed interval -/

theorem expected_unfold (intervals memberCount : Nat) (c : ℚ)
    (hc : consensus memberCount = .finite c) (hm : 0 < memberCount) :
    expected intervals memberCount =
      .finite (F64.round (F64.round (F64.round (intervals : ℚ) * c) /
        F64.round (memberCount : ℚ))) := by
  have hne : F64.round (memberCount : ℚ) ≠ 0 := by
    rw [Ne, F64.round_eq_zero_iff]
    exact_mod_cast hm.ne'
  unfold expected
  rw [hc]
  simp only [F64.ofNat, F64.mul, F64.div, if_neg hne]

theorem expected_finite (intervals memberCount : Nat) (hm : 0 < memberCount) :
    ∃ e : ℚ, expected intervals memberCount = .finite e ∧ 0 ≤ e ∧
      (0 < intervals → 0 < e) ∧ (intervals = 0 → e = 0) := by
  obtain ⟨c, hc, hc1⟩ := consensus_finite memberCount
  have hmpos : 0 < F64.round (memberCount : ℚ) :=
    F64.round_pos _ (by exact_mod_cast hm)
  have hk0 : 0 ≤ F64.round (intervals : ℚ) := F64.round_nonneg _ (by positivity)
  refine ⟨_, expected_unfold intervals memberCount c hc hm, ?_, ?_, ?_⟩
  · exact F64.round_nonneg _ (div_nonneg (F64.round_nonneg _
      (mul_nonneg hk0 (by linarith))) hmpos.le)
  · intro hk
    have hkpos : 0 < F64.round (intervals : ℚ) := F64.round_pos _ (by exact_mod_cast hk)
    exact F64.round_pos _ (div_pos (F64.round_pos _ (mul_pos hkpos (by linarith))) hmpos)
  · intro hk
    subst hk
    simp [F64.round_zero]

theorem expected_of_exact (intervals memberCount : Nat) (hm : 0 < memberCount)
    (hm53 : memberCount < 2 ^ 53) (hk : intervals * (memberCount / 2 + 1) ≤ 2 ^ 53) :
    expected intervals memberCount =
      .finite (F64.round (((intervals * (memberCount / 2 + 1) : Nat) : ℚ) /
        (memberCount : ℚ))) := by
  have hk53 : intervals ≤ 2 ^ 53 :=
    le_trans (Nat.le_mul_of_pos_right _ (Nat.succ_pos _)) hk
  rw [expected_unfold intervals memberCount _ (consensus_of_lt memberCount hm53) hm,
    F64.round_natCast intervals hk53, F64.round_natCast memberCount hm53.le,
    ← Nat.cast_mul, F64.round_natCast _ hk]

theorem prices_expectedSubmissions (env : CalcEnv) (opts : Option Nat)
    (blockNumber latest : Nat) (members : List Address) (r : TrustedNodeParticipation)
    (hin : PricesInputs env opts blockNumber latest members)
    (h : CalculateTrustedNodePricesParticipation env opts = .ok r) :
    r.UpdateCount = intervalsPassed blockNumber
        (startBlock latest env.SubmitPricesFrequency) env.SubmitPricesFrequency ∧
      r.ExpectedSubmissions = expected (intervalsPassed blockNumber
        (startBlock latest env.SubmitPricesFrequency) env.SubmitPricesFrequency)
        env.MemberCount := by
  rw [prices_of_inputs env opts blockNumber latest members hin] at h
  split at h
  · cases h
  · simp only [Except.ok.injEq] at h
    subst h
    exact ⟨rfl, rfl⟩

/-- C14 (amended). Over the rationals `Floor(m/2 + 1)` is the integer `m/2 + 1` (integer
division) for every `m`. For a member count `1 ≤ m < 2 ^ 53` the consensus threshold that
the calculators compute in `float64` is that integer, and for `k` intervals with
`k * (m/2 + 1) ≤ 2 ^ 53` the expected count they compute is the `float64` nearest to
`k * (m/2 + 1) / m`: within the relative error `2 ^ (-53)` of it, and equal to it when `m`
divides `k * (m/2 + 1)`. In every result of either calculator `ExpectedSubmissions` is
this expected count at `k = UpdateCount`, the number of intervals passed between the
start block and the block of the calculation. -/
theorem expectedSubmissions_formula (env : CalcEnv) (opts : Option Nat)
    (blockNumber latest : Nat) (members : List Address) (k : Nat)
    (hm : 1 ≤ env.MemberCount) (hm53 : env.MemberCount < 2 ^ 53)
    (hk : k * (env.MemberCount / 2 + 1) ≤ 2 ^ 53) :
    Int.floor ((env.MemberCount : ℚ) / 2 + 1) = ((env.MemberCount / 2 + 1 : Nat) : Int) ∧
    consensus env.MemberCount = .finite ((env.MemberCount / 2 + 1 : Nat) : ℚ) ∧
    (∃ e : ℚ, expected k env.MemberCount = .finite e ∧
      e = F64.round (((k * (env.MemberCount / 2 + 1) : Nat) : ℚ) / (env.MemberCount : ℚ)) ∧
      |e - ((k * (env.MemberCount / 2 + 1) : Nat) : ℚ) / (env.MemberCount : ℚ)| ≤
        ((k * (env.MemberCount / 2 + 1) : Nat) : ℚ) / (env.MemberCount : ℚ) / 2 ^ 53 ∧
      (env.MemberCount ∣ k * (env.MemberCount / 2 + 1) →
        e = ((k * (env.MemberCount / 2 + 1) : Nat) : ℚ) / (env.MemberCount : ℚ))) ∧
    (PricesInputs env opts blockNumber latest members →
      ∀ r, CalculateTrustedNodePricesParticipation env opts = .ok r →
        r.UpdateCount = intervalsPassed blockNumber
            (startBlock latest env.SubmitPricesFrequency) env.SubmitPricesFrequency ∧
          r.ExpectedSubmissions = expected (intervalsPassed blockNumber
            (startBlock latest env.SubmitPricesFrequency) env.SubmitPricesFrequency)
            env.MemberCount) ∧
    (BalancesInputs env opts blockNumber latest members →
      ∀ r, CalculateTrustedNodeBalancesParticipation env opts = .ok r →
        r.UpdateCount = intervalsPassed blockNumber
            (startBlock latest env.SubmitBalancesFrequency) env.SubmitBalancesFrequency ∧
          r.ExpectedSubmissions = expected (intervalsPassed blockNumber
            (startBlock latest env.SubmitBalancesFrequency) env.SubmitBalancesFrequency)
            env.MemberCount) := by
  refine ⟨floor_half_add_one _, consensus_of_lt _ hm53,
    ⟨_, expected_of_exact k _ hm hm53 hk, rfl, ?_, ?_⟩, ?_, ?_⟩
  · have hq : (0 : ℚ) ≤ ((k * (env.MemberCount / 2 + 1) : Nat) : ℚ) / (env.MemberCount : ℚ) := by
      positivity
    have := F64.round_sub_le
      (((k * (env.MemberCount / 2 + 1) : Nat) : ℚ) / (env.MemberCount : ℚ))
    rwa [abs_of_nonneg hq] at this
  · rintro ⟨q, hq⟩
    have hm0 : (env.MemberCount : ℚ) ≠ 0 := by
      have : 0 < env.MemberCount := hm
      exact_mod_cast this.ne'
    have hq53 : q ≤ 2 ^ 53 := by
      refine le_trans ?_ hk
      rw [hq]
      exact Nat.le_mul_of_pos_left _ hm
    have hquot : ((k * (env.MemberCount / 2 + 1) : Nat) : ℚ) / (env.MemberCount : ℚ) =
        (q : ℚ) := by
      rw [hq, Nat.cast_mul, mul_div_cancel_left₀ _ hm0]
    rw [hquot, F64.round_natCast q hq53]
  · intro hin r hr
    exact prices_expectedSubmissions env opts blockNumber latest members r hin hr
  · intro hin r hr
    rw [balances_swap] at hr
    exact prices_expectedSubmissions env.swap opts blockNumber latest members r
      ((balancesInputs_swap env opts blockNumber latest members).mp hin) hr

theorem sample_expected : expected 3 2 = .finite 3 := by
  rw [expected_of_exact 3 2 (by norm_num) (by norm_num) (by norm_num)]
  have h : (((3 * (2 / 2 + 1) : Nat) : ℚ) / ((2 : Nat) : ℚ)) = ((3 : Nat) : ℚ) := by norm_num
  rw [h, F64.round_natCast 3 (by norm_num)]
  norm_num

/-- Witness of C14: two members and three elapsed intervals; the consensus threshold is 2
and both calculators return the expected count 3. -/
theorem expectedSubmissions_formula_witness :
    ((1 ≤ (sampleEnv 5250 [7, 8] sampleBlocks).MemberCount ∧
        (sampleEnv 5250 [7, 8] sampleBlocks).MemberCount < 2 ^ 53 ∧
        3 * ((sampleEnv 5250 [7, 8] sampleBlocks).MemberCount / 2 + 1) ≤ 2 ^ 53) ∧
      PricesInputs (sampleEnv 5250 [7, 8] sampleBlocks) none 5250 4950 [7, 8] ∧
      BalancesInputs (sampleEnv 5250 [7, 8] sampleBlocks) none 5250 4950 [7, 8]) ∧
    consensus (sampleEnv 5250 [7, 8] sampleBlocks).MemberCount =
      .finite (((sampleEnv 5250 [7, 8] sampleBlocks).MemberCount / 2 + 1 : Nat) : ℚ) ∧
    (∃ r, CalculateTrustedNodePricesParticipation (sampleEnv 5250 [7, 8] sampleBlocks) none =
        .ok r ∧ r.UpdateCount = 3 ∧ r.ExpectedSubmissions = .finite 3) ∧
    (∃ r, CalculateTrustedNodeBalancesParticipation (sampleEnv 5250 [7, 8] sampleBlocks) none =
        .ok r ∧ r.UpdateCount = 3 ∧ r.ExpectedSubmissions = .finite 3) :=
  ⟨⟨⟨by decide, by decide, by decide⟩, ⟨rfl, rfl, by decide, by decide, rfl⟩,
      ⟨rfl, rfl, by decide, by decide, rfl⟩⟩,
    (expectedSubmissions_formula (sampleEnv 5250 [7, 8] sampleBlocks) none 5250 4950 [7, 8] 3
      (by decide) (by decide) (by decide)).2.1,
    ⟨_, rfl, by decide,
      (((expectedSubmissions_formula (sampleEnv 5250 [7, 8] sampleBlocks) none 5250 4950
        [7, 8] 3 (by decide) (by decide) (by decide)).2.2.2.1
        ⟨rfl, rfl, by decide, by decide, rfl⟩ _ rfl).2).trans sample_expected⟩,
    ⟨_, rfl, by decide,
      (((expectedSubmissions_formula (sampleEnv 5250 [7, 8] sampleBlocks) none 5250 4950
        [7, 8] 3 (by decide) (by decide) (by decide)).2.2.2.2
        ⟨rfl, rfl, by decide, by decide, rfl⟩ _ rfl).2).trans sample_expected⟩⟩

/-- C14 as stated fails. For the member count `2 ^ 53 + 3 = 9007199254740995` the
conversion `float64(memberCount)` rounds to `2 ^ 53 + 4`, and the consensus threshold
computed is `4503599627370499`, not `memberCount/2 + 1 = 4503599627370498`. For one
interval and three members the expected count computed is
`6004799503160661 / 2 ^ 53`, the `float64` nearest to `2/3`, not `2/3`. -/
theorem consensus_float_rounding :
    (1 ≤ 9007199254740995 ∧
      consensus 9007199254740995 = .finite 4503599627370499 ∧
      ((9007199254740995 / 2 + 1 : Nat) : ℚ) = 4503599627370498) ∧
    (expected 1 3 = .finite (6004799503160661 / 9007199254740992) ∧
      (6004799503160661 / 9007199254740992 : ℚ) ≠
        ((1 * (3 / 2 + 1) : Nat) : ℚ) / ((3 : Nat) : ℚ)) := by
  refine ⟨⟨by norm_num, ?_, by norm_num⟩, ?_, by norm_num⟩
  · have h1 : F64.round ((9007199254740995 : Nat) : ℚ) = 9007199254740996 := by
      rw [F64.round_of_binade _ 53 (by norm_num [abs_of_pos]) (by norm_num [abs_of_pos])]
      have hfl : Int.floor ((((9007199254740995 : Nat) : ℚ)) / (2 : ℚ) ^ ((53 : Int) - 52)) =
          4503599627370497 := by
        rw [Int.floor_eq_iff]
        norm_num
      unfold roundHalfEven
      rw [hfl]
      norm_num
    have h2 : F64.round ((9007199254740996 : ℚ) / 2) = 4503599627370498 := by
      have := F64.round_natCast 4503599627370498 (by norm_num)
      norm_num at this ⊢
      exact this
    have h3 : F64.round ((4503599627370498 : ℚ) + 1) = 4503599627370499 := by
      have := F64.round_natCast 4503599627370499 (by norm_num)
      norm_num at this ⊢
      exact this
    rw [consensus_unfold, h1, h2, h3]
    norm_num
  · rw [expected_of_exact 1 3 (by norm_num) (by norm_num) (by norm_num)]
    congr 1
    rw [F64.round_of_binade _ (-1) (by norm_num [abs_of_pos]) (by norm_num [abs_of_pos])]
    have hfl : Int.floor ((((1 * (3 / 2 + 1) : Nat) : ℚ) / ((3 : Nat) : ℚ)) /
        (2 : ℚ) ^ ((-1 : Int) - 52)) = 6004799503160661 := by
      rw [Int.floor_eq_iff]
      norm_num
    unfold roundHalfEven
    rw [hfl]
    norm_num

theorem pricesMemberLoop_zero (env env' : CalcEnv) (frequency start : Nat) (expect : F64) :
    ∀ (members : List Address) (st : LoopState),
      pricesMemberLoop env frequency start 0 expect members st =
          pricesMemberLoop env' frequency start 0 expect members st ∧
        ∃ st', pricesMemberLoop env frequency start 0 expect members st = .ok st' := by
  intro members
  induction members with
  | nil => intro st; exact ⟨rfl, st, rfl⟩
  | cons member members ih =>
    intro st
    rw [pricesMemberLoop, pricesMemberLoop]
    simp only [gt_iff_lt, lt_self_iff_false, if_false]
    exact ih _

theorem prices_zero_intervals (env : CalcEnv) (opts : Option Nat) (blockNumber latest : Nat)
    (members : List Address) (hm : 1 ≤ env.MemberCount)
    (hin : PricesInputs env opts blockNumber latest members)
    (hB : blockNumber ≤ startBlock latest env.SubmitPricesFrequency) :
    ∃ r, CalculateTrustedNodePricesParticipation env opts = .ok r ∧
      (∀ submissions,
        CalculateTrustedNodePricesParticipation (env.withSubmissions submissions) opts = .ok r) ∧
      r.Probability = .finite 1 ∧ r.ExpectedSubmissions = .finite 0 ∧ r.UpdateCount = 0 ∧
      ∀ a ∈ members, r.ActualSubmissions a = some (.finite 0) ∧ r.Participation a = some [] := by
  have hn : intervalsPassed blockNumber (startBlock latest env.SubmitPricesFrequency)
      env.SubmitPricesFrequency = 0 := by
    unfold intervalsPassed
    rw [if_neg (by omega)]
  have he : expected 0 env.MemberCount = .finite 0 := by
    obtain ⟨e, he, _, _, h0⟩ := expected_finite 0 env.MemberCount hm
    rw [he, h0 rfl]
  obtain ⟨st, hst⟩ := (pricesMemberLoop_zero env env env.SubmitPricesFrequency
    (startBlock latest env.SubmitPricesFrequency) (.finite 0) members
    ⟨AddressMap.empty, AddressMap.empty, .finite 0⟩).2
  have hcalc : ∀ env' : CalcEnv, PricesInputs env' opts blockNumber latest members →
      env'.SubmitPricesFrequency = env.SubmitPricesFrequency →
      env'.MemberCount = env.MemberCount → env'.GammaIncReg = env.GammaIncReg →
      CalculateTrustedNodePricesParticipation env' opts =
        .ok (participationOf env.GammaIncReg env.SubmitPricesFrequency blockNumber latest
          env.MemberCount members st) := by
    intro env' hin' hf hm hg
    rw [prices_of_inputs env' opts blockNumber latest members hin', hf, hm, hg, hn, he,
      (pricesMemberLoop_zero env' env env.SubmitPricesFrequency
        (startBlock latest env.SubmitPricesFrequency) (.finite 0) members _).1, hst]
  obtain ⟨_, hin2, _⟩ := pricesMemberLoop_spec env env.SubmitPricesFrequency
    (startBlock latest env.SubmitPricesFrequency) 0 (.finite 0) members _ st hst
  refine ⟨_, hcalc env hin rfl rfl rfl, ?_, ?_, ?_, ?_, ?_⟩
  · intro submissions
    refine hcalc (env.withSubmissions submissions) ?_ rfl rfl rfl
    obtain ⟨h1, h2, h3, h4, h5⟩ := hin
    refine ⟨?_, h2, h3, h4, h5⟩
    cases opts <;> exact h1
  · simp [participationOf, hn]
  · simp [participationOf, hn, he]
  · simp [participationOf, hn]
  · intro a ha
    obtain ⟨row, hrow, hentry⟩ := hin2 a ha
    unfold MemberEntry at hentry
    rw [if_neg (lt_irrefl 0)] at hentry
    refine ⟨by rw [← F64.ofNat_zero]; exact hentry.2, ?_⟩
    show st.participationTable a = some []
    rw [hrow, hentry.1]
    rfl

/-- C15. Whenever zero intervals have elapsed (`blockNumber ≤ startBlock`), the member
count is at least 1 and the calls before the member loop succeed, each calculator returns
a result with `Probability = 1`, `ExpectedSubmissions = 0` and `UpdateCount = 0`, in which
every member has an actual submission count of `0` and an empty participation vector. The
result is the same whatever the per-member submission query would return (also if it
would fail): no member's submissions are consulted. -/
theorem zero_intervals_result (env : CalcEnv) (opts : Option Nat) (blockNumber latest : Nat)
    (members : List Address) (hm : 1 ≤ env.MemberCount) :
    (PricesInputs env opts blockNumber latest members →
      blockNumber ≤ startBlock latest env.SubmitPricesFrequency →
      ∃ r, CalculateTrustedNodePricesParticipation env opts = .ok r ∧
        (∀ submissions,
          CalculateTrustedNodePricesParticipation (env.withSubmissions submissions) opts =
            .ok r) ∧
        r.Probability = .finite 1 ∧ r.ExpectedSubmissions = .finite 0 ∧ r.UpdateCount = 0 ∧
        ∀ a ∈ members, r.ActualSubmissions a = some (.finite 0) ∧ r.Participation a = some []) ∧
    (BalancesInputs env opts blockNumber latest members →
      blockNumber ≤ startBlock latest env.SubmitBalancesFrequency →
      ∃ r, CalculateTrustedNodeBalancesParticipation env opts = .ok r ∧
        (∀ submissions,
          CalculateTrustedNodeBalancesParticipation (env.withSubmissions submissions) opts =
            .ok r) ∧
        r.Probability = .finite 1 ∧ r.ExpectedSubmissions = .finite 0 ∧ r.UpdateCount = 0 ∧
        ∀ a ∈ members, r.ActualSubmissions a = some (.finite 0) ∧ r.Participation a = some []) := by
  constructor
  · intro hin hB
    exact prices_zero_intervals env opts blockNumber latest members hm hin hB
  · intro hin hB
    obtain ⟨r, h1, h2, h3⟩ := prices_zero_intervals env.swap opts blockNumber latest members
      hm ((balancesInputs_swap env opts blockNumber latest members).mp hin) hB
    refine ⟨r, ?_, ?_, h3⟩
    · rw [balances_swap]; exact h1
    · intro submissions
      rw [balances_swap]
      exact h2 submissions

/-- Witness of C15: four members (consensus 3) at block 5000, which is the start block, so
that no interval has elapsed; the submission query would fail. -/
theorem zero_intervals_result_witness :
    (∃ r, CalculateTrustedNodePricesParticipation
          (sampleEnv 5000 [7, 8, 9, 10] (fun _ => .error (.base "not queried"))) none = .ok r ∧
        (∀ submissions,
          CalculateTrustedNodePricesParticipation
            ((sampleEnv 5000 [7, 8, 9, 10] (fun _ => .error (.base "not queried"))).withSubmissions
              submissions) none = .ok r) ∧
        r.Probability = .finite 1 ∧ r.ExpectedSubmissions = .finite 0 ∧ r.UpdateCount = 0 ∧
        ∀ a ∈ [7, 8, 9, 10], r.ActualSubmissions a = some (.finite 0) ∧ r.Participation a = some []) ∧
    (∃ r, CalculateTrustedNodeBalancesParticipation
          (sampleEnv 5000 [7, 8, 9, 10] (fun _ => .error (.base "not queried"))) none = .ok r ∧
        (∀ submissions,
          CalculateTrustedNodeBalancesParticipation
            ((sampleEnv 5000 [7, 8, 9, 10] (fun _ => .error (.base "not queried"))).withSubmissions
              submissions) none = .ok r) ∧
        r.Probability = .finite 1 ∧ r.ExpectedSubmissions = .finite 0 ∧ r.UpdateCount = 0 ∧
        ∀ a ∈ [7, 8, 9, 10], r.ActualSubmissions a = some (.finite 0) ∧ r.Participation a = some []) :=
  ⟨(zero_intervals_result (sampleEnv 5000 [7, 8, 9, 10] (fun _ => .error (.base "not queried")))
      none 5000 4950 [7, 8, 9, 10] (by decide)).1
      ⟨rfl, rfl, by decide, by decide, rfl⟩ (by decide),
    (zero_intervals_result (sampleEnv 5000 [7, 8, 9, 10] (fun _ => .error (.base "not queried")))
      none 5000 4950 [7, 8, 9, 10] (by decide)).2
      ⟨rfl, rfl, by decide, by decide, rfl⟩ (by decide)⟩

/-! ## Actual submissions, participation flags and the chi-square statistic -/

theorem prices_actualSubmissions (env : CalcEnv) (opts : Option Nat)
    (r : TrustedNodeParticipation) (members : List Address) (a : Address)
    (hr : CalculateTrustedNodePricesParticipation env opts = .ok r)
    (hmembers : env.GetMemberAddresses env.MemberCount = .ok members) (ha : a ∈ members) :
    (0 < r.UpdateCount → ∃ blocks, env.GetPricesSubmissions a r.StartBlock = .ok blocks ∧
        r.ActualSubmissions a = some (F64.ofNat blocks.length)) ∧
      (r.UpdateCount = 0 → r.ActualSubmissions a = some (.finite 0)) := by
  obtain ⟨blockNumber, latest, members', st, hin, hloop, rfl⟩ := prices_ok_inv env opts r hr
  have hsame : members' = members := by
    have := hin.2.2.2.2
    rw [hmembers] at this
    exact (Except.ok.inj this).symm
  subst hsame
  obtain ⟨_, hin2, _⟩ := pricesMemberLoop_spec _ _ _ _ _ _ _ st hloop
  obtain ⟨row, _, hentry⟩ := hin2 a ha
  simp only [participationOf]
  unfold MemberEntry at hentry
  constructor
  · intro hn
    rw [if_pos hn] at hentry
    obtain ⟨blocks, hsub, _, hact⟩ := hentry
    exact ⟨blocks, hsub, hact⟩
  · intro hn
    rw [if_neg (by omega)] at hentry
    rw [← F64.ofNat_zero]
    exact hentry.2

/-- C16. Evaluation of the code for a member with submissions at blocks 5100 and 5150
under frequency 100 (start block 5000, current block 5250): only block 5100 is on an
interval boundary and only it sets a participation flag, yet both calculators report an
actual submission count of 2. -/
theorem actualSubmissions_counts_misaligned :
    ([5100, 5150].filter (fun block => block % 100 = 0)).length = 1 ∧
      (∃ r, CalculateTrustedNodePricesParticipation (sampleEnv 5250 [7, 8] sampleBlocks) none =
          .ok r ∧
        r.ActualSubmissions 7 = some (.finite 2) ∧
        r.Participation 7 = some [false, true, false]) ∧
      (∃ r, CalculateTrustedNodeBalancesParticipation (sampleEnv 5250 [7, 8] sampleBlocks) none =
          .ok r ∧
        r.ActualSubmissions 7 = some (.finite 2) ∧
        r.Participation 7 = some [false, true, false]) := by
  have h2 : F64.ofNat 2 = .finite 2 := by
    simpa using F64.ofNat_of_le 2 (by norm_num)
  refine ⟨by decide, ⟨_, rfl, ?_, by decide⟩, ⟨_, rfl, ?_, by decide⟩⟩
  · simp [sampleBlocks, AddressMap.set, h2]
  · simp [sampleBlocks, AddressMap.set, h2]

theorem prices_participation_flags (env : CalcEnv) (opts : Option Nat)
    (r : TrustedNodeParticipation) (members : List Address) (a : Address)
    (hr : CalculateTrustedNodePricesParticipation env opts = .ok r)
    (hmembers : env.GetMemberAddresses env.MemberCount = .ok members) (ha : a ∈ members) :
    ∃ row, r.Participation a = some row ∧ row.length = r.UpdateCount ∧
      (0 < r.UpdateCount → ∃ blocks,
        env.GetPricesSubmissions a r.StartBlock = .ok blocks ∧
        (∀ k, k < r.UpdateCount → (row[k]? = some true ↔ ∃ b ∈ blocks,
          b % r.UpdateFrequency = 0 ∧
          U64.sub (b / r.UpdateFrequency) (r.StartBlock / r.UpdateFrequency) = k)) ∧
        ((∀ b ∈ blocks, b % r.UpdateFrequency ≠ 0) → ∀ j : Nat, row[j]? ≠ some true)) := by
  obtain ⟨blockNumber, latest, members', st, hin, hloop, rfl⟩ := prices_ok_inv env opts r hr
  have hsame : members' = members := by
    have := hin.2.2.2.2
    rw [hmembers] at this
    exact (Except.ok.inj this).symm
  subst hsame
  obtain ⟨_, hin2, _⟩ := pricesMemberLoop_spec _ _ _ _ _ _ _ st hloop
  obtain ⟨row, hrow, hentry⟩ := hin2 a ha
  refine ⟨row, hrow, ?_, ?_⟩
  · unfold MemberEntry at hentry
    split_ifs at hentry with hn
    · obtain ⟨blocks, _, hmark, _⟩ := hentry
      have := (markBlocks_spec _ _ blocks _ row hmark).1
      rw [this, List.length_replicate]
      rfl
    · rw [hentry.1, List.length_replicate]
      rfl
  · intro hn
    simp only [participationOf] at hn ⊢
    unfold MemberEntry at hentry
    rw [if_pos hn] at hentry
    obtain ⟨blocks, hsub, hmark, _⟩ := hentry
    obtain ⟨_, hiff⟩ := markBlocks_spec _ _ blocks _ row hmark
    have hfalse : ∀ (n k : Nat), (List.replicate n false)[k]? ≠ some true := by
      intro n k h
      rw [List.getElem?_replicate] at h
      split_ifs at h
      cases h
    refine ⟨blocks, hsub, ?_, ?_⟩
    · intro k hk
      rw [hiff k, List.length_replicate]
      constructor
      · rintro (h | ⟨_, h⟩)
        · exact absurd h (hfalse _ _)
        · exact h
      · intro h
        exact Or.inr ⟨hk, h⟩
    · intro hmis j hj
      rcases (hiff j).mp hj with h | ⟨_, b, hb, hb0, _⟩
      · exact hfalse _ _ h
      · exact hmis b hb hb0

theorem prices_fields (env : CalcEnv) (opts : Option Nat) (blockNumber latest : Nat)
    (members : List Address) (r : TrustedNodeParticipation)
    (hin : PricesInputs env opts blockNumber latest members)
    (h : CalculateTrustedNodePricesParticipation env opts = .ok r) :
    r.UpdateFrequency = env.SubmitPricesFrequency ∧
      r.StartBlock = startBlock latest env.SubmitPricesFrequency ∧
      r.UpdateCount = intervalsPassed blockNumber
        (startBlock latest env.SubmitPricesFrequency) env.SubmitPricesFrequency := by
  rw [prices_of_inputs env opts blockNumber latest members hin] at h
  split at h
  · cases h
  · simp only [Except.ok.injEq] at h
    subst h
    exact ⟨rfl, rfl, rfl⟩

/-- C17. For a calculation at block `blockNumber` with frequency `f` and latest
member-count change `latest`, every result of either calculator has
`UpdateFrequency = f`, `StartBlock = (latest/f + 1) * f` and `UpdateCount` the number of
intervals passed, and every member has a participation vector of length `UpdateCount` in
which, for every interval index `k < UpdateCount`, the flag at `k` is true if and only if
the member has a submission block `b` with `b mod f = 0` and `b/f - startBlock/f = k`. A
member whose submission blocks are all off the interval boundaries (such as block 150
under frequency 100) has no flag set in any interval. -/
theorem participation_flag_iff (env : CalcEnv) (opts : Option Nat)
    (blockNumber latest : Nat) (members : List Address)
    (r : TrustedNodeParticipation) (a : Address) (ha : a ∈ members) :
    (PricesInputs env opts blockNumber latest members →
      CalculateTrustedNodePricesParticipation env opts = .ok r →
      (r.UpdateFrequency = env.SubmitPricesFrequency ∧
        r.StartBlock = startBlock latest env.SubmitPricesFrequency ∧
        r.UpdateCount = intervalsPassed blockNumber
          (startBlock latest env.SubmitPricesFrequency) env.SubmitPricesFrequency) ∧
      ∃ row, r.Participation a = some row ∧ row.length = r.UpdateCount ∧
        (0 < r.UpdateCount → ∃ blocks,
          env.GetPricesSubmissions a r.StartBlock = .ok blocks ∧
          (∀ k, k < r.UpdateCount → (row[k]? = some true ↔ ∃ b ∈ blocks,
            b % r.UpdateFrequency = 0 ∧
            U64.sub (b / r.UpdateFrequency) (r.StartBlock / r.UpdateFrequency) = k)) ∧
          ((∀ b ∈ blocks, b % r.UpdateFrequency ≠ 0) → ∀ j : Nat, row[j]? ≠ some true))) ∧
    (BalancesInputs env opts blockNumber latest members →
      CalculateTrustedNodeBalancesParticipation env opts = .ok r →
      (r.UpdateFrequency = env.SubmitBalancesFrequency ∧
        r.StartBlock = startBlock latest env.SubmitBalancesFrequency ∧
        r.UpdateCount = intervalsPassed blockNumber
          (startBlock latest env.SubmitBalancesFrequency) env.SubmitBalancesFrequency) ∧
      ∃ row, r.Participation a = some row ∧ row.length = r.UpdateCount ∧
        (0 < r.UpdateCount → ∃ blocks,
          env.GetBalancesSubmissions a r.StartBlock = .ok blocks ∧
          (∀ k, k < r.UpdateCount → (row[k]? = some true ↔ ∃ b ∈ blocks,
            b % r.UpdateFrequency = 0 ∧
            U64.sub (b / r.UpdateFrequency) (r.StartBlock / r.UpdateFrequency) = k)) ∧
          ((∀ b ∈ blocks, b % r.UpdateFrequency ≠ 0) → ∀ j : Nat, row[j]? ≠ some true))) := by
  constructor
  · intro hin hr
    exact ⟨prices_fields env opts blockNumber latest members r hin hr,
      prices_participation_flags env opts r members a hr hin.2.2.2.2 ha⟩
  · intro hin hr
    rw [balances_swap] at hr
    have hin' := (balancesInputs_swap env opts blockNumber latest members).mp hin
    exact ⟨prices_fields env.swap opts blockNumber latest members r hin' hr,
      prices_participation_flags env.swap opts r members a hr hin'.2.2.2.2 ha⟩

/-- Witness of C17: frequency 100, start block 5000, current block 5250, member 7 with the
single submission block 5150 and member 8 with the blocks 5000 and 5200, for both
calculators. -/
theorem participation_flag_iff_witness :
    (PricesInputs (sampleEnv 5250 [7, 8] misalignedBlocks) none 5250 4950 [7, 8] ∧
      BalancesInputs (sampleEnv 5250 [7, 8] misalignedBlocks) none 5250 4950 [7, 8]) ∧
    (∃ r, CalculateTrustedNodePricesParticipation (sampleEnv 5250 [7, 8] misalignedBlocks)
          none = .ok r ∧
        (r.UpdateFrequency = 100 ∧ r.StartBlock = 5000 ∧ r.UpdateCount = 3) ∧
        r.Participation 7 = some [false, false, false] ∧
        r.Participation 8 = some [true, false, true] ∧
        ∃ row, r.Participation 7 = some row ∧ row.length = r.UpdateCount ∧
          (0 < r.UpdateCount → ∃ blocks,
            (sampleEnv 5250 [7, 8] misalignedBlocks).GetPricesSubmissions 7 r.StartBlock =
              .ok blocks ∧
            (∀ k, k < r.UpdateCount → (row[k]? = some true ↔ ∃ b ∈ blocks,
              b % r.UpdateFrequency = 0 ∧
              U64.sub (b / r.UpdateFrequency) (r.StartBlock / r.UpdateFrequency) = k)) ∧
            ((∀ b ∈ blocks, b % r.UpdateFrequency ≠ 0) → ∀ j : Nat, row[j]? ≠ some true))) ∧
    (∃ r, CalculateTrustedNodeBalancesParticipation (sampleEnv 5250 [7, 8] misalignedBlocks)
          none = .ok r ∧
        (r.UpdateFrequency = 100 ∧ r.StartBlock = 5000 ∧ r.UpdateCount = 3) ∧
        r.Participation 7 = some [false, false, false] ∧
        r.Participation 8 = some [true, false, true] ∧
        ∃ row, r.Participation 7 = some row ∧ row.length = r.UpdateCount ∧
          (0 < r.UpdateCount → ∃ blocks,
            (sampleEnv 5250 [7, 8] misalignedBlocks).GetBalancesSubmissions 7 r.StartBlock =
              .ok blocks ∧
            (∀ k, k < r.UpdateCount → (row[k]? = some true ↔ ∃ b ∈ blocks,
              b % r.UpdateFrequency = 0 ∧
              U64.sub (b / r.UpdateFrequency) (r.StartBlock / r.UpdateFrequency) = k)) ∧
            ((∀ b ∈ blocks, b % r.UpdateFrequency ≠ 0) → ∀ j : Nat, row[j]? ≠ some true))) :=
  ⟨⟨⟨rfl, rfl, by decide, by decide, rfl⟩, ⟨rfl, rfl, by decide, by decide, rfl⟩⟩,
    ⟨_, rfl, by decide, by decide, by decide,
      ((participation_flag_iff (sampleEnv 5250 [7, 8] misalignedBlocks) none 5250 4950
        [7, 8] _ 7 (by decide)).1 ⟨rfl, rfl, by decide, by decide, rfl⟩ rfl).2⟩,
    ⟨_, rfl, by decide, by decide, by decide,
      ((participation_flag_iff (sampleEnv 5250 [7, 8] misalignedBlocks) none 5250 4950
        [7, 8] _ 7 (by decide)).2 ⟨rfl, rfl, by decide, by decide, rfl⟩ rfl).2⟩⟩

theorem actualCount_finite (submissions : Except GoError (List Nat)) :
    ∃ x : ℚ, actualCount submissions = .finite x := by
  cases submissions with
  | error e => exact ⟨_, rfl⟩
  | ok blocks => exact ⟨_, rfl⟩

theorem chiTerm_finite (actual expect : ℚ) (he : 0 < expect) :
    ∃ t : ℚ, chiTerm (.finite actual) (.finite expect) = .finite t ∧ 0 ≤ t ∧
      (t = 0 ↔ actual = expect) := by
  have hne : expect ≠ 0 := he.ne'
  refine ⟨F64.round (F64.round (F64.round (actual + -expect) *
    F64.round (actual + -expect)) / expect), ?_, ?_, ?_⟩
  · simp only [chiTerm, F64.sub, F64.neg, F64.add, F64.mul, F64.div, if_neg hne]
  · exact F64.round_nonneg _ (div_nonneg (F64.round_nonneg _ (mul_self_nonneg _)) he.le)
  · rw [F64.round_eq_zero_iff, div_eq_zero_iff, F64.round_eq_zero_iff, mul_self_eq_zero,
      F64.round_eq_zero_iff]
    constructor
    · rintro (h | h)
      · linarith
      · exact absurd h hne
    · intro h
      left
      linarith

theorem chiFold_finite (submissions : Address → Except GoError (List Nat)) (expect : ℚ)
    (he : 0 < expect) :
    ∀ (members : List Address) (c0 : ℚ), 0 ≤ c0 →
      ∃ c : ℚ, members.foldl (fun chi a =>
          F64.add chi (chiTerm (actualCount (submissions a)) (.finite expect)))
          (.finite c0) = .finite c ∧ 0 ≤ c ∧
        (c = 0 ↔ c0 = 0 ∧ ∀ a ∈ members, actualCount (submissions a) = .finite expect) := by
  intro members
  induction members with
  | nil =>
    intro c0 h0
    exact ⟨c0, rfl, h0, by simp⟩
  | cons member members ih =>
    intro c0 h0
    obtain ⟨x, hx⟩ := actualCount_finite (submissions member)
    obtain ⟨t, ht, ht0, htiff⟩ := chiTerm_finite x expect he
    have hsum : 0 ≤ F64.round (c0 + t) := F64.round_nonneg _ (by linarith)
    obtain ⟨c, hc, hc0, hciff⟩ := ih (F64.round (c0 + t)) hsum
    refine ⟨c, ?_, hc0, ?_⟩
    · rw [List.foldl_cons, hx, ht]
      exact hc
    · rw [hciff, F64.round_eq_zero_iff, List.forall_mem_cons, hx]
      constructor
      · rintro ⟨hz, hall⟩
        have ht' : t = 0 := by linarith
        have hc' : c0 = 0 := by linarith
        exact ⟨hc', by rw [htiff.mp ht'], hall⟩
      · rintro ⟨hc', hhead, hall⟩
        have hxe : x = expect := by
          simpa using hhead
        have ht' : t = 0 := htiff.mpr hxe
        exact ⟨by rw [hc', ht', add_zero], hall⟩

theorem chiSquare_finite (submissions : Address → Except GoError (List Nat))
    (members : List Address) (expect : ℚ) (he : 0 < expect) :
    ∃ c : ℚ, chiSquare submissions members (.finite expect) = .finite c ∧ 0 ≤ c ∧
      (c = 0 ↔ ∀ a ∈ members, actualCount (submissions a) = .finite expect) := by
  obtain ⟨c, hc, hc0, hciff⟩ := chiFold_finite submissions expect he members 0 (le_refl 0)
  exact ⟨c, hc, hc0, by rw [hciff]; simp⟩

theorem F64.one_sub_zero : F64.sub (.finite 1) (.finite 0) = .finite 1 := by
  have h := F64.round_natCast 1 (by norm_num)
  simp only [F64.sub, F64.neg, F64.add, neg_zero, add_zero]
  rw [show (1 : ℚ) = ((1 : Nat) : ℚ) by norm_num, h]

theorem F64.zero_div_two : F64.div (.finite 0) (.finite 2) = .finite 0 := by
  simp [F64.div, F64.round_zero]

theorem prices_chiSquare (env : CalcEnv) (opts : Option Nat) (r : TrustedNodeParticipation)
    (members : List Address)
    (hr : CalculateTrustedNodePricesParticipation env opts = .ok r)
    (hmembers : env.GetMemberAddresses env.MemberCount = .ok members)
    (hlen : members.length = env.MemberCount) (hn : 0 < r.UpdateCount) :
    r.Probability = F64.sub (.finite 1)
        (env.GammaIncReg (F64.div (F64.ofInt ((members.length : Int) - 1)) (.finite 2))
          (F64.div (chiSquare (fun a => env.GetPricesSubmissions a r.StartBlock) members
            r.ExpectedSubmissions) (.finite 2))) ∧
      (∃ c : ℚ, chiSquare (fun a => env.GetPricesSubmissions a r.StartBlock) members
        r.ExpectedSubmissions = .finite c ∧ 0 ≤ c) ∧
      (chiSquare (fun a => env.GetPricesSubmissions a r.StartBlock) members
          r.ExpectedSubmissions = .finite 0 ↔
        ∀ a ∈ members,
          actualCount (env.GetPricesSubmissions a r.StartBlock) = r.ExpectedSubmissions) ∧
      ((∀ a ∈ members,
          actualCount (env.GetPricesSubmissions a r.StartBlock) = r.ExpectedSubmissions) →
        (∀ x, env.GammaIncReg x (.finite 0) = .finite 0) →
        chiSquare (fun a => env.GetPricesSubmissions a r.StartBlock) members
          r.ExpectedSubmissions = .finite 0 ∧ r.Probability = .finite 1) := by
  obtain ⟨blockNumber, latest, members', st, hin, hloop, rfl⟩ := prices_ok_inv env opts r hr
  have hsame : members' = members := by
    have := hin.2.2.2.2
    rw [hmembers] at this
    exact (Except.ok.inj this).symm
  subst hsame
  simp only [participationOf] at hn ⊢
  obtain ⟨_, _, hchi⟩ := pricesMemberLoop_spec _ _ _ _ _ _ _ st hloop
  rw [if_pos hn] at hchi
  have hchi' : st.chi = chiSquare (fun a => env.GetPricesSubmissions a
      (startBlock latest env.SubmitPricesFrequency)) members'
      (expected (intervalsPassed blockNumber (startBlock latest env.SubmitPricesFrequency)
        env.SubmitPricesFrequency) env.MemberCount) := hchi
  rw [if_pos hn, hchi']
  generalize hE : expected (intervalsPassed blockNumber
    (startBlock latest env.SubmitPricesFrequency) env.SubmitPricesFrequency)
    env.MemberCount = expect
  have hcases : members' = [] ∨ ∃ e : ℚ, expect = .finite e ∧ 0 < e := by
    cases hm : members' with
    | nil => exact Or.inl rfl
    | cons a rest =>
      right
      have hpos : 0 < env.MemberCount := by
        rw [← hlen, hm]
        exact Nat.succ_pos _
      obtain ⟨e, he, _, hepos, _⟩ := expected_finite (intervalsPassed blockNumber
        (startBlock latest env.SubmitPricesFrequency) env.SubmitPricesFrequency)
        env.MemberCount hpos
      exact ⟨e, by rw [← hE, he], hepos hn⟩
  have hfin : ∃ c : ℚ, chiSquare (fun a => env.GetPricesSubmissions a
        (startBlock latest env.SubmitPricesFrequency)) members' expect = .finite c ∧ 0 ≤ c ∧
      (c = 0 ↔ ∀ a ∈ members', actualCount (env.GetPricesSubmissions a
        (startBlock latest env.SubmitPricesFrequency)) = expect) := by
    rcases hcases with h | ⟨e, he, hepos⟩
    · subst h
      exact ⟨0, rfl, le_refl 0, by simp⟩
    · subst he
      exact chiSquare_finite _ _ e hepos
  obtain ⟨c, hc, hc0, hciff⟩ := hfin
  have hiff : chiSquare (fun a => env.GetPricesSubmissions a
        (startBlock latest env.SubmitPricesFrequency)) members' expect = .finite 0 ↔
      ∀ a ∈ members', actualCount (env.GetPricesSubmissions a
        (startBlock latest env.SubmitPricesFrequency)) = expect := by
    rw [← hciff, hc]
    constructor
    · intro h
      exact F64.finite.inj h
    · intro h
      rw [h]
  refine ⟨rfl, ⟨c, hc, hc0⟩, hiff, ?_⟩
  intro hall hgamma
  have hzero := hiff.mpr hall
  refine ⟨hzero, ?_⟩
  rw [hzero, F64.zero_div_two, hgamma, F64.one_sub_zero]

/-- C18. In every result of the two calculators with at least one elapsed interval, the
returned probability is `1 - GammaIncReg((len(members)-1)/2, chi/2)` with `chi` the sum
over the members of `(actual - expected)^2 / expected`, accumulated in `float64`; this
statistic is a finite non-negative value and is `0` exactly if every member's actual count
equals the expected count. If every member's actual count equals the expected count and
`GammaIncReg` is `0` at `x = 0`, the statistic is `0` and the returned probability is `1`.
The member list has `MemberCount` entries, as `GetMemberAddresses` allocates it. -/
theorem chiSquare_probability (env : CalcEnv) (opts : Option Nat)
    (r : TrustedNodeParticipation) (members : List Address)
    (hmembers : env.GetMemberAddresses env.MemberCount = .ok members)
    (hlen : members.length = env.MemberCount) (hn : 0 < r.UpdateCount) :
    (CalculateTrustedNodePricesParticipation env opts = .ok r →
      r.Probability = F64.sub (.finite 1)
          (env.GammaIncReg (F64.div (F64.ofInt ((members.length : Int) - 1)) (.finite 2))
            (F64.div (chiSquare (fun a => env.GetPricesSubmissions a r.StartBlock) members
              r.ExpectedSubmissions) (.finite 2))) ∧
        (∃ c : ℚ, chiSquare (fun a => env.GetPricesSubmissions a r.StartBlock) members
          r.ExpectedSubmissions = .finite c ∧ 0 ≤ c) ∧
        (chiSquare (fun a => env.GetPricesSubmissions a r.StartBlock) members
            r.ExpectedSubmissions = .finite 0 ↔
          ∀ a ∈ members,
            actualCount (env.GetPricesSubmissions a r.StartBlock) = r.ExpectedSubmissions) ∧
        ((∀ a ∈ members,
            actualCount (env.GetPricesSubmissions a r.StartBlock) = r.ExpectedSubmissions) →
          (∀ x, env.GammaIncReg x (.finite 0) = .finite 0) →
          chiSquare (fun a => env.GetPricesSubmissions a r.StartBlock) members
            r.ExpectedSubmissions = .finite 0 ∧ r.Probability = .finite 1)) ∧
    (CalculateTrustedNodeBalancesParticipation env opts = .ok r →
      r.Probability = F64.sub (.finite 1)
          (env.GammaIncReg (F64.div (F64.ofInt ((members.length : Int) - 1)) (.finite 2))
            (F64.div (chiSquare (fun a => env.GetBalancesSubmissions a r.StartBlock) members
              r.ExpectedSubmissions) (.finite 2))) ∧
        (∃ c : ℚ, chiSquare (fun a => env.GetBalancesSubmissions a r.StartBlock) members
          r.ExpectedSubmissions = .finite c ∧ 0 ≤ c) ∧
        (chiSquare (fun a => env.GetBalancesSubmissions a r.StartBlock) members
            r.ExpectedSubmissions = .finite 0 ↔
          ∀ a ∈ members,
            actualCount (env.GetBalancesSubmissions a r.StartBlock) = r.ExpectedSubmissions) ∧
        ((∀ a ∈ members,
            actualCount (env.GetBalancesSubmissions a r.StartBlock) = r.ExpectedSubmissions) →
          (∀ x, env.GammaIncReg x (.finite 0) = .finite 0) →
          chiSquare (fun a => env.GetBalancesSubmissions a r.StartBlock) members
            r.ExpectedSubmissions = .finite 0 ∧ r.Probability = .finite 1)) := by
  constructor
  · intro hr
    exact prices_chiSquare env opts r members hr hmembers hlen hn
  · intro hr
    rw [balances_swap] at hr
    exact prices_chiSquare env.swap opts r members hr hmembers hlen hn

theorem sampleEnv_gamma_zero (blockNumber : Nat) (members : List Address)
    (blocks : Address → Except GoError (List Nat)) :
    ∀ x, (sampleEnv blockNumber members blocks).GammaIncReg x (.finite 0) = .finite 0 := by
  intro x
  simp [sampleEnv]

theorem sample_actual_eq_expected :
    ∀ a ∈ [7, 8], actualCount ((fun _ => Except.ok [5000, 5100, 5200] :
      Address → Except GoError (List Nat)) a) = expected 3 2 := by
  intro a _
  rw [sample_expected]
  simpa [actualCount] using F64.ofNat_of_le 3 (by norm_num)

/-- Witness of C18: two members, three elapsed intervals, expected count 3, each member
with submissions at blocks 5000, 5100 and 5200. -/
theorem chiSquare_probability_witness :
    (∃ r, CalculateTrustedNodePricesParticipation
          (sampleEnv 5250 [7, 8] (fun _ => .ok [5000, 5100, 5200])) none = .ok r ∧
        chiSquare (fun a => (sampleEnv 5250 [7, 8] (fun _ => .ok [5000, 5100, 5200])).GetPricesSubmissions
          a r.StartBlock) [7, 8] r.ExpectedSubmissions = .finite 0 ∧
        r.Probability = .finite 1) ∧
    (∃ r, CalculateTrustedNodeBalancesParticipation
          (sampleEnv 5250 [7, 8] (fun _ => .ok [5000, 5100, 5200])) none = .ok r ∧
        chiSquare (fun a => (sampleEnv 5250 [7, 8] (fun _ => .ok [5000, 5100, 5200])).GetBalancesSubmissions
          a r.StartBlock) [7, 8] r.ExpectedSubmissions = .finite 0 ∧
        r.Probability = .finite 1) :=
  ⟨⟨_, rfl,
      ((chiSquare_probability (sampleEnv 5250 [7, 8] (fun _ => .ok [5000, 5100, 5200])) none _
        [7, 8] rfl rfl (by decide)).1 rfl).2.2.2 sample_actual_eq_expected
        (sampleEnv_gamma_zero _ _ _)⟩,
    ⟨_, rfl,
      ((chiSquare_probability (sampleEnv 5250 [7, 8] (fun _ => .ok [5000, 5100, 5200])) none _
        [7, 8] rfl rfl (by decide)).2 rfl).2.2.2 sample_actual_eq_expected
        (sampleEnv_gamma_zero _ _ _)⟩⟩

/-! ## The latest-participation tables -/

theorem foldl_set_apply {V : Type} (value : V) :
    ∀ (keys : List Address) (table : AddressMap V) (a : Address),
      (keys.foldl (fun t key => t.set key value) table) a =
        if a ∈ keys then some value else table a := by
  intro keys
  induction keys with
  | nil => intro table a; simp
  | cons key keys ih =>
    intro table a
    rw [List.foldl_cons, ih]
    by_cases h1 : a ∈ keys
    · simp [h1]
    · by_cases h2 : a = key
      · simp [h1, h2, AddressMap.set]
      · simp [h1, h2, AddressMap.set]

theorem latestTable_apply (members submissions : List Address) (a : Address) :
    latestTable members submissions a =
      if a ∈ submissions then some true else if a ∈ members then some false else none := by
  unfold latestTable
  rw [foldl_set_apply, foldl_set_apply]
  rfl

/-- C19. Evaluation of the code for the member list `[7]` when the submitters of the
current interval are `8` and `9`: both functions return a table that holds the keys `8`
and `9`, which are not member addresses, next to the member `7`. -/
theorem latestParticipation_has_non_member_keys :
    (∃ table, GetTrustedNodeLatestBalancesParticipation (sampleEnv 5250 [7] sampleBlocks) none =
        .ok table ∧ table 7 = some false ∧ table 8 = some true ∧ table 9 = some true ∧
        8 ∉ [7] ∧ 9 ∉ [7]) ∧
    (∃ table, GetTrustedNodeLatestPricesParticipation (sampleEnv 5250 [7] sampleBlocks) none =
        .ok table ∧ table 7 = some false ∧ table 8 = some true ∧ table 9 = some true ∧
        8 ∉ [7] ∧ 9 ∉ [7]) := by
  refine ⟨⟨_, rfl, ?_⟩, ⟨_, rfl, ?_⟩⟩ <;> decide

/-! ## Transaction bundles -/

theorem submitLoop_spec {TxInfo Tx : Type}
    (execute : Nat → TxInfo → Option Int → Except GoError Tx) :
    ∀ (txInfos : List TxInfo) (i : Nat) (nonce : Option Int) (txs : List Tx),
      (submitLoop execute i txInfos nonce txs).calls =
          (List.range (submitLoop execute i txInfos nonce txs).calls.length).map
            (fun (j : Nat) => (i + j, nonce.map (fun n => n + (j : Int)))) ∧
        (submitLoop execute i txInfos nonce txs).calls.length ≤ txInfos.length ∧
        ((submitLoop execute i txInfos nonce txs).err = none →
          (submitLoop execute i txInfos nonce txs).calls.length = txInfos.length ∧
          (submitLoop execute i txInfos nonce txs).nonce =
            nonce.map (fun n => n + (txInfos.length : Int)) ∧
          ∃ added, (submitLoop execute i txInfos nonce txs).txs = some (txs ++ added) ∧
            added.length = txInfos.length ∧
            ∀ (j : Nat) (txInfo : TxInfo), txInfos[j]? = some txInfo →
              ∃ tx, execute (i + j) txInfo (nonce.map (fun n => n + (j : Int))) = .ok tx ∧
                added[j]? = some tx) ∧
        (∀ (k : Nat) (txInfo : TxInfo) (e : GoError), txInfos[k]? = some txInfo →
          (∀ (j : Nat) (info : TxInfo), j < k → txInfos[j]? = some info →
            ∃ tx, execute (i + j) info (nonce.map (fun n => n + (j : Int))) = .ok tx) →
          execute (i + k) txInfo (nonce.map (fun n => n + (k : Int))) = .error e →
          (submitLoop execute i txInfos nonce txs).txs = none ∧
          (submitLoop execute i txInfos nonce txs).err =
            some (.wrapped ("error creating transaction " ++ toString (i + k) ++ " in bundle")
              e) ∧
          (submitLoop execute i txInfos nonce txs).calls.length = k + 1) := by
  intro txInfos
  induction txInfos with
  | nil =>
    intro i nonce txs
    refine ⟨rfl, le_refl _, ?_, ?_⟩
    · intro _
      refine ⟨rfl, ?_, [], by simp [submitLoop], rfl, ?_⟩
      · cases nonce <;> simp [submitLoop]
      · intro j txInfo h
        simp at h
    · intro k txInfo e h
      simp at h
  | cons txInfo rest ih =>
    intro i nonce txs
    have hmap : ∀ j : Nat, (nonce.map (fun n => n + 1)).map (fun n => n + (j : Int)) =
        nonce.map (fun n => n + ((j + 1 : Nat) : Int)) := by
      intro j
      cases nonce with
      | none => rfl
      | some n =>
        simp only [Option.map_some', Option.some.injEq, Nat.cast_add, Nat.cast_one]
        ring
    have hzero : nonce.map (fun n => n + ((0 : Nat) : Int)) = nonce := by
      cases nonce <;> simp
    cases hex : execute i txInfo nonce with
    | error e0 =>
      have hrun : submitLoop execute i (txInfo :: rest) nonce txs =
          ⟨[(i, nonce)], none,
            some (.wrapped ("error creating transaction " ++ toString i ++ " in bundle") e0),
            nonce⟩ := by
        rw [submitLoop, hex]
      rw [hrun]
      refine ⟨?_, by simp, ?_, ?_⟩
      · simp [List.range_succ, hzero]
      · intro h
        cases h
      · intro k info e hk hprev hfail
        cases k with
        | zero =>
          simp only [List.getElem?_cons_zero, Option.some.injEq] at hk
          subst hk
          simp only [Nat.add_zero, hzero] at hfail
          rw [hex] at hfail
          cases hfail
          simp
        | succ k =>
          obtain ⟨tx, htx⟩ := hprev 0 txInfo (Nat.succ_pos _) (List.getElem?_cons_zero ..)
          simp only [Nat.add_zero, hzero] at htx
          rw [hex] at htx
          cases htx
    | ok tx =>
      obtain ⟨hcalls, hlen, hok, hfail⟩ :=
        ih (i + 1) (nonce.map (fun n => n + 1)) (txs ++ [tx])
      have hrun : submitLoop execute i (txInfo :: rest) nonce txs =
          ⟨(i, nonce) :: (submitLoop execute (i + 1) rest (nonce.map (fun n => n + 1))
              (txs ++ [tx])).calls,
            (submitLoop execute (i + 1) rest (nonce.map (fun n => n + 1)) (txs ++ [tx])).txs,
            (submitLoop execute (i + 1) rest (nonce.map (fun n => n + 1)) (txs ++ [tx])).err,
            (submitLoop execute (i + 1) rest (nonce.map (fun n => n + 1))
              (txs ++ [tx])).nonce⟩ := by
        rw [submitLoop, hex]
      rw [hrun]
      simp only [List.length_cons]
      refine ⟨?_, by omega, ?_, ?_⟩
      · rw [List.range_succ_eq_map, List.map_cons, List.map_map]
        simp only [Nat.add_zero, hzero, List.cons.injEq, true_and]
        rw [hcalls]
        simp only [List.length_map, List.length_range, List.map_map]
        apply List.map_congr_left
        intro j _
        simp only [Function.comp_apply, hmap, Prod.mk.injEq, and_true]
        omega
      · intro herr
        obtain ⟨h1, h2, added, h3, h4, h5⟩ := hok herr
        refine ⟨by omega, ?_, tx :: added, ?_, by simp [h4], ?_⟩
        · rw [h2]
          cases nonce with
          | none => rfl
          | some n =>
            simp only [Option.map_some', Option.some.injEq, Nat.cast_add, Nat.cast_one]
            ring
        · rw [h3, List.append_assoc]
          rfl
        · intro j info hj
          cases j with
          | zero =>
            simp only [List.getElem?_cons_zero, Option.some.injEq] at hj
            subst hj
            exact ⟨tx, by simpa [hzero] using hex, List.getElem?_cons_zero ..⟩
          | succ j =>
            simp only [List.getElem?_cons_succ] at hj
            obtain ⟨tx', h6, h7⟩ := h5 j info hj
            refine ⟨tx', ?_, by simpa using h7⟩
            rw [hmap] at h6
            have : i + 1 + j = i + (j + 1) := by omega
            rw [this] at h6
            exact h6
      · intro k info e hk hprev hfail'
        cases k with
        | zero =>
          simp only [List.getElem?_cons_zero, Option.some.injEq] at hk
          subst hk
          simp only [Nat.add_zero, hzero] at hfail'
          rw [hex] at hfail'
          cases hfail'
        | succ k =>
          simp only [List.getElem?_cons_succ] at hk
          have hprev' : ∀ (j : Nat) (info' : TxInfo), j < k → rest[j]? = some info' →
              ∃ tx', execute (i + 1 + j) info'
                ((nonce.map (fun n => n + 1)).map (fun n => n + (j : Int))) = .ok tx' := by
            intro j info' hj hget
            obtain ⟨tx', h⟩ := hprev (j + 1) info' (by omega) (by simpa using hget)
            refine ⟨tx', ?_⟩
            rw [hmap]
            have : i + 1 + j = i + (j + 1) := by omega
            rw [this]
            exact h
          have hfail2 : execute (i + 1 + k) info
              ((nonce.map (fun n => n + 1)).map (fun n => n + (k : Int))) = .error e := by
            rw [hmap]
            have : i + 1 + k = i + (k + 1) := by omega
            rw [this]
            exact hfail'
          obtain ⟨h1, h2, h3⟩ := hfail k info e hk hprev' hfail2
          refine ⟨h1, ?_, by omega⟩
          rw [h2]
          have : i + 1 + k = i + (k + 1) := by omega
          rw [this]

theorem submitLoop_err_none_of_all_ok {TxInfo Tx : Type}
    (execute : Nat → TxInfo → Option Int → Except GoError Tx) :
    ∀ (txInfos : List TxInfo) (i : Nat) (nonce : Option Int) (txs : List Tx),
      (∀ (j : Nat) (txInfo : TxInfo), txInfos[j]? = some txInfo →
        ∃ tx, execute (i + j) txInfo (nonce.map (fun n => n + (j : Int))) = .ok tx) →
      (submitLoop execute i txInfos nonce txs).err = none := by
  intro txInfos
  induction txInfos with
  | nil => intro i nonce txs _; rfl
  | cons txInfo rest ih =>
    intro i nonce txs hall
    obtain ⟨tx, htx⟩ := hall 0 txInfo (List.getElem?_cons_zero ..)
    have hzero : nonce.map (fun n => n + ((0 : Nat) : Int)) = nonce := by
      cases nonce <;> simp
    rw [Nat.add_zero, hzero] at htx
    rw [submitLoop, htx]
    simp only
    apply ih
    intro j info hj
    obtain ⟨tx', h⟩ := hall (j + 1) info (by simpa using hj)
    refine ⟨tx', ?_⟩
    have h1 : i + 1 + j = i + (j + 1) := by omega
    have h2 : (nonce.map (fun n => n + 1)).map (fun n => n + (j : Int)) =
        nonce.map (fun n => n + ((j + 1 : Nat) : Int)) := by
      cases nonce with
      | none => rfl
      | some n =>
        simp only [Option.map_some', Option.some.injEq, Nat.cast_add, Nat.cast_one]
        ring
    rw [h1, h2]
    exact h

/-- C20. For every bundle, `SubmitTransactions` executes the transactions in the order of
the bundle, the transaction at position `j` with nonce `n0 + j` when `opts.Nonce` is set to
`n0` and with a `nil` nonce when it is `nil`. If every execution succeeds the error is
`nil` and the returned slice holds, at each position, the transaction created for the
input at that position (one per input). If the execution of transaction `k` is the first
to fail, the result is a `nil` slice and a non-`nil` error, and exactly the transactions
`0..k` have been executed: no later one. -/
theorem submitTransactions_spec {TxInfo Tx : Type}
    (execute : Nat → TxInfo → Option Int → Except GoError Tx) (txInfos : List TxInfo)
    (nonce : Option Int) :
    (SubmitTransactions execute txInfos nonce).calls =
        (List.range (SubmitTransactions execute txInfos nonce).calls.length).map
          (fun (j : Nat) => (j, nonce.map (fun n => n + (j : Int)))) ∧
      ((∀ (j : Nat) (txInfo : TxInfo), txInfos[j]? = some txInfo →
          ∃ tx, execute j txInfo (nonce.map (fun n => n + (j : Int))) = .ok tx) →
        (SubmitTransactions execute txInfos nonce).err = none ∧
        (SubmitTransactions execute txInfos nonce).calls.length = txInfos.length ∧
        ∃ txs, (SubmitTransactions execute txInfos nonce).txs = some txs ∧
          txs.length = txInfos.length ∧
          ∀ (j : Nat) (txInfo : TxInfo), txInfos[j]? = some txInfo →
            ∃ tx, execute j txInfo (nonce.map (fun n => n + (j : Int))) = .ok tx ∧
              txs[j]? = some tx) ∧
      (∀ (k : Nat) (txInfo : TxInfo) (e : GoError), txInfos[k]? = some txInfo →
        (∀ (j : Nat) (info : TxInfo), j < k → txInfos[j]? = some info →
          ∃ tx, execute j info (nonce.map (fun n => n + (j : Int))) = .ok tx) →
        execute k txInfo (nonce.map (fun n => n + (k : Int))) = .error e →
        (SubmitTransactions execute txInfos nonce).txs = none ∧
        (SubmitTransactions execute txInfos nonce).err =
          some (.wrapped ("error creating transaction " ++ toString k ++ " in bundle") e) ∧
        (SubmitTransactions execute txInfos nonce).calls.length = k + 1) := by
  obtain ⟨hcalls, _, hok, hfail⟩ := submitLoop_spec execute txInfos 0 nonce []
  simp only [Nat.zero_add, List.nil_append] at hcalls hok hfail
  refine ⟨hcalls, ?_, hfail⟩
  intro hall
  have herr : (SubmitTransactions execute txInfos nonce).err = none := by
    apply submitLoop_err_none_of_all_ok
    intro j txInfo hj
    rw [Nat.zero_add]
    exact hall j txInfo hj
  obtain ⟨h1, _, added, h3, h4, h5⟩ := hok herr
  exact ⟨herr, h1, added, h3, h4, h5⟩

/-- Witness of C20: the bundle `[5, 6, 0, 7]` submitted from nonce 10 fails at its third
transaction, after the executions with nonces 10, 11 and 12; the bundle `[5, 6]` succeeds. -/
theorem submitTransactions_spec_witness :
    ((SubmitTransactions sampleExecute [5, 6, 0, 7] (some 10)).txs = none ∧
      (SubmitTransactions sampleExecute [5, 6, 0, 7] (some 10)).err =
        some (.wrapped ("error creating transaction " ++ toString 2 ++ " in bundle")
          (.base "reverted")) ∧
      (SubmitTransactions sampleExecute [5, 6, 0, 7] (some 10)).calls.length = 2 + 1) ∧
    ((SubmitTransactions sampleExecute [5, 6] (some 10)).err = none ∧
      (SubmitTransactions sampleExecute [5, 6] (some 10)).calls.length = [5, 6].length ∧
      ∃ txs, (SubmitTransactions sampleExecute [5, 6] (some 10)).txs = some txs ∧
        txs.length = [5, 6].length ∧
        ∀ (j : Nat) (txInfo : Nat), [5, 6][j]? = some txInfo →
          ∃ tx, sampleExecute j txInfo ((some 10 : Option Int).map (fun n => n + (j : Int))) =
              .ok tx ∧ txs[j]? = some tx) ∧
    (SubmitTransactions sampleExecute [5, 6, 0, 7] (some 10)).calls =
      [(0, some 10), (1, some 11), (2, some 12)] :=
  ⟨(submitTransactions_spec sampleExecute [5, 6, 0, 7] (some 10)).2.2 2 0 (.base "reverted")
      rfl
      (fun j info hj hget => by
        have hj' : j = 0 ∨ j = 1 := by omega
        rcases hj' with rfl | rfl
        · simp only [List.getElem?_cons_zero, Option.some.injEq] at hget
          subst hget
          exact ⟨_, rfl⟩
        · simp only [List.getElem?_cons_succ, List.getElem?_cons_zero, Option.some.injEq] at hget
          subst hget
          exact ⟨_, rfl⟩)
      rfl,
    (submitTransactions_spec sampleExecute [5, 6] (some 10)).2.1
      (fun j info hget => by
        have hj' : j = 0 ∨ j = 1 ∨ 2 ≤ j := by omega
        rcases hj' with rfl | rfl | h2
        · simp only [List.getElem?_cons_zero, Option.some.injEq] at hget
          subst hget
          exact ⟨_, rfl⟩
        · simp only [List.getElem?_cons_succ, List.getElem?_cons_zero, Option.some.injEq] at hget
          subst hget
          exact ⟨_, rfl⟩
        · have : ([5, 6] : List Nat)[j]? = none := List.getElem?_eq_none (by simpa using h2)
          rw [this] at hget
          cases hget),
    by decide⟩

/-! ## The decode failure in the log scan -/

/-- C30. If the backward scan of `GetLatestMemberCountChangedBlock` reaches a decided
challenge whose data cannot be decoded before any log that changed the member count (every
later log is a decided challenge with `success = false`), the function returns block
number `0` with a `nil` error: the error returned is the variable `err`, which holds the
`nil` result of the log query, and the block is neither `fromBlock` nor that of a log. -/
theorem latestMemberCountChangedBlock_decode_failure (fromBlock : Nat) (pre post : List Log)
    (log : Log) (htopic : log.topic = .ActionChallengeDecided) (hdec : log.success = none)
    (hpost : ∀ x ∈ post, x.Skipped) :
    GetLatestMemberCountChangedBlock (.ok (pre ++ log :: post)) fromBlock = (0, none) ∧
      ∀ (err : Option GoError) (rest : List Log),
        scanLogs fromBlock err (log :: rest) = (0, err) := by
  have hscan : ∀ (err : Option GoError) (rest : List Log),
      scanLogs fromBlock err (log :: rest) = (0, err) := by
    intro err rest
    rw [scanLogs, if_pos htopic, hdec]
  refine ⟨?_, hscan⟩
  show scanLogs fromBlock none (pre ++ log :: post).reverse = (0, none)
  simp only [List.reverse_append, List.reverse_cons, List.append_assoc, List.singleton_append]
  rw [scanLogs_skipped fromBlock none post.reverse _
    (fun x hx => hpost x (List.mem_reverse.mp hx))]
  exact hscan none _

/-- Witness of C30: a kick at block 5, an undecodable decided challenge at block 7 and a
failed challenge at block 9, scanned from block 3. -/
theorem latestMemberCountChangedBlock_decode_failure_witness :
    GetLatestMemberCountChangedBlock
        (.ok ([⟨.ActionKick, none, 5⟩] ++ ⟨.ActionChallengeDecided, none, 7⟩ ::
          [⟨.ActionChallengeDecided, some false, 9⟩])) 3 = (0, none) ∧
      ∀ (err : Option GoError) (rest : List Log),
        scanLogs 3 err (⟨.ActionChallengeDecided, none, 7⟩ :: rest) = (0, err) :=
  latestMemberCountChangedBlock_decode_failure 3 [⟨.ActionKick, none, 5⟩]
    [⟨.ActionChallengeDecided, some false, 9⟩] ⟨.ActionChallengeDecided, none, 7⟩ rfl rfl
    (by simp [Log.Skipped])

/-! ## Start block and number of intervals -/

/-- C23. For every frequency `f > 0` and baseline block `L` for which `(L/f + 1) * f` does
not overflow, the start block computed by the calculators is `(L/f + 1) * f`: a multiple
of `f`, strictly greater than `L`, at most `f` above `L`, and no multiple of `f` strictly
greater than `L` is smaller. -/
theorem startBlock_first_boundary (L f : Nat) (hf : 0 < f)
    (hno : (L / f + 1) * f < 2 ^ 64) :
    startBlock L f = (L / f + 1) * f ∧ f ∣ startBlock L f ∧ L < startBlock L f ∧
      0 < startBlock L f - L ∧ startBlock L f - L ≤ f ∧
      ∀ x, f ∣ x → L < x → startBlock L f ≤ x := by
  have hq : L / f + 1 < 2 ^ 64 := by
    have : L / f + 1 ≤ (L / f + 1) * f := Nat.le_mul_of_pos_right _ hf
    omega
  have heq : startBlock L f = (L / f + 1) * f := by
    unfold startBlock U64.mul U64.add
    rw [Nat.mod_eq_of_lt hq, Nat.mod_eq_of_lt hno]
  have hlt : L < (L / f + 1) * f := by
    have := Nat.lt_mul_div_succ L hf
    rwa [Nat.mul_comm] at this
  have hle : L / f * f ≤ L := Nat.div_mul_le_self L f
  have hexp : (L / f + 1) * f = L / f * f + f := by ring
  rw [heq]
  refine ⟨rfl, Dvd.intro_left _ rfl, hlt, by omega, by omega, ?_⟩
  rintro x ⟨k, rfl⟩ hx
  have hk : L / f < k := Nat.div_lt_of_lt_mul hx
  calc (L / f + 1) * f ≤ k * f := Nat.mul_le_mul_right f hk
    _ = f * k := Nat.mul_comm _ _

/-- Witness of C23: baseline block 4950 under frequency 100 gives start block 5000. -/
theorem startBlock_first_boundary_witness :
    startBlock 4950 100 = (4950 / 100 + 1) * 100 ∧ 100 ∣ startBlock 4950 100 ∧
      4950 < startBlock 4950 100 ∧ 0 < startBlock 4950 100 - 4950 ∧
      startBlock 4950 100 - 4950 ≤ 100 ∧
      ∀ x, 100 ∣ x → 4950 < x → startBlock 4950 100 ≤ x :=
  startBlock_first_boundary 4950 100 (by decide) (by decide)

theorem multiplesIn_eq (f s : Nat) (hs : f ∣ s) :
    ∀ B, multiplesIn f s B = if s ≤ B then (B - s) / f + 1 else 0 := by
  intro B
  induction B with
  | zero =>
    unfold multiplesIn
    by_cases h : s = 0
    · subst h
      simp [List.range_succ]
    · have : ¬ s ≤ 0 := by omega
      simp [this, List.range_succ]
  | succ B ih =>
    have hstep : multiplesIn f s (B + 1) =
        multiplesIn f s B + if s ≤ B + 1 ∧ (B + 1) % f = 0 then 1 else 0 := by
      unfold multiplesIn
      rw [List.range_succ, List.filter_append, List.length_append]
      congr 1
      by_cases hc : s ≤ B + 1 ∧ (B + 1) % f = 0
      · simp [hc]
      · simp [hc]
    rw [hstep, ih]
    by_cases h1 : s ≤ B
    · have h2 : s ≤ B + 1 := by omega
      rw [if_pos h1, if_pos h2]
      have hsub : B + 1 - s = (B - s) + 1 := by omega
      rw [hsub, Nat.succ_div]
      have hdvd : f ∣ B - s + 1 ↔ (B + 1) % f = 0 := by
        constructor
        · intro h
          have hsum : B + 1 = (B - s + 1) + s := by omega
          apply Nat.mod_eq_zero_of_dvd
          rw [hsum]
          exact Nat.dvd_add h hs
        · intro h
          have hd : f ∣ B + 1 := Nat.dvd_of_mod_eq_zero h
          rw [← hsub]
          exact Nat.dvd_sub' hd hs
      by_cases h3 : (B + 1) % f = 0
      · rw [if_pos ⟨h2, h3⟩, if_pos (hdvd.mpr h3)]
      · rw [if_neg (fun h => h3 h.2), if_neg (fun h => h3 (hdvd.mp h))]
    · rw [if_neg h1]
      by_cases h2 : s ≤ B + 1
      · have hsB : s = B + 1 := by omega
        have h3 : (B + 1) % f = 0 := by
          rw [← hsB]
          exact Nat.mod_eq_zero_of_dvd hs
        rw [if_pos h2, if_pos ⟨h2, h3⟩, hsB]
        simp
      · rw [if_neg h2, if_neg (fun h => h2 h.1)]


/-- C25 (amended). For every frequency `f > 0`, start block `s` that is a multiple of `f`
and current block `B` (a `uint64`): if `B > s` and `(B - s)/f + 1` does not overflow, the
number of intervals passed is `(B - s)/f + 1`, which is the number of multiples of `f` in
the closed range `[s, B]`; if `B ≤ s` it is `0`, also when `B = s`, where the range
`[s, B]` holds the one multiple `s`. -/
theorem intervalsPassed_count (f s B : Nat) (_hf : 0 < f) (hs : f ∣ s) (hB : B < 2 ^ 64) :
    (s < B → (B - s) / f + 1 < 2 ^ 64 →
      intervalsPassed B s f = (B - s) / f + 1 ∧
      intervalsPassed B s f = multiplesIn f s B) ∧
    (B ≤ s → intervalsPassed B s f = 0) ∧
    (B = s → multiplesIn f s B = 1) := by
  refine ⟨?_, ?_, ?_⟩
  · intro hlt hno
    have hval : intervalsPassed B s f = (B - s) / f + 1 := by
      unfold intervalsPassed U64.add U64.sub
      rw [if_pos hlt]
      have h1 : (B + (2 ^ 64 - s % 2 ^ 64)) % 2 ^ 64 = B - s := by omega
      rw [h1, Nat.mod_eq_of_lt hno]
    refine ⟨hval, ?_⟩
    rw [hval, multiplesIn_eq f s hs B, if_pos hlt.le]
  · intro hle
    unfold intervalsPassed
    rw [if_neg (by omega)]
  · intro heq
    rw [multiplesIn_eq f s hs B, if_pos heq.ge, heq, Nat.sub_self, Nat.zero_div]

/-- Witness of C25: frequency 100, start block 5000; at block 5250 three intervals have
passed, at block 5000 none. -/
theorem intervalsPassed_count_witness :
    (intervalsPassed 5250 5000 100 = (5250 - 5000) / 100 + 1 ∧
      intervalsPassed 5250 5000 100 = multiplesIn 100 5000 5250) ∧
    intervalsPassed 5000 5000 100 = 0 ∧ multiplesIn 100 5000 5000 = 1 :=
  ⟨(intervalsPassed_count 100 5000 5250 (by decide) (by decide) (by decide)).1
      (by decide) (by decide),
    (intervalsPassed_count 100 5000 5000 (by decide) (by decide) (by decide)).2.1 (by decide),
    (intervalsPassed_count 100 5000 5000 (by decide) (by decide) (by decide)).2.2 rfl⟩

/-- C25 as stated fails: with frequency 1, start block 0 and current block `2 ^ 64 - 1`
the current block is above the start block, `(B - s)/f + 1` wraps around to `0`, and the
range `[s, B]` holds `2 ^ 64` multiples of the frequency. -/
theorem intervalsPassed_overflow :
    (0 < 1 ∧ 1 ∣ 0 ∧ 0 < 18446744073709551615) ∧
      intervalsPassed 18446744073709551615 0 1 = 0 ∧
      multiplesIn 1 0 18446744073709551615 = 18446744073709551616 := by
  refine ⟨by decide, by decide, ?_⟩
  rw [multiplesIn_eq 1 0 (dvd_zero 1)]
  decide

/-! ## Shape of the result -/

theorem prices_result_shape (env : CalcEnv) (opts : Option Nat)
    (r : TrustedNodeParticipation) (members : List Address)
    (hr : CalculateTrustedNodePricesParticipation env opts = .ok r)
    (hmembers : env.GetMemberAddresses env.MemberCount = .ok members) (a : Address) :
    ((r.Participation a).isSome ↔ a ∈ members) ∧
      ((r.ActualSubmissions a).isSome ↔ a ∈ members) ∧
      ∀ row, r.Participation a = some row → row.length = r.UpdateCount := by
  obtain ⟨blockNumber, latest, members', st, hin, hloop, hrr⟩ := prices_ok_inv env opts r hr
  have hsame : members' = members := by
    have := hin.2.2.2.2
    rw [hmembers] at this
    exact (Except.ok.inj this).symm
  subst hsame
  obtain ⟨hout, hin2, _⟩ := pricesMemberLoop_spec _ _ _ _ _ _ _ st hloop
  have hP : r.Participation = st.participationTable := by rw [hrr]; rfl
  have hA : r.ActualSubmissions = st.submissions := by rw [hrr]; rfl
  by_cases ha : a ∈ members'
  · obtain ⟨row, hrow, hentry⟩ := hin2 a ha
    obtain ⟨row', hrow', hlen, _⟩ :=
      prices_participation_flags env opts r members' a hr hmembers ha
    have hsub : (st.submissions a).isSome := by
      unfold MemberEntry at hentry
      split_ifs at hentry
      · obtain ⟨_, _, _, h⟩ := hentry
        rw [h]; rfl
      · rw [hentry.2]; rfl
    refine ⟨?_, ?_, ?_⟩
    · rw [hP, hrow]
      simp [ha]
    · rw [hA]
      simp [ha, hsub]
    · intro row2 hrow2
      rw [hrow'] at hrow2
      cases hrow2
      exact hlen
  · obtain ⟨h1, h2⟩ := hout a ha
    simp only [AddressMap.empty] at h1 h2
    refine ⟨?_, ?_, ?_⟩
    · rw [hP, h1]
      simp [ha]
    · rw [hA, h2]
      simp [ha]
    · intro row hrow
      rw [hP, h1] at hrow
      cases hrow

/-- C24. In every result returned by the two participation calculators, the
`Participation` map and the `ActualSubmissions` map have the same key set, which is the set
of the member addresses returned by `GetMemberAddresses`, and every participation vector
has length `UpdateCount`. -/
theorem result_is_member_matrix (env : CalcEnv) (opts : Option Nat)
    (r : TrustedNodeParticipation) (members : List Address)
    (hmembers : env.GetMemberAddresses env.MemberCount = .ok members)
    (hr : CalculateTrustedNodePricesParticipation env opts = .ok r ∨
      CalculateTrustedNodeBalancesParticipation env opts = .ok r) :
    ∀ a, ((r.Participation a).isSome ↔ a ∈ members) ∧
      ((r.ActualSubmissions a).isSome ↔ a ∈ members) ∧
      ((r.Participation a).isSome ↔ (r.ActualSubmissions a).isSome) ∧
      ∀ row, r.Participation a = some row → row.length = r.UpdateCount := by
  intro a
  have h : ((r.Participation a).isSome ↔ a ∈ members) ∧
      ((r.ActualSubmissions a).isSome ↔ a ∈ members) ∧
      ∀ row, r.Participation a = some row → row.length = r.UpdateCount := by
    rcases hr with hr | hr
    · exact prices_result_shape env opts r members hr hmembers a
    · rw [balances_swap] at hr
      exact prices_result_shape env.swap opts r members hr hmembers a
  exact ⟨h.1, h.2.1, h.1.trans h.2.1.symm, h.2.2⟩

/-- Witness of C24: members 7 and 8, three elapsed intervals. -/
theorem result_is_member_matrix_witness :
    ∃ r, CalculateTrustedNodePricesParticipation (sampleEnv 5250 [7, 8] sampleBlocks) none =
        .ok r ∧
      r.Participation 7 = some [false, true, false] ∧
      r.Participation 8 = some [true, false, true] ∧ r.Participation 9 = none ∧
      ∀ a, ((r.Participation a).isSome ↔ a ∈ [7, 8]) ∧
        ((r.ActualSubmissions a).isSome ↔ a ∈ [7, 8]) ∧
        ((r.Participation a).isSome ↔ (r.ActualSubmissions a).isSome) ∧
        ∀ row, r.Participation a = some row → row.length = r.UpdateCount :=
  ⟨_, rfl, by decide, by decide, by decide,
    result_is_member_matrix (sampleEnv 5250 [7, 8] sampleBlocks) none _ [7, 8] rfl
      (Or.inl rfl)⟩


/-! ## Bounds of the participation write -/

theorem index_in_range (f s B b : Nat) (hf : 0 < f) (hs : f ∣ s) (hB : B < 2 ^ 64)
    (hsb : s ≤ b) (hbB : b ≤ B) (hpos : 0 < intervalsPassed B s f) :
    s / f ≤ b / f ∧ U64.sub (b / f) (s / f) = b / f - s / f ∧
      b / f - s / f < intervalsPassed B s f := by
  have hlt : s < B := by
    unfold intervalsPassed at hpos
    by_contra hcon
    rw [if_neg (by omega)] at hpos
    exact absurd hpos (lt_irrefl 0)
  have hq : s / f ≤ b / f := Nat.div_le_div_right hsb
  have hbq : b / f < 2 ^ 64 := lt_of_le_of_lt (Nat.div_le_self _ _) (by omega)
  have hsub : U64.sub (b / f) (s / f) = b / f - s / f := by
    unfold U64.sub
    generalize b / f = x at hq hbq ⊢
    generalize s / f = y at hq ⊢
    omega
  have hdiff : b / f - s / f ≤ (B - s) / f := by
    obtain ⟨k, rfl⟩ := hs
    rw [Nat.mul_div_cancel_left k hf]
    have h1 : b / f - k = (b - f * k) / f := by
      rw [Nat.sub_mul_div _ _ _ hsb]
    have h2 : (b - f * k) / f ≤ (B - f * k) / f := Nat.div_le_div_right (by omega)
    omega
  have hval : intervalsPassed B s f = ((B - s) / f + 1) % 2 ^ 64 := by
    unfold intervalsPassed U64.add U64.sub
    rw [if_pos hlt]
    have h1 : (B + (2 ^ 64 - s % 2 ^ 64)) % 2 ^ 64 = B - s := by omega
    rw [h1]
  have hle : (B - s) / f ≤ B - s := Nat.div_le_self _ _
  have hno : (B - s) / f + 1 < 2 ^ 64 := by
    by_contra hcon
    have : (B - s) / f + 1 = 2 ^ 64 := by omega
    rw [hval, this, Nat.mod_self] at hpos
    exact absurd hpos (lt_irrefl 0)
  rw [hval, Nat.mod_eq_of_lt hno]
  exact ⟨hq, hsub, by omega⟩

theorem markBlocks_in_range (f s B : Nat) (hf : 0 < f) (hs : f ∣ s) (hB : B < 2 ^ 64)
    (hpos : 0 < intervalsPassed B s f) :
    ∀ (blocks : List Nat) (row : List Bool), row.length = intervalsPassed B s f →
      (∀ b ∈ blocks, s ≤ b ∧ b ≤ B) → ∃ row', markBlocks f s blocks row = .ok row' := by
  intro blocks
  induction blocks with
  | nil => intro row _ _; exact ⟨row, rfl⟩
  | cons b blocks ih =>
    intro row hlen hall
    have hb := hall b (List.mem_cons_self _ _)
    have hrest : ∀ x ∈ blocks, s ≤ x ∧ x ≤ B := fun x hx => hall x (List.mem_cons_of_mem _ hx)
    rw [markBlocks]
    by_cases hstep : b % f = 0
    · rw [if_pos hstep]
      have hidx := (index_in_range f s B b hf hs hB hb.1 hb.2 hpos).2
      rw [if_pos (by rw [hlen, hidx.1]; exact hidx.2)]
      exact ih _ (by rw [List.length_set]; exact hlen) hrest
    · rw [if_neg hstep]
      exact ih row hlen hrest

theorem pricesMemberLoop_no_panic (env : CalcEnv) (f s B : Nat) (expect : F64) (hf : 0 < f)
    (hs : f ∣ s) (hB : B < 2 ^ 64) :
    ∀ (members : List Address) (st : LoopState),
      (∀ a ∈ members, ∀ blocks, env.GetPricesSubmissions a s = .ok blocks →
        ∀ b ∈ blocks, s ≤ b ∧ b ≤ B) →
      ∀ msg, pricesMemberLoop env f s (intervalsPassed B s f) expect members st ≠
        .error (.panic msg) := by
  intro members
  induction members with
  | nil => intro st _ msg h; cases h
  | cons member members ih =>
    intro st hall msg
    have hrest : ∀ a ∈ members, ∀ blocks, env.GetPricesSubmissions a s = .ok blocks →
        ∀ b ∈ blocks, s ≤ b ∧ b ≤ B := fun a ha => hall a (List.mem_cons_of_mem _ ha)
    rw [pricesMemberLoop]
    by_cases hpos : 0 < intervalsPassed B s f
    · rw [if_pos hpos]
      cases hsub : env.GetPricesSubmissions member s with
      | error e =>
        simp only
        intro h
        cases h
      | ok blocks =>
        simp only
        obtain ⟨row, hrow⟩ := markBlocks_in_range f s B hf hs hB hpos blocks
          (List.replicate (intervalsPassed B s f) false) (List.length_replicate _ _)
          (hall member (List.mem_cons_self _ _) blocks hsub)
        rw [hrow]
        exact ih _ hrest msg
    · rw [if_neg hpos]
      exact ih _ hrest msg

theorem markBlocks_no_error (f s : Nat) :
    ∀ (blocks : List Nat) (row : List Bool) (e : GoError),
      markBlocks f s blocks row ≠ .error (.error e) := by
  intro blocks
  induction blocks with
  | nil => intro row e h; cases h
  | cons b blocks ih =>
    intro row e
    rw [markBlocks]
    split_ifs
    · exact ih _ e
    · intro h; cases h
    · exact ih _ e

theorem pricesMemberLoop_no_error (env : CalcEnv) (f s n : Nat) (expect : F64) :
    ∀ (members : List Address) (st : LoopState),
      (∀ a ∈ members, ∃ blocks, env.GetPricesSubmissions a s = .ok blocks) →
      ∀ e, pricesMemberLoop env f s n expect members st ≠ .error (.error e) := by
  intro members
  induction members with
  | nil => intro st _ e h; cases h
  | cons member members ih =>
    intro st hall e
    have hrest : ∀ a ∈ members, ∃ blocks, env.GetPricesSubmissions a s = .ok blocks :=
      fun a ha => hall a (List.mem_cons_of_mem _ ha)
    obtain ⟨blocks, hsub⟩ := hall member (List.mem_cons_self _ _)
    rw [pricesMemberLoop]
    by_cases hpos : n > 0
    · rw [if_pos hpos, hsub]
      simp only
      cases hmark : markBlocks f s blocks (List.replicate n false) with
      | error fault =>
        simp only
        intro h
        simp only [Except.error.injEq] at h
        subst h
        exact markBlocks_no_error f s blocks _ e hmark
      | ok row =>
        simp only
        exact ih _ hrest e
    · rw [if_neg hpos]
      exact ih _ hrest e

theorem prices_no_panic (env : CalcEnv) (opts : Option Nat) (blockNumber latest : Nat)
    (members : List Address) (hin : PricesInputs env opts blockNumber latest members)
    (hB : blockNumber < 2 ^ 64)
    (hs : env.SubmitPricesFrequency ∣ startBlock latest env.SubmitPricesFrequency)
    (hblocks : ∀ a ∈ members, ∀ blocks,
      env.GetPricesSubmissions a (startBlock latest env.SubmitPricesFrequency) = .ok blocks →
      ∀ b ∈ blocks, startBlock latest env.SubmitPricesFrequency ≤ b ∧ b ≤ blockNumber) :
    (∀ msg, CalculateTrustedNodePricesParticipation env opts ≠ .error (.panic msg)) ∧
      ((∀ a ∈ members, ∃ blocks,
          env.GetPricesSubmissions a (startBlock latest env.SubmitPricesFrequency) =
            .ok blocks) →
        ∃ r, CalculateTrustedNodePricesParticipation env opts = .ok r) := by
  have hf : 0 < env.SubmitPricesFrequency := Nat.pos_of_ne_zero hin.2.2.1
  have hloop := pricesMemberLoop_no_panic env env.SubmitPricesFrequency
    (startBlock latest env.SubmitPricesFrequency) blockNumber
    (expected (intervalsPassed blockNumber (startBlock latest env.SubmitPricesFrequency)
      env.SubmitPricesFrequency) env.MemberCount) hf hs hB members
    ⟨AddressMap.empty, AddressMap.empty, .finite 0⟩ hblocks
  rw [prices_of_inputs env opts blockNumber latest members hin]
  constructor
  · intro msg h
    split at h
    · next fault hfault =>
      simp only [Except.error.injEq] at h
      subst h
      exact hloop msg hfault
    · cases h
  · intro hall
    split
    · next fault hfault =>
      exfalso
      cases fault with
      | panic msg => exact hloop msg hfault
      | error e =>
        obtain ⟨_, _, _⟩ := hin
        exact pricesMemberLoop_no_error env _ _ _ _ members _ hall e hfault
    · next st _ => exact ⟨_, rfl⟩

/-- C26. Under the precondition that every submission block `b` returned for a member
satisfies `startBlock ≤ b ≤ blockNumber` (with `startBlock` a multiple of the frequency),
the write into the participation vector never goes out of bounds: neither calculator ends
in a panic, and each returns a result when the submission queries succeed. Whenever the
write takes place (`intervalsPassed > 0`), the subtraction `b/f - startBlock/f` does not
underflow and the index is less than `intervalsPassed`. -/
theorem participation_write_in_bounds (env : CalcEnv) (opts : Option Nat)
    (blockNumber latest : Nat) (members : List Address) (hB : blockNumber < 2 ^ 64) :
    (PricesInputs env opts blockNumber latest members →
      env.SubmitPricesFrequency ∣ startBlock latest env.SubmitPricesFrequency →
      (∀ a ∈ members, ∀ blocks,
        env.GetPricesSubmissions a (startBlock latest env.SubmitPricesFrequency) = .ok blocks →
        ∀ b ∈ blocks, startBlock latest env.SubmitPricesFrequency ≤ b ∧ b ≤ blockNumber) →
      (∀ msg, CalculateTrustedNodePricesParticipation env opts ≠ .error (.panic msg)) ∧
      ((∀ a ∈ members, ∃ blocks,
          env.GetPricesSubmissions a (startBlock latest env.SubmitPricesFrequency) =
            .ok blocks) →
        ∃ r, CalculateTrustedNodePricesParticipation env opts = .ok r) ∧
      ∀ b, startBlock latest env.SubmitPricesFrequency ≤ b → b ≤ blockNumber →
        0 < intervalsPassed blockNumber (startBlock latest env.SubmitPricesFrequency)
          env.SubmitPricesFrequency →
        startBlock latest env.SubmitPricesFrequency / env.SubmitPricesFrequency ≤
            b / env.SubmitPricesFrequency ∧
          U64.sub (b / env.SubmitPricesFrequency)
              (startBlock latest env.SubmitPricesFrequency / env.SubmitPricesFrequency) =
            b / env.SubmitPricesFrequency -
              startBlock latest env.SubmitPricesFrequency / env.SubmitPricesFrequency ∧
          b / env.SubmitPricesFrequency -
              startBlock latest env.SubmitPricesFrequency / env.SubmitPricesFrequency <
            intervalsPassed blockNumber (startBlock latest env.SubmitPricesFrequency)
              env.SubmitPricesFrequency) ∧
    (BalancesInputs env opts blockNumber latest members →
      env.SubmitBalancesFrequency ∣ startBlock latest env.SubmitBalancesFrequency →
      (∀ a ∈ members, ∀ blocks,
        env.GetBalancesSubmissions a (startBlock latest env.SubmitBalancesFrequency) =
          .ok blocks →
        ∀ b ∈ blocks, startBlock latest env.SubmitBalancesFrequency ≤ b ∧ b ≤ blockNumber) →
      (∀ msg, CalculateTrustedNodeBalancesParticipation env opts ≠ .error (.panic msg)) ∧
      ((∀ a ∈ members, ∃ blocks,
          env.GetBalancesSubmissions a (startBlock latest env.SubmitBalancesFrequency) =
            .ok blocks) →
        ∃ r, CalculateTrustedNodeBalancesParticipation env opts = .ok r) ∧
      ∀ b, startBlock latest env.SubmitBalancesFrequency ≤ b → b ≤ blockNumber →
        0 < intervalsPassed blockNumber (startBlock latest env.SubmitBalancesFrequency)
          env.SubmitBalancesFrequency →
        startBlock latest env.SubmitBalancesFrequency / env.SubmitBalancesFrequency ≤
            b / env.SubmitBalancesFrequency ∧
          U64.sub (b / env.SubmitBalancesFrequency)
              (startBlock latest env.SubmitBalancesFrequency / env.SubmitBalancesFrequency) =
            b / env.SubmitBalancesFrequency -
              startBlock latest env.SubmitBalancesFrequency / env.SubmitBalancesFrequency ∧
          b / env.SubmitBalancesFrequency -
              startBlock latest env.SubmitBalancesFrequency / env.SubmitBalancesFrequency <
            intervalsPassed blockNumber (startBlock latest env.SubmitBalancesFrequency)
              env.SubmitBalancesFrequency) := by
  constructor
  · intro hin hs hblocks
    obtain ⟨h1, h2⟩ := prices_no_panic env opts blockNumber latest members hin hB hs hblocks
    refine ⟨h1, h2, ?_⟩
    intro b hsb hbB hpos
    exact index_in_range _ _ _ b (Nat.pos_of_ne_zero hin.2.2.1) hs hB hsb hbB hpos
  · intro hin hs hblocks
    have hin' := (balancesInputs_swap env opts blockNumber latest members).mp hin
    obtain ⟨h1, h2⟩ := prices_no_panic env.swap opts blockNumber latest members hin' hB hs
      hblocks
    rw [balances_swap]
    refine ⟨h1, h2, ?_⟩
    intro b hsb hbB hpos
    exact index_in_range _ _ _ b (Nat.pos_of_ne_zero hin.2.2.1) hs hB hsb hbB hpos

theorem sampleBlocks_in_range :
    ∀ a ∈ [7, 8], ∀ blocks, sampleBlocks a = .ok blocks →
      ∀ b ∈ blocks, startBlock 4950 100 ≤ b ∧ b ≤ 5250 := by
  intro a _ blocks h b hb
  have hs : startBlock 4950 100 = 5000 := by decide
  rw [hs]
  unfold sampleBlocks at h
  split_ifs at h
  · cases h
    simp only [List.mem_cons, List.mem_singleton, List.not_mem_nil, or_false] at hb
    omega
  · cases h
    simp only [List.mem_cons, List.mem_singleton, List.not_mem_nil, or_false] at hb
    omega

theorem sampleBlocks_ok : ∀ a ∈ [7, 8], ∃ blocks, sampleBlocks a = .ok blocks := by
  intro a _
  unfold sampleBlocks
  split_ifs
  · exact ⟨_, rfl⟩
  · exact ⟨_, rfl⟩

/-- Witness of C26: frequency 100, start block 5000, current block 5250, submission blocks
5100 and 5150 for member 7 and 5000 and 5200 for member 8. -/
theorem participation_write_in_bounds_witness :
    ((∀ msg, CalculateTrustedNodePricesParticipation (sampleEnv 5250 [7, 8] sampleBlocks) none ≠
        .error (.panic msg)) ∧
      ∃ r, CalculateTrustedNodePricesParticipation (sampleEnv 5250 [7, 8] sampleBlocks) none =
        .ok r) ∧
    ((∀ msg, CalculateTrustedNodeBalancesParticipation (sampleEnv 5250 [7, 8] sampleBlocks)
        none ≠ .error (.panic msg)) ∧
      ∃ r, CalculateTrustedNodeBalancesParticipation (sampleEnv 5250 [7, 8] sampleBlocks) none =
        .ok r) ∧
    (startBlock 4950 100 / 100 ≤ 5200 / 100 ∧
      U64.sub (5200 / 100) (startBlock 4950 100 / 100) = 5200 / 100 - startBlock 4950 100 / 100 ∧
      5200 / 100 - startBlock 4950 100 / 100 < intervalsPassed 5250 (startBlock 4950 100) 100) :=
  ⟨⟨((participation_write_in_bounds (sampleEnv 5250 [7, 8] sampleBlocks) none 5250 4950 [7, 8]
        (by decide)).1 ⟨rfl, rfl, by decide, by decide, rfl⟩ (by decide)
        sampleBlocks_in_range).1,
      ((participation_write_in_bounds (sampleEnv 5250 [7, 8] sampleBlocks) none 5250 4950 [7, 8]
        (by decide)).1 ⟨rfl, rfl, by decide, by decide, rfl⟩ (by decide)
        sampleBlocks_in_range).2.1 sampleBlocks_ok⟩,
    ⟨((participation_write_in_bounds (sampleEnv 5250 [7, 8] sampleBlocks) none 5250 4950 [7, 8]
        (by decide)).2 ⟨rfl, rfl, by decide, by decide, rfl⟩ (by decide)
        sampleBlocks_in_range).1,
      ((participation_write_in_bounds (sampleEnv 5250 [7, 8] sampleBlocks) none 5250 4950 [7, 8]
        (by decide)).2 ⟨rfl, rfl, by decide, by decide, rfl⟩ (by decide)
        sampleBlocks_in_range).2.1 sampleBlocks_ok⟩,
    ((participation_write_in_bounds (sampleEnv 5250 [7, 8] sampleBlocks) none 5250 4950 [7, 8]
        (by decide)).1 ⟨rfl, rfl, by decide, by decide, rfl⟩ (by decide)
        sampleBlocks_in_range).2.2 5200 (by decide) (by decide) (by decide)⟩

/-! ## The two calculators are one computation -/

theorem pricesMemberLoop_congr (env env' : CalcEnv) (f s n : Nat) (expect : F64)
    (h : env.GetPricesSubmissions = env'.GetPricesSubmissions) :
    ∀ (members : List Address) (st : LoopState),
      pricesMemberLoop env f s n expect members st =
        pricesMemberLoop env' f s n expect members st := by
  intro members
  induction members with
  | nil => intro st; rfl
  | cons member members ih =>
    intro st
    rw [pricesMemberLoop, pricesMemberLoop]
    simp only [h, ih]

theorem prices_congr (env env' : CalcEnv) (opts : Option Nat)
    (hB : env.BlockNumber = env'.BlockNumber) (hq : env.pricesQuery = env'.pricesQuery)
    (hf : env.SubmitPricesFrequency = env'.SubmitPricesFrequency)
    (hm : env.MemberCount = env'.MemberCount) (hlogs : env.GetLogs = env'.GetLogs)
    (hmem : env.GetMemberAddresses = env'.GetMemberAddresses)
    (hsub : env.GetPricesSubmissions = env'.GetPricesSubmissions)
    (hg : env.GammaIncReg = env'.GammaIncReg) :
    CalculateTrustedNodePricesParticipation env opts =
      CalculateTrustedNodePricesParticipation env' opts := by
  unfold CalculateTrustedNodePricesParticipation optsBlockNumber
  simp only [hB, hq, hf, hm, hlogs, hmem, hg,
    pricesMemberLoop_congr env env' _ _ _ _ hsub]

/-- C27. `CalculateTrustedNodePricesParticipation` and
`CalculateTrustedNodeBalancesParticipation` are the same computation: run on collaborators
that give the same block number, parameter-query outcome, update frequency, member count,
logs, member list, per-member submission blocks and gamma function, they end the same way,
with equal results in every field or with the same failure. -/
theorem prices_balances_same_computation (env1 env2 : CalcEnv) (opts : Option Nat)
    (hB : env1.BlockNumber = env2.BlockNumber) (hq : env1.pricesQuery = env2.balancesQuery)
    (hf : env1.SubmitPricesFrequency = env2.SubmitBalancesFrequency)
    (hm : env1.MemberCount = env2.MemberCount) (hlogs : env1.GetLogs = env2.GetLogs)
    (hmem : env1.GetMemberAddresses = env2.GetMemberAddresses)
    (hsub : env1.GetPricesSubmissions = env2.GetBalancesSubmissions)
    (hg : env1.GammaIncReg = env2.GammaIncReg) :
    CalculateTrustedNodePricesParticipation env1 opts =
        CalculateTrustedNodeBalancesParticipation env2 opts ∧
      ∀ r1 r2, CalculateTrustedNodePricesParticipation env1 opts = .ok r1 →
        CalculateTrustedNodeBalancesParticipation env2 opts = .ok r2 →
        r1.StartBlock = r2.StartBlock ∧ r1.UpdateFrequency = r2.UpdateFrequency ∧
        r1.UpdateCount = r2.UpdateCount ∧ r1.Probability = r2.Probability ∧
        r1.ExpectedSubmissions = r2.ExpectedSubmissions ∧
        r1.ActualSubmissions = r2.ActualSubmissions ∧ r1.Participation = r2.Participation := by
  have heq : CalculateTrustedNodePricesParticipation env1 opts =
      CalculateTrustedNodeBalancesParticipation env2 opts := by
    rw [balances_swap]
    exact prices_congr env1 env2.swap opts hB hq hf hm hlogs hmem hsub hg
  refine ⟨heq, ?_⟩
  intro r1 r2 h1 h2
  rw [heq, h2] at h1
  cases h1
  exact ⟨rfl, rfl, rfl, rfl, rfl, rfl, rfl⟩

/-- Witness of C27: both calculators on the same sample collaborators. -/
theorem prices_balances_same_computation_witness :
    CalculateTrustedNodePricesParticipation (sampleEnv 5250 [7, 8] sampleBlocks) none =
        CalculateTrustedNodeBalancesParticipation (sampleEnv 5250 [7, 8] sampleBlocks) none ∧
      ∀ r1 r2,
        CalculateTrustedNodePricesParticipation (sampleEnv 5250 [7, 8] sampleBlocks) none =
          .ok r1 →
        CalculateTrustedNodeBalancesParticipation (sampleEnv 5250 [7, 8] sampleBlocks) none =
          .ok r2 →
        r1.StartBlock = r2.StartBlock ∧ r1.UpdateFrequency = r2.UpdateFrequency ∧
        r1.UpdateCount = r2.UpdateCount ∧ r1.Probability = r2.Probability ∧
        r1.ExpectedSubmissions = r2.ExpectedSubmissions ∧
        r1.ActualSubmissions = r2.ActualSubmissions ∧ r1.Participation = r2.Participation :=
  prices_balances_same_computation (sampleEnv 5250 [7, 8] sampleBlocks)
    (sampleEnv 5250 [7, 8] sampleBlocks) none rfl rfl rfl rfl rfl rfl rfl rfl

/-! ## Number of shards -/

theorem shardLoop_length (N S : Int) (hS : 1 ≤ S) (hov : NoOverflow N S) :
    ∀ (fuel : Nat) (i : Int) (plan : List Shard), 0 ≤ i → S ∣ i →
      shardLoop N S fuel i = some plan →
      plan.length = ((N - i + S - 1) / S).toNat := by
  intro fuel
  induction fuel with
  | zero => intro i plan _ _ h; cases h
  | succ fuel ih =>
    intro i plan hi hdvd h
    unfold shardLoop at h
    by_cases hlt : i < N
    · have hno := hov i hi hlt hdvd
      have hw : wrapInt (i + S) = i + S := wrapInt_of_range _ (by omega) hno
      simp only [hlt, if_true, hw, Option.map_eq_some'] at h
      obtain ⟨rest, hrest, rfl⟩ := h
      have hlen := ih (i + S) rest (by omega) (Dvd.dvd.add hdvd (dvd_refl S)) hrest
      rw [List.length_cons, hlen]
      have h1 : N - i + S - 1 = (N - i - 1) + 1 * S := by ring
      have h2 : N - (i + S) + S - 1 = N - i - 1 := by ring
      rw [h1, h2, Int.add_mul_ediv_right _ _ (by omega : S ≠ 0)]
      have h3 : 0 ≤ (N - i - 1) / S := Int.ediv_nonneg (by omega) (by omega)
      omega
    · simp only [hlt, if_false, Option.some.injEq] at h
      subst h
      have hle : (N - i + S - 1) / S ≤ 0 := by
        by_cases hneg : N - i + S - 1 < 0
        · exact (Int.ediv_neg' hneg (by omega)).le
        · rw [Int.ediv_eq_zero_of_lt (by omega) (by omega)]
      simp only [List.length_nil]
      omega

theorem shardLoop_zero_batchSize (N : Int) (hN : 0 < N) :
    ∀ fuel : Nat, shardLoop N 0 fuel 0 = none := by
  intro fuel
  induction fuel with
  | zero => rfl
  | succ fuel ih =>
    unfold shardLoop
    have hw : wrapInt (0 + 0) = 0 := by decide
    simp only [hN, if_true, hw, ih, Option.map_none']

/-- C29 (amended). For every item count `N` and batch size `S ≥ 1` for which the loop
index never overflows, the dispatch loop of `BatchQuery` and `FlexBatchQuery` exits after
dispatching exactly `ceil(N / S)` shards, none when `N ≤ 0`. For `S = 0` and `N > 0` the
loop never exits, whatever number of iterations is allowed. -/
theorem shardPlan_length (N S : Int) (fuel : Nat) :
    (1 ≤ S → NoOverflow N S → N.toNat < fuel →
      ∃ plan, shardPlan fuel N S = some plan ∧
        plan.length = ((N + S - 1) / S).toNat ∧ (N ≤ 0 → plan = [])) ∧
    (S = 0 → 0 < N → shardPlan fuel N S = none) := by
  constructor
  · intro hS hov hfuel
    obtain ⟨plan, hplan, _⟩ :=
      shardLoop_partitions N S hS hov fuel 0 (le_refl 0) (dvd_zero S) (by simpa using hfuel)
    have hlen := shardLoop_length N S hS hov fuel 0 plan (le_refl 0) (dvd_zero S) hplan
    rw [sub_zero] at hlen
    refine ⟨plan, hplan, hlen, ?_⟩
    intro hN
    have hle : (N + S - 1) / S ≤ 0 := by
      by_cases hneg : N + S - 1 < 0
      · exact (Int.ediv_neg' hneg (by omega)).le
      · rw [Int.ediv_eq_zero_of_lt (by omega) (by omega)]
    have : plan.length = 0 := by omega
    exact List.length_eq_zero.mp this
  · intro hS hN
    subst hS
    exact shardLoop_zero_batchSize N hN fuel

/-- Witness of C29: ten items in batches of three make four shards; three items in batches
of zero never leave the loop. -/
theorem shardPlan_length_witness :
    (∃ plan, shardPlan 11 10 3 = some plan ∧
        plan.length = (((10 : Int) + 3 - 1) / 3).toNat ∧ ((10 : Int) ≤ 0 → plan = [])) ∧
      shardPlan 11 3 0 = none :=
  ⟨(shardPlan_length 10 3 11).1 (by decide) (by intro i _ h _; omega) (by decide),
    (shardPlan_length 3 0 11).2 rfl (by decide)⟩

/-- C29 as stated fails: with `N = 6148914691236517207` and `S = 3074457345618258603`
(at least 1) the third loop index overflows and the loop exits after eight shards, while
`ceil(N / S)` is three. -/
theorem shardPlan_overflow_length :
    (1 ≤ overflowBatchSize ∧
      ((overflowCount + overflowBatchSize - 1) / overflowBatchSize).toNat = 3) ∧
      (shardPlan 9 overflowCount overflowBatchSize).map List.length = some 8 := by
  decide

/-! ## The flag scan of `LoadContracts` -/

/-- C28. Evaluation of the code for the contract names `a` and `b`, for which the first
query registers four calls. When the third sub-call (the address of `b`) fails, the scan
reads `contractNames[2]`, out of range, and panics; when the second sub-call (the ABI of
`a`) fails, the error names `b`, not `a`. -/
theorem loadContracts_flag_index :
    (FlexQuery (storageEnv (.GetAddress "b")) (loadContractsQuery ["a", "b"])).results =
        some [true, true, false, true] ∧
      loadContractsFirstQuery (storageEnv (.GetAddress "b")) ["a", "b"] =
        some (.panic "index out of range") ∧
      (FlexQuery (storageEnv (.GetAbi "a")) (loadContractsQuery ["a", "b"])).results =
        some [true, false, true, true] ∧
      loadContractsFirstQuery (storageEnv (.GetAbi "a")) ["a", "b"] =
        some (.error (.base "failed getting address and ABI for contract b")) := by
  decide

/-! ## `GetProposals` -/

theorem queryWith_run {Call σ : Type} (env : Env Call)
    (query : MultiCaller Call → σ → Except GoError (MultiCaller Call) × σ) (st : σ) :
    (QueryWith env query st).1 = Query env (fun mc => (query mc st).1) := by
  unfold QueryWith Query
  cases env.newMultiCaller 0 with
  | some e => rfl
  | none =>
    simp only
    rcases hq : query [] st with ⟨res, st'⟩
    cases res with
    | error e => rfl
    | ok mc =>
      simp only
      cases (env.flexibleCall 0 true mc).2 <;> rfl

theorem queryWith_of_ok {Call σ : Type} (env : Env Call)
    (query : MultiCaller Call → σ → Except GoError (MultiCaller Call) × σ) (st : σ)
    (h : (QueryWith env query st).1.err = none) :
    ∃ mc, (query [] st).1 = .ok mc ∧ (QueryWith env query st).2 = (query [] st).2 := by
  unfold QueryWith at h ⊢
  cases hnew : env.newMultiCaller 0 with
  | some e => rw [hnew] at h; cases h
  | none =>
    rw [hnew] at h
    simp only at h ⊢
    rcases hq : query [] st with ⟨res, st'⟩
    rw [hq] at h
    cases res with
    | error e => cases h
    | ok mc =>
      simp only at h ⊢
      cases hc : (env.flexibleCall 0 true mc).2 with
      | some e => rw [hc] at h; cases h
      | none => exact ⟨mc, rfl, rfl⟩

theorem proposalsCallback_props {Call : Type} (newProposal : Nat → Option GoError)
    (detailCalls : Nat → List Call) :
    ∀ (ids : List Nat) (mc mc' : MultiCaller Call) (props : List (Option Nat)),
      (proposalsCallback newProposal detailCalls ids mc props).1 = .ok mc' →
      (proposalsCallback newProposal detailCalls ids mc props).2 =
        ids.foldl (fun p i => p.set (i - 1) (some i)) props := by
  intro ids
  induction ids with
  | nil => intro mc mc' props _; rfl
  | cons i ids ih =>
    intro mc mc' props h
    unfold proposalsCallback at h ⊢
    cases hnew : newProposal i with
    | some e => rw [hnew] at h; cases h
    | none =>
      rw [hnew] at h
      simp only at h ⊢
      rw [List.foldl_cons]
      exact ih _ mc' _ h

theorem proposalIds_succ (n : Nat) : proposalIds (n + 1) = proposalIds n ++ [n + 1] := by
  simp [proposalIds, List.range_succ]

theorem proposalIds_length (n : Nat) : (proposalIds n).length = n := by
  simp [proposalIds]

theorem fill_slots : ∀ (n : Nat) (rest : List (Option Nat)),
    (proposalIds n).foldl (fun p i => p.set (i - 1) (some i))
        (List.replicate n none ++ rest) = (proposalIds n).map some ++ rest := by
  intro n
  induction n with
  | zero => intro rest; rfl
  | succ n ih =>
    intro rest
    rw [proposalIds_succ, List.foldl_append, List.replicate_succ', List.append_assoc,
      List.singleton_append, ih (none :: rest)]
    simp [List.set_append, proposalIds_length]

theorem splitProposals_spec (dao : Nat → String) (pName oName : String) :
    ∀ (ids : List Nat) (pDaoProps oDaoProps : List Proposal),
      splitProposals dao pName oName (ids.map some) pDaoProps oDaoProps =
        match (ids.map (fun i => (⟨i, dao i⟩ : Proposal))).find?
            (fun x => decide (x.DAO ≠ pName ∧ x.DAO ≠ oName)) with
        | some x => .error (.error (unrecognizedDao x))
        | none =>
          .ok (pDaoProps ++ (ids.map (fun i => (⟨i, dao i⟩ : Proposal))).filter
              (fun x => decide (x.DAO = pName)),
            oDaoProps ++ (ids.map (fun i => (⟨i, dao i⟩ : Proposal))).filter
              (fun x => decide (x.DAO ≠ pName ∧ x.DAO = oName))) := by
  intro ids
  induction ids with
  | nil => intro p o; simp [splitProposals]
  | cons i ids ih =>
    intro p o
    rw [List.map_cons, List.map_cons]
    unfold splitProposals
    by_cases hp : dao i = pName
    · simp only [hp, if_true, ih]
      simp [List.find?_cons, List.filter_cons, hp]
    · by_cases ho : dao i = oName
      · have hne : ¬oName = pName := ho ▸ hp
        simp only [hp, ho, if_true, if_false, ih]
        simp [List.find?_cons, List.filter_cons, hp, ho, hne]
      · simp only [hp, ho, if_false]
        simp [List.find?_cons, hp, ho]

theorem loadedProposals_length (dao : Nat → String) (n : Nat) :
    (loadedProposals dao n).length = n := by
  simp [loadedProposals, proposalIds]

theorem filter_split_perm (pName oName : String) (props : List Proposal)
    (hall : ∀ x ∈ props, x.DAO = pName ∨ x.DAO = oName) :
    (props.filter (fun x => decide (x.DAO = pName)) ++
      props.filter (fun x => decide (x.DAO ≠ pName ∧ x.DAO = oName))).Perm props := by
  have heq : props.filter (fun x => decide (x.DAO ≠ pName ∧ x.DAO = oName)) =
      props.filter (fun x => !decide (x.DAO = pName)) := by
    apply List.filter_congr
    intro x hx
    rcases hall x hx with h | h
    · simp [h]
    · by_cases hp : x.DAO = pName <;> simp [hp, h]
  rw [heq]
  exact List.filter_append_perm _ props

theorem loadedProposals_nodup (dao : Nat → String) (n : Nat) :
    (loadedProposals dao n).Nodup := by
  unfold loadedProposals proposalIds
  rw [List.map_map]
  refine List.Nodup.map ?_ (List.nodup_range n)
  intro a b h
  have hid := congrArg Proposal.ID h
  simpa using hid

/-- C21. For every proposal count `n` that can be allocated, when the query succeeds, the
callback has stored proposal `i` in slot `i - 1` of the slice for every `i` in `1..n`, and
`GetProposals` either returns the error naming a proposal whose DAO is neither of the two
contract names, or returns two lists that are order-preserving sublists of the proposals
`1..n`, that together hold every proposal exactly once (their lengths sum to `n`), each
proposal being in the list named by its DAO. -/
theorem getProposals_partition {Call : Type} (env : Env Call)
    (newProposal : Nat → Option GoError) (detailCalls : Nat → List Call)
    (dao : Nat → String) (pName oName : String) (n : Nat) (hn : n < 2 ^ 63)
    (hq : (QueryWith env (proposalsCallback newProposal detailCalls (proposalIds n))
      (List.replicate n none)).1.err = none) :
    ((QueryWith env (proposalsCallback newProposal detailCalls (proposalIds n))
        (List.replicate n none)).2 = (proposalIds n).map some ∧
      (∀ i, i < n → (QueryWith env (proposalsCallback newProposal detailCalls (proposalIds n))
        (List.replicate n none)).2[i]? = some (some (i + 1))) ∧
      (loadedProposals dao n).Nodup) ∧
    ((∃ x ∈ loadedProposals dao n, x.DAO ≠ pName ∧ x.DAO ≠ oName ∧
        GetProposals env newProposal detailCalls dao pName oName n =
          .error (.error (unrecognizedDao x))) ∨
      (∃ p o, GetProposals env newProposal detailCalls dao pName oName n = .ok (p, o) ∧
        p.Sublist (loadedProposals dao n) ∧ o.Sublist (loadedProposals dao n) ∧
        (p ++ o).Perm (loadedProposals dao n) ∧ p.length + o.length = n ∧
        (∀ x ∈ p, x.DAO = pName) ∧ (∀ x ∈ o, x.DAO = oName) ∧
        ∀ x ∈ loadedProposals dao n, (x.DAO = pName → x ∈ p) ∧ (x.DAO ≠ pName → x ∈ o))) := by
  obtain ⟨mc, hcb, hst⟩ := queryWith_of_ok env _ _ hq
  have hprops : (QueryWith env (proposalsCallback newProposal detailCalls (proposalIds n))
      (List.replicate n none)).2 = (proposalIds n).map some := by
    rw [hst, proposalsCallback_props newProposal detailCalls _ _ mc _ hcb]
    have := fill_slots n []
    simpa using this
  refine ⟨⟨hprops, ?_, loadedProposals_nodup dao n⟩, ?_⟩
  · intro i hi
    rw [hprops]
    simp [proposalIds, List.getElem?_map, List.getElem?_range hi]
  have hguard : ¬(2 ^ 63 ≤ n) := by omega
  have hG : GetProposals env newProposal detailCalls dao pName oName n =
      splitProposals dao pName oName ((proposalIds n).map some) [] [] := by
    unfold GetProposals
    rw [if_neg hguard]
    rcases hQ : QueryWith env (proposalsCallback newProposal detailCalls (proposalIds n))
      (List.replicate n none) with ⟨run, props⟩
    rw [hQ] at hq hprops
    simp only at hq hprops ⊢
    rw [hq, hprops]
  rw [hG, splitProposals_spec]
  rw [show (proposalIds n).map (fun i => (⟨i, dao i⟩ : Proposal)) = loadedProposals dao n
    from rfl]
  cases hfind : (loadedProposals dao n).find?
      (fun x => decide (x.DAO ≠ pName ∧ x.DAO ≠ oName)) with
  | some x =>
    left
    have hmem := List.mem_of_find?_eq_some hfind
    have hprop := List.find?_some hfind
    simp only [decide_eq_true_eq] at hprop
    exact ⟨x, hmem, hprop.1, hprop.2, rfl⟩
  | none =>
    right
    have hall : ∀ x ∈ loadedProposals dao n, x.DAO = pName ∨ x.DAO = oName := by
      intro x hx
      have h := List.find?_eq_none.mp hfind x hx
      simp only [decide_eq_true_eq, not_and_or, not_not] at h
      exact h
    have hperm := filter_split_perm pName oName (loadedProposals dao n) hall
    refine ⟨_, _, rfl, ?_, ?_, ?_, ?_, ?_, ?_, ?_⟩
    · simp
    · simp
    · simpa using hperm
    · have hlen := hperm.length_eq
      rw [List.length_append, loadedProposals_length] at hlen
      simpa using hlen
    · intro x hx
      simp only [List.nil_append, List.mem_filter, decide_eq_true_eq] at hx
      exact hx.2
    · intro x hx
      simp only [List.nil_append, List.mem_filter, decide_eq_true_eq] at hx
      exact hx.2.2
    · intro x hx
      constructor
      · intro hp
        simp only [List.nil_append, List.mem_filter, decide_eq_true_eq]
        exact ⟨hx, hp⟩
      · intro hp
        simp only [List.nil_append, List.mem_filter, decide_eq_true_eq]
        rcases hall x hx with h | h
        · exact absurd h hp
        · exact ⟨hx, hp, h⟩

/-- Witness of C21: three proposals, the first and third of the Protocol DAO and the second
of the Oracle DAO. -/
theorem getProposals_partition_witness :
    ((3 : Nat) < 2 ^ 63 ∧
      (QueryWith evenEnv (proposalsCallback (fun _ => none) sampleDetailCalls (proposalIds 3))
        (List.replicate 3 none)).1.err = none) ∧
    GetProposals evenEnv (fun _ => none) sampleDetailCalls sampleDao
      "rocketDAOProtocolProposals" "rocketDAONodeTrustedProposals" 3 =
        .ok ([⟨1, "rocketDAOProtocolProposals"⟩, ⟨3, "rocketDAOProtocolProposals"⟩],
          [⟨2, "rocketDAONodeTrustedProposals"⟩]) ∧
    ((QueryWith evenEnv (proposalsCallback (fun _ => none) sampleDetailCalls (proposalIds 3))
        (List.replicate 3 none)).2 = (proposalIds 3).map some ∧
      (∀ i, i < 3 →
        (QueryWith evenEnv (proposalsCallback (fun _ => none) sampleDetailCalls
          (proposalIds 3)) (List.replicate 3 none)).2[i]? = some (some (i + 1))) ∧
      (loadedProposals sampleDao 3).Nodup) :=
  ⟨⟨by decide, by decide⟩, rfl,
    (getProposals_partition evenEnv (fun _ => none) sampleDetailCalls sampleDao
      "rocketDAOProtocolProposals" "rocketDAONodeTrustedProposals" 3
      (by decide) (by decide)).1⟩

/-! ## `ProposeInviteMember` -/

/-- C22 (amended). For every invite proposal, `ProposeInviteMember` packs the method
`proposalInvite` with the arguments `(newMemberId, Sanitize(newMemberUrl),
newMemberAddress)` in that order, wraps a packing error, and otherwise passes to `propose`
the caller's message when non-empty and `invite <id> (<address hex>)` when empty, with the
packed payload. When the sanitizer leaves the URL unchanged, the payload is the encoding
of the arguments as the caller supplied them. -/
theorem proposeInviteMember_payload {Payload TxInfo : Type}
    (env : ProposalEnv Payload TxInfo) (message : String) (newMemberAddress : Address)
    (newMemberId newMemberUrl : String) :
    ProposeInviteMember env message newMemberAddress newMemberId newMemberUrl =
      (match env.Pack "proposalInvite"
          [.str newMemberId, .str (env.Sanitize newMemberUrl), .addr newMemberAddress] with
        | .error e => .error (.wrapped "error encoding payload" e)
        | .ok payload =>
          env.NewTransactionInfo "propose"
            (if message = "" then
              "invite " ++ newMemberId ++ " (" ++ env.Hex newMemberAddress ++ ")"
            else message) payload) ∧
    (env.Sanitize newMemberUrl = newMemberUrl →
      ProposeInviteMember env message newMemberAddress newMemberId newMemberUrl =
        (match env.Pack "proposalInvite"
            [.str newMemberId, .str newMemberUrl, .addr newMemberAddress] with
          | .error e => .error (.wrapped "error encoding payload" e)
          | .ok payload =>
            env.NewTransactionInfo "propose"
              (if message = "" then
                "invite " ++ newMemberId ++ " (" ++ env.Hex newMemberAddress ++ ")"
              else message) payload)) := by
  refine ⟨rfl, ?_⟩
  intro h
  unfold ProposeInviteMember
  rw [h]
  rfl

/-- Witness of C22: an invitation with a clean URL and an empty message. -/
theorem proposeInviteMember_payload_witness :
    sampleProposalEnv.Sanitize "coolguy@rocketpool.net" = "coolguy@rocketpool.net" ∧
    ProposeInviteMember sampleProposalEnv "" 7 "coolguy" "coolguy@rocketpool.net" =
      .ok ("propose", "invite coolguy (0x07)",
        ("proposalInvite",
          [.str "coolguy", .str "coolguy@rocketpool.net", .addr 7])) ∧
    ProposeInviteMember sampleProposalEnv "" 7 "coolguy" "coolguy@rocketpool.net" =
      (match sampleProposalEnv.Pack "proposalInvite"
          [.str "coolguy", .str "coolguy@rocketpool.net", .addr 7] with
        | .error e => .error (.wrapped "error encoding payload" e)
        | .ok payload =>
          sampleProposalEnv.NewTransactionInfo "propose"
            (if ("" : String) = "" then
              "invite " ++ "coolguy" ++ " (" ++ sampleProposalEnv.Hex 7 ++ ")"
            else "") payload) :=
  ⟨by decide, rfl,
    (proposeInviteMember_payload sampleProposalEnv "" 7 "coolguy"
      "coolguy@rocketpool.net").2 (by decide)⟩

/-- C22 as stated fails: with a sanitizer that removes the line feed of `"bad\nurl"`, the
submitted payload encodes `"badurl"`, which is not the encoding of the arguments as the
caller supplied them. -/
theorem proposeInviteMember_sanitizes_url :
    ProposeInviteMember sampleProposalEnv "" 7 "coolguy" "bad\nurl" =
      .ok ("propose", "invite coolguy (0x07)",
        ("proposalInvite", [.str "coolguy", .str "badurl", .addr 7])) ∧
    sampleProposalEnv.Pack "proposalInvite" [.str "coolguy", .str "bad\nurl", .addr 7] =
      .ok ("proposalInvite", [.str "coolguy", .str "bad\nurl", .addr 7]) ∧
    (("proposalInvite", [AbiArg.str "coolguy", .str "badurl", .addr 7]) :
        String × List AbiArg) ≠
      ("proposalInvite", [.str "coolguy", .str "bad\nurl", .addr 7]) :=
  ⟨rfl, rfl, by decide⟩

end RocketPool
